import Mathlib

/-!
# Midish event conversion

A shallow embedding of the packer and unpacker of `conv.c` (conversion between
the wire events CTL, PC and the context-free events XCTL, XPC, NRPN, RPN),
together with the parts of `ev.h` they use, followed by theorems about them.

Conventions of the embedding:

* `unsigned` is 32 bits wide: every `+` and `<<` of the source that can wrap is
  followed by `% 4294967296`; `>>`, `&` and comparisons need no reduction.
* the fields `v0`, `v1` of `struct ev` carry the aliases of ev.h:
  `ctl_num = pc_prog = rpn_num = v0` and `ctl_val = pc_bank = rpn_val = v1`.
* a `struct statelist` is the list of the events of its states, first state
  first.
* an output parameter `rev` is passed in with its previous contents and
  returned with the new ones, so that fields the source does not write keep
  their previous value.
-/

namespace Midish

/-- An event, `struct ev` of ev.h: `cmd`, `dev`, `ch` are `unsigned char`,
`v0` and `v1` are `unsigned`. -/
structure Ev where
  cmd : Nat
  dev : Nat
  ch : Nat
  v0 : Nat
  v1 : Nat
deriving DecidableEq, Repr

/-! ## Constants of ev.h -/

@[simp] def EV_NULL : Nat := 0
@[simp] def EV_TEMPO : Nat := 0x2
@[simp] def EV_TIMESIG : Nat := 0x3
@[simp] def EV_NRPN : Nat := 0x4
@[simp] def EV_RPN : Nat := 0x5
@[simp] def EV_XCTL : Nat := 0x6
@[simp] def EV_XPC : Nat := 0x7
@[simp] def EV_NOFF : Nat := 0x8
@[simp] def EV_NON : Nat := 0x9
@[simp] def EV_KAT : Nat := 0xa
@[simp] def EV_CTL : Nat := 0xb
@[simp] def EV_PC : Nat := 0xc
@[simp] def EV_CAT : Nat := 0xd
@[simp] def EV_BEND : Nat := 0xe
@[simp] def EV_NUMCMD : Nat := 0xf
@[simp] def EV_UNDEF : Nat := 0xffff
@[simp] def EV_MAXCOARSE : Nat := 0x7f
@[simp] def EV_MAXFINE : Nat := 0x3fff

/-! ## Controller numbers

The header defining these names is not among the sources; the numbers are the
ones the specification lists for the wire stream. -/

/-- Modelled from the spec: the constant BANK_HI, whose header is missing;
"Bank select: controller 0 (high), 32 (low)". -/
@[simp] def BANK_HI : Nat := 0
/-- Modelled from the spec: the constant BANK_LO, whose header is missing;
"Bank select: controller 0 (high), 32 (low)". -/
@[simp] def BANK_LO : Nat := 32
/-- Modelled from the spec: the constant DATAENT_HI, whose header is missing;
"Data entry: 6/38". -/
@[simp] def DATAENT_HI : Nat := 6
/-- Modelled from the spec: the constant DATAENT_LO, whose header is missing;
"Data entry: 6/38". -/
@[simp] def DATAENT_LO : Nat := 38
/-- Modelled from the spec: the constant RPN_HI, whose header is missing;
"RPN: 101/100". -/
@[simp] def RPN_HI : Nat := 101
/-- Modelled from the spec: the constant RPN_LO, whose header is missing;
"RPN: 101/100". -/
@[simp] def RPN_LO : Nat := 100
/-- Modelled from the spec: the constant NRPN_HI, whose header is missing;
"NRPN: 99/98". -/
@[simp] def NRPN_HI : Nat := 99
/-- Modelled from the spec: the constant NRPN_LO, whose header is missing;
"NRPN: 99/98". -/
@[simp] def NRPN_LO : Nat := 98

/-- The test `EVCTL_ISFINE(xctlset, num)` of ev.h, `(xctlset) & (1 << (num))`
read as a truth value. Every call site has `num < 32`. -/
def EVCTL_ISFINE (xctlset num : Nat) : Bool :=
  (xctlset &&& (1 <<< num)) != 0

/-- The test `CHAN_MATCH(e1, e2)` of conv.c. -/
def CHAN_MATCH (e1 e2 : Ev) : Bool :=
  e1.ch == e2.ch && e1.dev == e2.dev

/-- The test `CTL_MATCH(e1, e2)` of conv.c (`ctl_num` is `v0`). -/
def CTL_MATCH (e1 e2 : Ev) : Bool :=
  e1.v0 == e2.v0 && CHAN_MATCH e1 e2

/-! ## The state list -/

/-- Modelled from the spec: `state_new` followed by `statelist_add` and the
assignment `i->ev = *ev`; state.c is not among the sources. The spec calls the
state list an ordered collection supporting insert; the new state is linked
as the first element. -/
def statelist_add (slist : List Ev) (ev : Ev) : List Ev :=
  ev :: slist

/-- The loop of `conv_setctl`: the first state matching `ev` gets the value
`ev.ctl_val`; `none` when the loop ends without a match. -/
def conv_setctl_loop : List Ev → Ev → Option (List Ev)
  | [], _ => none
  | i :: rest, ev =>
    if CTL_MATCH i ev then some ({ i with v1 := ev.v1 } :: rest)
    else (conv_setctl_loop rest ev).map (fun r => i :: r)

/-- The function `conv_setctl(slist, ev)`: update the state of the controller
of `ev`, or create one. -/
def conv_setctl (slist : List Ev) (ev : Ev) : List Ev :=
  match conv_setctl_loop slist ev with
  | some l => l
  | none => statelist_add slist ev

/-- The function `conv_getctl(slist, ev, num)`: the value of the first state of
controller `num` on the channel and device of `ev`, or `EV_UNDEF`. -/
def conv_getctl : List Ev → Ev → Nat → Nat
  | [], _, _ => EV_UNDEF
  | i :: rest, ev, num =>
    if i.v0 == num && CHAN_MATCH i ev then i.v1 else conv_getctl rest ev num

/-- The function `conv_rmctl(slist, ev, num)`: unlink the first state of
controller `num` on the channel and device of `ev` (`statelist_rm`). -/
def conv_rmctl : List Ev → Ev → Nat → List Ev
  | [], _, _ => []
  | i :: rest, ev, num =>
    if i.v0 == num && CHAN_MATCH i ev then rest else i :: conv_rmctl rest ev num

/-- The function `conv_getctx(slist, ev, hi, lo)`: the 14-bit value of a pair
of controllers, or `EV_UNDEF` when one of them is missing. -/
def conv_getctx (slist : List Ev) (ev : Ev) (hi lo : Nat) : Nat :=
  let vlo := conv_getctl slist ev lo
  if vlo = EV_UNDEF then EV_UNDEF
  else
    let vhi := conv_getctl slist ev hi
    if vhi = EV_UNDEF then EV_UNDEF
    else (vlo + (vhi <<< 7) % 4294967296) % 4294967296

/-! ## The packer -/

/-- The tail of the `DATAENT_LO` case of `conv_packev`, from the lookup of
`DATAENT_HI` on; `rev` already carries the new `cmd`. -/
def conv_packev_dataent (l : List Ev) (ev rev : Ev) (num : Nat) : List Ev × Ev × Nat :=
  let val := conv_getctl l ev DATAENT_HI
  if val = EV_UNDEF then (l, rev, 0)
  else
    (l, { rev with dev := ev.dev, ch := ev.ch, v0 := num,
                   v1 := (ev.v1 + (val <<< 7) % 4294967296) % 4294967296 }, 1)

/-- The `default:` case of the controller switch of `conv_packev`. -/
def conv_packev_default (l : List Ev) (xctlset : Nat) (ev rev : Ev) : List Ev × Ev × Nat :=
  if ev.v0 < 32 then
    if EVCTL_ISFINE xctlset ev.v0 then (conv_setctl l ev, rev, 0)
    else
      (l, { cmd := EV_XCTL, dev := ev.dev, ch := ev.ch, v0 := ev.v0,
            v1 := (ev.v1 <<< 7) % 4294967296 }, 1)
  else if ev.v0 < 64 then
    let num := ev.v0 - 32
    if !EVCTL_ISFINE xctlset num then (l, rev, 0)
    else
      let val := conv_getctl l ev num
      if val = EV_UNDEF then (l, rev, 0)
      else
        (l, { cmd := EV_XCTL, dev := ev.dev, ch := ev.ch, v0 := num,
              v1 := (ev.v1 + (val <<< 7) % 4294967296) % 4294967296 }, 1)
  else
    (l, { cmd := EV_XCTL, dev := ev.dev, ch := ev.ch, v0 := ev.v0,
          v1 := (ev.v1 <<< 7) % 4294967296 }, 1)

/-- The function `conv_packev(l, xctlset, ev, rev)`. The result is the new
state list, the new contents of `*rev` and the returned count (1 when `*rev`
holds an event, 0 otherwise). -/
def conv_packev (l : List Ev) (xctlset : Nat) (ev rev : Ev) : List Ev × Ev × Nat :=
  if ev.cmd = EV_PC then
    (l, { cmd := EV_XPC, dev := ev.dev, ch := ev.ch, v0 := ev.v0,
          v1 := conv_getctx l ev BANK_HI BANK_LO }, 1)
  else if ev.cmd = EV_CTL then
    if ev.v0 = BANK_HI then
      (conv_setctl (conv_rmctl l ev BANK_LO) ev, rev, 0)
    else if ev.v0 = RPN_HI then
      (conv_setctl (conv_rmctl (conv_rmctl l ev NRPN_LO) ev RPN_LO) ev, rev, 0)
    else if ev.v0 = NRPN_HI then
      (conv_setctl (conv_rmctl (conv_rmctl l ev RPN_LO) ev NRPN_LO) ev, rev, 0)
    else if ev.v0 = DATAENT_HI then
      (conv_setctl (conv_rmctl l ev DATAENT_LO) ev, rev, 0)
    else if ev.v0 = BANK_LO then
      (conv_setctl l ev, rev, 0)
    else if ev.v0 = NRPN_LO then
      (conv_setctl (conv_rmctl l ev RPN_LO) ev, rev, 0)
    else if ev.v0 = RPN_LO then
      (conv_setctl (conv_rmctl l ev NRPN_LO) ev, rev, 0)
    else if ev.v0 = DATAENT_LO then
      let num := conv_getctx l ev NRPN_HI NRPN_LO
      if num ≠ EV_UNDEF then
        conv_packev_dataent l ev { rev with cmd := EV_NRPN } num
      else
        let num := conv_getctx l ev RPN_HI NRPN_LO
        if num = EV_UNDEF then (l, rev, 0)
        else conv_packev_dataent l ev { rev with cmd := EV_RPN } num
    else conv_packev_default l xctlset ev rev
  else (l, ev, 1)

/-! ## The unpacker -/

/-- The two events written at the label `dataentry:` of `conv_unpackev`. -/
def conv_unpackev_dataentry (ev : Ev) : List Ev :=
  [ { cmd := EV_CTL, dev := ev.dev, ch := ev.ch, v0 := DATAENT_HI, v1 := ev.v1 >>> 7 },
    { cmd := EV_CTL, dev := ev.dev, ch := ev.ch, v0 := DATAENT_LO, v1 := ev.v1 &&& 0x7f } ]

/-- The function `conv_unpackev(slist, xctlset, ev, rev)`. The argument `rev`
gives the previous contents of the caller's array, slot by slot. The result
is the new state list and the events written to the slots `0 .. nev - 1`, in
order; the returned count `nev` is the length of that list and the slots from
`nev` on are not written. -/
def conv_unpackev (slist : List Ev) (xctlset : Nat) (ev : Ev) (rev : Nat → Ev) :
    List Ev × List Ev :=
  if ev.cmd = EV_XCTL then
    if ev.v0 < 32 && EVCTL_ISFINE xctlset ev.v0 then
      let hi := ev.v1 >>> 7
      let val := conv_getctl slist ev ev.v0
      let lo : Ev := { cmd := EV_CTL, dev := ev.dev, ch := ev.ch,
                       v0 := (ev.v0 + 32) % 4294967296, v1 := ev.v1 &&& 0x7f }
      if val ≠ hi ∨ val = EV_UNDEF then
        let r0 : Ev := { cmd := EV_CTL, dev := ev.dev, ch := ev.ch, v0 := ev.v0, v1 := hi }
        (conv_setctl slist r0, [r0, lo])
      else (slist, [lo])
    else
      (slist, [{ cmd := EV_CTL, dev := ev.dev, ch := ev.ch, v0 := ev.v0, v1 := ev.v1 >>> 7 }])
  else if ev.cmd = EV_XPC then
    let val := conv_getctx slist ev BANK_HI BANK_LO
    if val ≠ ev.v1 ∧ ev.v1 ≠ EV_UNDEF then
      let r0 : Ev := { cmd := EV_CTL, dev := ev.dev, ch := ev.ch, v0 := BANK_HI, v1 := ev.v1 >>> 7 }
      let r1 : Ev := { cmd := EV_CTL, dev := ev.dev, ch := ev.ch, v0 := BANK_LO, v1 := ev.v1 &&& 0x7f }
      (conv_setctl (conv_setctl slist r0) r1,
        [r0, r1, { rev 2 with cmd := EV_PC, dev := ev.dev, ch := ev.ch, v0 := ev.v0 }])
    else
      (slist, [{ rev 0 with cmd := EV_PC, dev := ev.dev, ch := ev.ch, v0 := ev.v0 }])
  else if ev.cmd = EV_NRPN then
    let val := conv_getctx slist ev NRPN_HI NRPN_LO
    if val ≠ ev.v0 then
      let r0 : Ev := { cmd := EV_CTL, dev := ev.dev, ch := ev.ch, v0 := NRPN_HI, v1 := ev.v0 >>> 7 }
      let r1 : Ev := { cmd := EV_CTL, dev := ev.dev, ch := ev.ch, v0 := NRPN_LO, v1 := ev.v0 &&& 0x7f }
      (conv_setctl (conv_setctl (conv_rmctl (conv_rmctl slist ev RPN_HI) ev RPN_LO) r0) r1,
        r0 :: r1 :: conv_unpackev_dataentry ev)
    else (slist, conv_unpackev_dataentry ev)
  else if ev.cmd = EV_RPN then
    let val := conv_getctx slist ev RPN_HI RPN_LO
    if val ≠ ev.v0 then
      let r0 : Ev := { cmd := EV_CTL, dev := ev.dev, ch := ev.ch, v0 := RPN_HI, v1 := ev.v0 >>> 7 }
      let r1 : Ev := { cmd := EV_CTL, dev := ev.dev, ch := ev.ch, v0 := RPN_LO, v1 := ev.v0 &&& 0x7f }
      (conv_setctl (conv_setctl (conv_rmctl (conv_rmctl slist ev NRPN_HI) ev NRPN_LO) r0) r1,
        r0 :: r1 :: conv_unpackev_dataentry ev)
    else (slist, conv_unpackev_dataentry ev)
  else (slist, [ev])

/-! ## Event constructors used in the statements -/

/-- The wire event CTL(num, val) on device `dev`, channel `ch`. -/
def mkCTL (dev ch num val : Nat) : Ev :=
  { cmd := EV_CTL, dev := dev, ch := ch, v0 := num, v1 := val }

/-- The canonical event NRPN{num, val} (`rpn_num` is `v0`, `rpn_val` is `v1`). -/
def mkNRPN (dev ch num val : Nat) : Ev :=
  { cmd := EV_NRPN, dev := dev, ch := ch, v0 := num, v1 := val }

/-- The canonical event RPN{num, val}. -/
def mkRPN (dev ch num val : Nat) : Ev :=
  { cmd := EV_RPN, dev := dev, ch := ch, v0 := num, v1 := val }

/-- The canonical event XCTL{num, val}. -/
def mkXCTL (dev ch num val : Nat) : Ev :=
  { cmd := EV_XCTL, dev := dev, ch := ch, v0 := num, v1 := val }

/-- The canonical event XPC{bank, prog} (`pc_prog` is `v0`, `pc_bank` is `v1`). -/
def mkXPC (dev ch bank prog : Nat) : Ev :=
  { cmd := EV_XPC, dev := dev, ch := ch, v0 := prog, v1 := bank }

/-- The wire event PC(prog); a PC event has no bank, its field `v1` is the
unused value `junk`. -/
def mkPC (dev ch prog junk : Nat) : Ev :=
  { cmd := EV_PC, dev := dev, ch := ch, v0 := prog, v1 := junk }

/-! ## Streams of events

The sources hold no caller of the converter; the two loops below are the
event-by-event use the stream properties speak of. -/

/-- Packing a wire stream: `conv_packev` on each event in order, with one
running state list and one event buffer `rev` that the caller reuses. The
result is the final state list, the final contents of the buffer and the
events emitted (those of the calls that returned 1), in order. -/
def pack_stream (xctlset : Nat) : List Ev → Ev → List Ev → List Ev × Ev × List Ev
  | l, rev, [] => (l, rev, [])
  | l, rev, e :: es =>
    let r := conv_packev l xctlset e rev
    let rest := pack_stream xctlset r.1 r.2.1 es
    (rest.1, rest.2.1, if r.2.2 = 1 then r.2.1 :: rest.2.2 else rest.2.2)

/-- The caller's array after a call of `conv_unpackev` that wrote `out` to
its first slots. -/
def rev_store (rev : Nat → Ev) (out : List Ev) : Nat → Ev :=
  fun i => out.getD i (rev i)

/-- Unpacking a canonical stream: `conv_unpackev` on each event in order, with
one running mirror state and one array that the caller reuses. The result is
the final mirror state and the concatenated wire output. -/
def unpack_stream (xctlset : Nat) : List Ev → (Nat → Ev) → List Ev → List Ev × List Ev
  | m, _, [] => (m, [])
  | m, rev, c :: cs =>
    let u := conv_unpackev m xctlset c rev
    let rest := unpack_stream xctlset u.1 (rev_store rev u.2) cs
    (rest.1, u.2 ++ rest.2)

/-- The canonical events of the stream-level recovery: an NRPN with 14-bit
num and val, an XPC with a 14-bit bank, or an XCTL with a 14-bit value on a
controller number in 1..31 other than 6 that the bitmap marks fine. -/
def recoverable (xctlset : Nat) (c : Ev) : Prop :=
  (c.cmd = EV_NRPN ∧ c.v0 ≤ EV_MAXFINE ∧ c.v1 ≤ EV_MAXFINE) ∨
  (c.cmd = EV_XPC ∧ c.v1 ≤ EV_MAXFINE) ∨
  (c.cmd = EV_XCTL ∧ 1 ≤ c.v0 ∧ c.v0 ≤ 31 ∧ c.v0 ≠ 6 ∧ EVCTL_ISFINE xctlset c.v0 = true ∧
    c.v1 ≤ EV_MAXFINE)

/-- The canonical events that survive a round trip through the wire form
from empty states: the recoverable ones, and an XCTL on a coarse controller
that is not reserved (number in 1..31 other than 6 and not fine, or in 64..127
other than 98..101) whose value has its low seven bits clear. -/
def round_trips (xctlset : Nat) (c : Ev) : Prop :=
  recoverable xctlset c ∨
  (c.cmd = EV_XCTL ∧ c.v1 ≤ EV_MAXFINE ∧ c.v1 % 128 = 0 ∧
    ((1 ≤ c.v0 ∧ c.v0 ≤ 31 ∧ c.v0 ≠ 6 ∧ EVCTL_ISFINE xctlset c.v0 = false) ∨
     (64 ≤ c.v0 ∧ c.v0 ≤ 127 ∧ c.v0 ≠ 98 ∧ c.v0 ≠ 99 ∧ c.v0 ≠ 100 ∧ c.v0 ≠ 101)))

/-- The number of events CTL(num, _) in a list of wire events. -/
def count_ctl (num : Nat) (out : List Ev) : Nat :=
  (out.filter (fun e => e.cmd == EV_CTL && e.v0 == num)).length

/-! ## Lookups by channel

Auxiliary forms used in the proofs: a lookup written with the device and
channel instead of an event carrying them. -/

/-- The lookup `conv_getctl` for controller `k` of channel `ch` of device
`dev`. -/
def getv (l : List Ev) (dev ch k : Nat) : Nat :=
  conv_getctl l { cmd := 0, dev := dev, ch := ch, v0 := 0, v1 := 0 } k

/-- The lookup of controller `k` after the removal of its first state. -/
def rmv (l : List Ev) (dev ch k : Nat) : Nat :=
  getv (conv_rmctl l { cmd := 0, dev := dev, ch := ch, v0 := 0, v1 := 0 } k) dev ch k

/-- The controller numbers whose states the packer and the mirror of the
unpacker keep in step on a recoverable stream. -/
def sync_key (k : Nat) : Prop :=
  k = 0 ∨ k = 32 ∨ k = 98 ∨ k = 99 ∨ (1 ≤ k ∧ k ≤ 31 ∧ k ≠ 6)

/-- The mirror state `m` and the packer state `p` agree on every lookup of a
controller in `sync_key`. -/
def in_sync (m p : List Ev) : Prop :=
  ∀ dev ch k, sync_key k → getv m dev ch k = getv p dev ch k

/-! ## Keys of the state list -/

/-- Two states have the same key: the same controller number on the same
channel of the same device (the test `CTL_MATCH`). -/
def same_key (a b : Ev) : Prop :=
  a.v0 = b.v0 ∧ a.ch = b.ch ∧ a.dev = b.dev

instance same_key_decidable (a b : Ev) : Decidable (same_key a b) := by
  unfold same_key
  infer_instance

/-- The state list holds at most one state per (device, channel, controller
number). -/
def keys_unique (l : List Ev) : Prop :=
  l.Pairwise (fun a b => ¬ same_key a b)

/-- No state of the list is recorded for controller `k` of channel `ch` of
device `dev`. -/
def absent (l : List Ev) (dev ch k : Nat) : Prop :=
  ∀ s ∈ l, ¬ (s.v0 = k ∧ s.ch = ch ∧ s.dev = dev)

/-- The event is the wire event CTL(k, _) on channel `ch` of device `dev`. -/
def is_ctl_on (dev ch k : Nat) (e : Ev) : Prop :=
  e.cmd = EV_CTL ∧ e.v0 = k ∧ e.ch = ch ∧ e.dev = dev

/-- A canonical event whose fields are in range: XCTL with num <= 127 and
val <= 0x3FFF, NRPN or RPN with num and val <= 0x3FFF, XPC with prog <= 127
and bank <= 0x3FFF or bank = UNDEF (`pc_prog` is `v0`, `pc_bank` is `v1`). -/
def canonical_in_range (c : Ev) : Prop :=
  (c.cmd = EV_XCTL ∧ c.v0 ≤ EV_MAXCOARSE ∧ c.v1 ≤ EV_MAXFINE) ∨
  ((c.cmd = EV_NRPN ∨ c.cmd = EV_RPN) ∧ c.v0 ≤ EV_MAXFINE ∧ c.v1 ≤ EV_MAXFINE) ∨
  (c.cmd = EV_XPC ∧ c.v0 ≤ EV_MAXCOARSE ∧ (c.v1 ≤ EV_MAXFINE ∨ c.v1 = EV_UNDEF))

/-- A wire event with 7-bit payloads: a CTL with ctl_num <= 127 and
ctl_val <= 127, or a PC with prog <= 127. -/
def wire_7bit (e : Ev) : Prop :=
  (e.cmd = EV_CTL ∧ e.v0 ≤ EV_MAXCOARSE ∧ e.v1 ≤ EV_MAXCOARSE) ∨
  (e.cmd = EV_PC ∧ e.v0 ≤ EV_MAXCOARSE)

/-! ## The states of one channel -/

/-- The states of the list recorded for channel `ch` of device `dev`, in the
order of the list. -/
def chan_entries (l : List Ev) (dev ch : Nat) : List Ev :=
  l.filter (fun s => s.ch == ch && s.dev == dev)

/-! ## The controller registry and the phase of an event (ev.c)

The table `evctl_tab[128]` of the source is a function from the controller
number to its entry; the source reads and writes only the entries 0..127. A
name is an optional string (`none` for the null pointer); the string helpers
`str_eq` and `str_new`, whose file is not among the sources, are string
equality and the identity. -/

@[simp] def EV_NOFF_DEFAULTVEL : Nat := 100
@[simp] def EV_BEND_DEFAULT : Nat := 0x2000
@[simp] def EV_CAT_DEFAULT : Nat := 0
@[simp] def EV_PHASE_FIRST : Nat := 1
@[simp] def EV_PHASE_NEXT : Nat := 2
@[simp] def EV_PHASE_LAST : Nat := 4

/-- An entry of the registry, `struct evctl` of ev.h. -/
structure Evctl where
  name : Option String
  defval : Nat
deriving DecidableEq, Repr

/-- The test `EV_CTL_ISPARAM(ev)` of ev.h. -/
def EV_CTL_ISPARAM (evctl_tab : Nat → Evctl) (ev : Ev) : Bool :=
  (evctl_tab ev.v0).defval == EV_UNDEF

/-- The test `EV_CTL_ISFRAME(ev)` of ev.h. -/
def EV_CTL_ISFRAME (evctl_tab : Nat → Evctl) (ev : Ev) : Bool :=
  (evctl_tab ev.v0).defval != EV_UNDEF

/-- The value `EV_CTL_DEFVAL(ev)` of ev.h. -/
def EV_CTL_DEFVAL (evctl_tab : Nat → Evctl) (ev : Ev) : Nat :=
  (evctl_tab ev.v0).defval

/-- The function `ev_phase(ev)` of ev.c (`cat_val` and `bend_val` are `v0`,
`ctl_val` is `v1`). -/
def ev_phase (evctl_tab : Nat → Evctl) (ev : Ev) : Nat :=
  if ev.cmd = EV_NOFF then EV_PHASE_LAST
  else if ev.cmd = EV_NON then EV_PHASE_FIRST
  else if ev.cmd = EV_KAT then EV_PHASE_NEXT
  else if ev.cmd = EV_CAT then
    if ev.v0 ≠ EV_CAT_DEFAULT then EV_PHASE_FIRST ||| EV_PHASE_NEXT else EV_PHASE_LAST
  else if ev.cmd = EV_XCTL then
    if !EV_CTL_ISFRAME evctl_tab ev then EV_PHASE_FIRST ||| EV_PHASE_LAST
    else if ev.v1 ≠ EV_CTL_DEFVAL evctl_tab ev then EV_PHASE_FIRST ||| EV_PHASE_NEXT
    else EV_PHASE_LAST
  else if ev.cmd = EV_BEND then
    if ev.v0 ≠ EV_BEND_DEFAULT then EV_PHASE_FIRST ||| EV_PHASE_NEXT else EV_PHASE_LAST
  else EV_PHASE_FIRST ||| EV_PHASE_LAST

/-- The function `evctl_conf(num, name, defval)` of ev.c: the name is replaced
only when the argument is not null. -/
def evctl_conf (evctl_tab : Nat → Evctl) (num : Nat) (name : Option String) (defval : Nat) :
    Nat → Evctl :=
  fun i =>
    if i = num then
      { name := match name with
                | some n => some n
                | none => (evctl_tab num).name,
        defval := defval }
    else evctl_tab i

/-- The function `evctl_unconf(i)` of ev.c. -/
def evctl_unconf (evctl_tab : Nat → Evctl) (i : Nat) : Nat → Evctl :=
  fun j => if j = i then { name := none, defval := EV_UNDEF } else evctl_tab j

/-- The loop of `evctl_lookup` from the index `i`, with `n` entries left to
visit: the first index whose entry bears the name. -/
def evctl_lookup_loop (evctl_tab : Nat → Evctl) (name : String) : Nat → Nat → Option Nat
  | 0, _ => none
  | n + 1, i =>
    if (evctl_tab i).name = some name then some i
    else evctl_lookup_loop evctl_tab name n (i + 1)

/-- The function `evctl_lookup(name, ret)` of ev.c: the returned value and the
contents of `*ret`, which is written only when the name is found. -/
def evctl_lookup (evctl_tab : Nat → Evctl) (name : String) (ret : Nat) : Nat × Nat :=
  match evctl_lookup_loop evctl_tab name 128 0 with
  | some i => (1, i)
  | none => (0, ret)

/-- The function `evctl_isreserved(num)` of ev.c. -/
def evctl_isreserved (num : Nat) : Nat :=
  if num = BANK_HI ∨ num = DATAENT_HI ∨ (num ≥ 32 ∧ num < 64) ∨
      num = RPN_HI ∨ num = RPN_LO ∨ num = NRPN_HI ∨ num = NRPN_LO then 1
  else 0

/-! ## Tracks (track.c)

A track of the source is a linked list of `struct seqev` nodes that ends in
the node `eot` embedded in `struct track`. Here the list of the nodes before
`eot` is a Lean list, `eot` is a field of its own, and a position (a pointer to
a node of the track) is the index of the node: the indices below
`evs.length` are the events, the index `evs.length` is `eot`. The `delta`
fields are `unsigned`, so that sums are taken modulo 2^32. -/

/-- A node of a track, `struct seqev` of track.h without its links. -/
structure Seqev where
  delta : Nat
  ev : Ev
deriving DecidableEq, Repr

/-- A track, `struct track` of track.h. -/
structure Track where
  evs : List Seqev
  eot : Seqev
deriving DecidableEq, Repr

/-- The nodes of a track in list order, from `first` to the node whose `next`
is null. -/
def track_nodes (o : Track) : List Seqev := o.evs ++ [o.eot]

/-- The function `track_init(o)` of track.c, on whatever the memory of the
track holds. -/
def track_init (o : Track) : Track :=
  { evs := [],
    eot := { delta := 0, ev := { o.eot.ev with cmd := EV_NULL } } }

/-- The function `seqev_ins(pos, se)` of track.c at the node of index `pos`
of the list `evs` followed by `eot`: the walk to the node, then the body of
the function (on an event, and on `eot`). No node has an index above
`evs.length`. -/
def seqev_ins_at : List Seqev → Seqev → Nat → Seqev → Option (List Seqev × Seqev)
  | [], eot, 0, se => some ([{ se with delta := eot.delta }], { eot with delta := 0 })
  | [], _, _ + 1, _ => none
  | p :: rest, eot, 0, se =>
    some ({ se with delta := p.delta } :: { p with delta := 0 } :: rest, eot)
  | p :: rest, eot, n + 1, se =>
    match seqev_ins_at rest eot n se with
    | some r => some (p :: r.1, r.2)
    | none => none

/-- The function `seqev_ins(pos, se)` of track.c on a track. -/
def seqev_ins (o : Track) (pos : Nat) (se : Seqev) : Option Track :=
  match seqev_ins_at o.evs o.eot pos se with
  | some r => some { evs := r.1, eot := r.2 }
  | none => none

/-- The function `seqev_rm(pos)` of track.c at the node of index `pos` of the
list `evs` followed by `eot`. The node `eot` has no next node and cannot be
removed. -/
def seqev_rm_at : List Seqev → Seqev → Nat → Option (List Seqev × Seqev)
  | [], _, _ => none
  | [p], eot, 0 => some ([], { eot with delta := (eot.delta + p.delta) % 4294967296 })
  | p :: n :: rest, eot, 0 =>
    some ({ n with delta := (n.delta + p.delta) % 4294967296 } :: rest, eot)
  | p :: rest, eot, k + 1 =>
    match seqev_rm_at rest eot k with
    | some r => some (p :: r.1, r.2)
    | none => none

/-- The function `seqev_rm(pos)` of track.c on a track. -/
def seqev_rm (o : Track) (pos : Nat) : Option Track :=
  match seqev_rm_at o.evs o.eot pos with
  | some r => some { evs := r.1, eot := r.2 }
  | none => none

/-- The loop of `track_numev` from the count `n`. -/
def track_numev_loop : Nat → List Seqev → Nat
  | n, [] => n
  | n, _ :: rest => track_numev_loop ((n + 1) % 4294967296) rest

/-- The function `track_numev(o)` of track.c. -/
def track_numev (o : Track) : Nat := track_numev_loop 0 o.evs

/-- The loop of `track_numtic` from the sum `ntics`. -/
def track_numtic_loop : Nat → List Seqev → Nat
  | ntics, [] => ntics
  | ntics, i :: rest => track_numtic_loop ((ntics + i.delta) % 4294967296) rest

/-- The function `track_numtic(o)` of track.c. -/
def track_numtic (o : Track) : Nat := track_numtic_loop 0 (track_nodes o)

/-- The absolute tick of every node with its event, as the loop of
`track_dump` computes them from the tick `tic`. -/
def track_ticks_loop : Nat → List Seqev → List (Nat × Ev)
  | _, [] => []
  | tic, i :: rest =>
    ((tic + i.delta) % 4294967296, i.ev) ::
      track_ticks_loop ((tic + i.delta) % 4294967296) rest

/-- The absolute tick and the event of every node of a track, `eot`
included. -/
def track_ticks (o : Track) : List (Nat × Ev) := track_ticks_loop 0 (track_nodes o)

/-- The function `track_clearall(o)` of track.c. -/
def track_clearall (o : Track) : Track :=
  { evs := [], eot := { o.eot with delta := 0 } }

/-- The function `track_moveall(dst, src)` of track.c on two distinct tracks:
the new `dst` and the new `src`. -/
def track_moveall (dst src : Track) : Track × Track :=
  let dst1 := track_clearall dst
  let dst2 : Track := { dst1 with eot := { dst1.eot with delta := src.eot.delta } }
  let dst3 : Track :=
    if src.evs.isEmpty then { dst2 with evs := [] }
    else { dst2 with evs := src.evs }
  (dst3, { evs := [], eot := { src.eot with delta := 0 } })

/-- The tracks that are reached from `track_init` by insertions of events whose
kind is not `EV_NULL`, removals, `track_clearall` and `track_moveall`. -/
inductive Reachable : Track → Prop
  | init (o : Track) : Reachable (track_init o)
  | ins (o o1 : Track) (pos : Nat) (se : Seqev) : Reachable o → se.ev.cmd ≠ EV_NULL →
      seqev_ins o pos se = some o1 → Reachable o1
  | rm (o o1 : Track) (pos : Nat) : Reachable o → seqev_rm o pos = some o1 → Reachable o1
  | clearall (o : Track) : Reachable o → Reachable (track_clearall o)
  | moveall_dst (dst src : Track) : Reachable dst → Reachable src →
      Reachable (track_moveall dst src).1
  | moveall_src (dst src : Track) : Reachable dst → Reachable src →
      Reachable (track_moveall dst src).2

/-- The number of nodes of a track whose event is of kind `EV_NULL`. -/
def count_nil (o : Track) : Nat :=
  ((track_nodes o).filter (fun s => s.ev.cmd == EV_NULL)).length

/-! ## The command layer (user.c)

The interpreter values are `struct data_s` of data.h, which is not among the
sources: the type below has one constructor for each `DATA_` tag that user.c
tests. The song is reached through `song_chanlookup`, `song_trklookup` and
`song_measuretotic`, taken as parameters, and the constant `DEFAULT_MAXNDEVS`
of default.h through the parameter `maxdev` (the value of `EV_MAXDEV`). What
`user_printstr` prints is collected in a list. -/

@[simp] def EV_MAXCH : Nat := 15

/-- A value of the interpreter, `struct data_s`. -/
inductive Data where
  | nil : Data
  | long (num : Int) : Data
  | string (str : String) : Data
  | ref (name : String) : Data
  | list (items : List Data) : Data

/-- The conversion of a `long` to `unsigned`. -/
def to_unsigned (n : Int) : Nat := (n % 4294967296).toNat

/-- The function `data_list2chan(o, dev, ch)` of user.c: the returned value, the
contents of `*dev` and `*ch`, and the messages printed. The tests `*ch < 0` and
`*dev < 0` on unsigned numbers never hold. -/
def data_list2chan (song_chanlookup : String → Option (Nat × Nat)) (maxdev : Nat)
    (o : Data) (dev ch : Nat) : Nat × Nat × Nat × List String :=
  match o with
  | Data.list [Data.long d, Data.long c] =>
    let dev1 := to_unsigned d
    let ch1 := to_unsigned c
    if ch1 > EV_MAXCH ∨ dev1 > maxdev then
      (1, dev1, ch1, ["bad dev/midichan ranges\n"])
    else (1, dev1, ch1, [])
  | Data.list _ => (0, dev, ch, ["bad \x7bdev midichan\x7d in spec\n"])
  | Data.ref name =>
    match song_chanlookup name with
    | none => (0, dev, ch, ["no such chan name\n"])
    | some i => (1, i.1, i.2, [])
  | _ => (0, dev, ch, ["bad channel specification\n"])

/-- The arguments with which `user_func_trackquant` calls `track_seek` and
`track_opquantise` on the track it found. -/
structure QuantCall where
  trkname : String
  tic : Nat
  first : Nat
  len : Nat
  quantum : Nat
  rate : Nat
deriving DecidableEq, Repr

/-- The function `user_func_trackquant(o)` of user.c: the returned value, the
call of the quantize operation if it is reached, and the messages printed by
the function itself. The five lookups of the arguments are the five optional
values (`none` when the lookup returns 0); `long` is taken to be wider than
`unsigned`, so that `tic > quantum / 2` compares the two numbers as they
are. -/
def user_func_trackquant (song_trklookup : String → Bool) (song_measuretotic : Int → Nat)
    (trackname : Option String) (frm amount quantum rate : Option Int) :
    Nat × Option QuantCall × List String :=
  match trackname, frm, amount, quantum, rate with
  | some trkname, some frm, some amount, some quantum, some rate =>
    if song_trklookup trkname = false then (0, none, ["trackquant: no such track\n"])
    else if rate > 100 then
      (0, none, ["trackquant: rate must be between 0 and 100\n"])
    else
      let tic := song_measuretotic frm % 4294967296
      let len := to_unsigned ((song_measuretotic (frm + amount) : Int) - (tic : Int))
      if (tic : Int) > Int.tdiv quantum 2 then
        (1, some { trkname := trkname,
                   tic := to_unsigned ((tic : Int) - Int.tdiv quantum 2),
                   first := to_unsigned (Int.tdiv quantum 2),
                   len := len,
                   quantum := to_unsigned quantum,
                   rate := to_unsigned rate }, [])
      else
        (1, some { trkname := trkname,
                   tic := tic,
                   first := 0,
                   len := to_unsigned ((len : Int) - Int.tdiv quantum 2),
                   quantum := to_unsigned quantum,
                   rate := to_unsigned rate }, [])
  | _, _, _, _, _ => (0, none, [])

/-! ## The cut of a tick window (frame.h)

The file frame.h declares `track_framecut(o, start, len)` and user.c calls the
cut operation, but no source file among those at hand defines it. The
definitions of this section follow the description of `cut` in the
specification, for note frames only. -/

/-- The events of a track in list order, `eot` excluded. -/
def track_events (o : Track) : List Ev := o.evs.map (fun s => s.ev)

/-- Modelled from the spec: the event `e` is a note-off that matches the
note-on `n`, on the same device, channel and key. -/
def is_noff_of (n e : Ev) : Bool :=
  e.cmd == EV_NOFF && e.dev == n.dev && e.ch == n.ch && e.v0 == n.v0

/-- Modelled from the spec: the list holds a note-off that matches the
note-on `n`. -/
def has_noff (n : Ev) (l : List Ev) : Bool := l.any (is_noff_of n)

/-- Modelled from the spec: the note-ons of the list that no later note-off of
the list matches, the notes left open at its end. -/
def open_notes : List Ev → List Ev
  | [] => []
  | e :: rest =>
    if e.cmd = EV_NON ∧ has_noff e rest = false then e :: open_notes rest
    else open_notes rest

/-- Modelled from the spec: no note-on of the list is without a matching later
note-off. -/
def notes_closed (l : List Ev) : Prop := open_notes l = []

instance notes_closed_decidable (l : List Ev) : Decidable (notes_closed l) := by
  unfold notes_closed
  infer_instance

/-- Modelled from the spec: the synthetic note-off that closes the note-on `n`,
with the default note-off velocity. -/
def synthetic_noff (n : Ev) : Ev :=
  { cmd := EV_NOFF, dev := n.dev, ch := n.ch, v0 := n.v0, v1 := EV_NOFF_DEFAULTVEL }

/-- Modelled from the spec: the walk of the cursor over `n` ticks (section
4.5, `tic_skip` across the events), from a cursor placed before the first node
of the list, whose delta is counted from the cursor. The result is the nodes
passed (those less than `n` ticks away), the ticks between the last of them
and the place where the cursor stops, the nodes from the cursor on (the first
with its delta counted from the cursor), and `eot` with the delta left after
the cursor. The cursor stops at the end of the track when that is less than
`n` ticks away. -/
def cut_walk : Nat → List Seqev → Seqev → List Seqev × Nat × List Seqev × Seqev
  | n, [], eot => ([], min n eot.delta, [], { eot with delta := eot.delta - n })
  | n, p :: rest, eot =>
    if p.delta < n then
      let r := cut_walk (n - p.delta) rest eot
      (p :: r.1, r.2.1, r.2.2.1, r.2.2.2)
    else ([], n, { p with delta := p.delta - n } :: rest, eot)

/-- Modelled from the spec: `ev_put` of a list of events at a cursor that is
`gap` ticks after the node before it: the first event put receives the delta
`gap` and the others the delta 0; when no event is put, the ticks go to the
node that follows the cursor, `eot` if there is no other. -/
def cut_put (gap : Nat) : List Ev → List Seqev → Seqev → List Seqev × Seqev
  | [], [], eot => ([], { eot with delta := eot.delta + gap })
  | [], q :: qs, eot => ({ q with delta := q.delta + gap } :: qs, eot)
  | e :: es, post, eot =>
    ({ delta := gap, ev := e } :: es.map (fun x => { delta := 0, ev := x }) ++ post, eot)

/-- Modelled from the spec: the events put at the cut point: a synthetic
note-off for every note left open by the events `pre` before the window, then
the note-on of every note left open by the events before the end of the
window. -/
def cut_synthetic (pre mid : List Ev) : List Ev :=
  (open_notes pre).map synthetic_noff ++ open_notes (pre ++ mid)

/-- Modelled from the spec: `cut(t, start, len)` of section 4.6, for note
frames. The cursor walks to the tick `start`; the events of the next `len`
ticks are removed and these ticks deleted, as far as the track goes; the
synthetic events are put at the cursor. -/
def track_framecut (o : Track) (start len : Nat) : Track :=
  let w1 := cut_walk start o.evs o.eot
  let w2 := cut_walk len w1.2.2.1 w1.2.2.2
  let r := cut_put w1.2.1
    (cut_synthetic (w1.1.map (fun s => s.ev)) (w2.1.map (fun s => s.ev))) w2.2.2.1 w2.2.2.2
  { evs := w1.1 ++ r.1, eot := r.2 }

/-! ## States reached by the converter -/

/-- The packer states reached from the empty state list by calls of
`conv_packev`, with any event, any bitmap and any contents of `*rev`. -/
inductive PackReachable : List Ev → Prop
  | empty : PackReachable []
  | step (l : List Ev) (xctlset : Nat) (ev rev : Ev) : PackReachable l →
      PackReachable (conv_packev l xctlset ev rev).1

/-- The fields of a canonical event fit in 14 bits: the value of an XCTL, the
bank of an XPC unless it is `EV_UNDEF`, the number and the value of an NRPN or
RPN. Events of the other kinds are not constrained. -/
def canonical_14bit (c : Ev) : Prop :=
  (c.cmd = EV_XCTL → c.v1 ≤ EV_MAXFINE) ∧
  (c.cmd = EV_XPC → c.v1 ≤ EV_MAXFINE ∨ c.v1 = EV_UNDEF) ∧
  (c.cmd = EV_NRPN ∨ c.cmd = EV_RPN → c.v0 ≤ EV_MAXFINE ∧ c.v1 ≤ EV_MAXFINE)

instance canonical_14bit_decidable (c : Ev) : Decidable (canonical_14bit c) := by
  unfold canonical_14bit
  infer_instance

/-- The mirror states reached from the empty state list by calls of
`conv_unpackev` on events with 14-bit fields, with any bitmap and any contents
of the array of the caller. -/
inductive MirrorReachable : List Ev → Prop
  | empty : MirrorReachable []
  | step (m : List Ev) (xctlset : Nat) (ev : Ev) (rev : Nat → Ev) : MirrorReachable m →
      canonical_14bit ev → MirrorReachable (conv_unpackev m xctlset ev rev).1

/-- A state is recorded for controller `k` of channel `ch` of device `dev`. -/
def recorded (l : List Ev) (dev ch k : Nat) : Prop :=
  ∃ s ∈ l, s.v0 = k ∧ s.ch = ch ∧ s.dev = dev

/-- The selections of a channel in the mirror are exclusive: both NRPN_HI and
NRPN_LO are recorded and neither RPN_HI nor RPN_LO, or both RPN_HI and RPN_LO
are recorded and neither NRPN_HI nor NRPN_LO, or none of the four is. -/
def mirror_exclusive (m : List Ev) (dev ch : Nat) : Prop :=
  (recorded m dev ch NRPN_HI ∧ recorded m dev ch NRPN_LO ∧
    absent m dev ch RPN_HI ∧ absent m dev ch RPN_LO) ∨
  (recorded m dev ch RPN_HI ∧ recorded m dev ch RPN_LO ∧
    absent m dev ch NRPN_HI ∧ absent m dev ch NRPN_LO) ∨
  (absent m dev ch NRPN_HI ∧ absent m dev ch NRPN_LO ∧
    absent m dev ch RPN_HI ∧ absent m dev ch RPN_LO)

/-! ## Ranges of the command layer (user.c) -/

/-- The function `data_list2range(d, min, max, lo, hi)` of user.c: the returned
value, the contents of `*lo` and `*hi`, and the messages printed. The outputs
are written before the bounds are tested. -/
def data_list2range (d : Data) (min max lo hi : Nat) : Nat × Nat × Nat × List String :=
  let check (lo1 hi1 : Nat) : Nat × Nat × Nat × List String :=
    if lo1 < min ∨ lo1 > max ∨ hi1 < min ∨ hi1 > max ∨ lo1 > hi1 then
      (0, lo1, hi1, ["range values out of bounds\n"])
    else (1, lo1, hi1, [])
  match d with
  | Data.long n => check (to_unsigned n) (to_unsigned n)
  | Data.list [] => (1, min, max, [])
  | Data.list [Data.long a, Data.long b] => check (to_unsigned a) (to_unsigned b)
  | Data.list _ => (0, lo, hi, ["exactly 0 ore 2 numbers expected in range spec\n"])
  | _ => (0, lo, hi, ["list or number expected in range spec\n"])

/-! ## Quantization (frame.h)

The file frame.h declares `track_quantize` and user.c calls the quantize
operation, but no source file among those at hand defines it. The definitions
of this section follow the description of `quantize` in the specification.
Ticks are integers, so that a displacement can be negative. -/

/-- Modelled from the spec: `round((t - offset) / quantum)`, the integer
nearest to the quotient, a tie going up. -/
def quantize_round (t offset quantum : Int) : Int :=
  (2 * (t - offset) + quantum) / (2 * quantum)

/-- Modelled from the spec: the displacement
`round((t - offset) / quantum) * quantum - (t - offset)` of full quantization. -/
def quantize_delta (t offset quantum : Int) : Int :=
  quantize_round t offset quantum * quantum - (t - offset)

/-- Modelled from the spec: the tick of an event of tick `t` after
quantization, the displacement being scaled by `rate/100` and the scaled value
truncated towards zero. -/
def quantize_tick (t offset quantum rate : Int) : Int :=
  t + Int.tdiv (quantize_delta t offset quantum * rate) 100

/-! ## Names of the event kinds (ev.c) -/

/-- The table `ev_cmdstr[EV_NUMCMD]` of ev.c, `none` for a null pointer. -/
def ev_cmdstr : List (Option String) :=
  [some "nil", none, some "tempo", some "timesig",
   some "nrpn", some "rpn", some "xctl", some "xpc",
   some "noff", some "non", some "kat", some "ctl",
   some "pc", some "cat", some "bend"]

/-- The function `ev_getstr(ev)` of ev.c. -/
def ev_getstr (ev : Ev) : Option String :=
  if ev.cmd ≥ EV_NUMCMD then none else ev_cmdstr.getD ev.cmd none

/-- The loop of `ev_str2cmd` from the index `i`, with `n` entries left to
visit: the first index whose entry is the string. -/
def ev_str2cmd_loop (str : String) : Nat → Nat → Option Nat
  | 0, _ => none
  | n + 1, i =>
    if ev_cmdstr.getD i none = some str then some i
    else ev_str2cmd_loop str n (i + 1)

/-- The function `ev_str2cmd(ev, str)` of ev.c: the returned value and the
event, whose `cmd` is written only when the string is found. -/
def ev_str2cmd (ev : Ev) (str : String) : Nat × Ev :=
  match ev_str2cmd_loop str EV_NUMCMD 0 with
  | some i => (1, { ev with cmd := i })
  | none => (0, ev)

/-! ## Arithmetic of 7-bit halves -/

theorem shl7 (a : Nat) : a <<< 7 = a * 128 := by
  rw [Nat.shiftLeft_eq]

theorem shr7 (a : Nat) : a >>> 7 = a / 128 := by
  rw [Nat.shiftRight_eq_div_pow]

theorem and7f (a : Nat) : a &&& 0x7f = a % 128 :=
  Nat.and_pow_two_sub_one_eq_mod a 7

theorem shl7_or (a b : Nat) (h : b < 128) : (a <<< 7) ||| b = a * 128 + b := by
  have := Nat.mul_add_lt_is_or (show b < 2 ^ 7 by simpa using h) a
  rw [shl7, ← show 2 ^ 7 * a = a * 128 by ring, ← this]

/-! ## Lookup lemmas for the state list -/

theorem getctl_setctl_loop_none (l : List Ev) (ev : Ev) (h : conv_setctl_loop l ev = none)
    (e : Ev) (num : Nat) (hk : ev.v0 = num ∧ ev.ch = e.ch ∧ ev.dev = e.dev) :
    conv_getctl l e num = EV_UNDEF := by
  induction l with
  | nil => simp [conv_getctl]
  | cons i rest ih =>
    obtain ⟨h0, h1, h2⟩ := hk
    simp only [conv_setctl_loop] at h
    split at h
    · simp at h
    · rename_i hm
      simp only [Option.map_eq_none'] at h
      have hr := ih h
      simp only [conv_getctl]
      have : (i.v0 == num && CHAN_MATCH i e) = false := by
        simp only [CTL_MATCH, CHAN_MATCH, Bool.and_eq_true, beq_iff_eq, not_and] at hm
        simp only [CHAN_MATCH, Bool.and_eq_false_iff, beq_eq_false_iff_ne, ne_eq]
        by_cases a : i.v0 = num
        · by_cases b : i.ch = e.ch
          · right; right; intro c; exact hm (by omega) (by omega) (by omega)
          · right; left; exact b
        · left; exact a
      simp [this, hr]

theorem getctl_setctl_loop_some (l l' : List Ev) (ev : Ev) (h : conv_setctl_loop l ev = some l')
    (e : Ev) (num : Nat) :
    conv_getctl l' e num =
      if ev.v0 = num ∧ ev.ch = e.ch ∧ ev.dev = e.dev then ev.v1 else conv_getctl l e num := by
  induction l generalizing l' with
  | nil => simp [conv_setctl_loop] at h
  | cons i rest ih =>
    simp only [conv_setctl_loop] at h
    split at h
    · rename_i hm
      simp only [Option.some.injEq] at h
      subst h
      simp only [CTL_MATCH, CHAN_MATCH, Bool.and_eq_true, beq_iff_eq] at hm
      obtain ⟨m0, m1, m2⟩ := hm
      simp only [conv_getctl, CHAN_MATCH, m0, m1, m2]
      by_cases c : ev.v0 = num ∧ ev.ch = e.ch ∧ ev.dev = e.dev
      · simp [c]
      · simp only [c, if_false]
        have : (ev.v0 == num && (ev.ch == e.ch && ev.dev == e.dev)) = false := by
          simp only [Bool.and_eq_false_iff, beq_eq_false_iff_ne, ne_eq]
          tauto
        simp [this]
    · rename_i hm
      simp only [Option.map_eq_some'] at h
      obtain ⟨r, hr, hl⟩ := h
      subst hl
      have hi := ih r hr
      simp only [conv_getctl]
      by_cases c : (i.v0 == num && CHAN_MATCH i e) = true
      · have : ¬ (ev.v0 = num ∧ ev.ch = e.ch ∧ ev.dev = e.dev) := by
          simp only [CTL_MATCH, CHAN_MATCH, Bool.and_eq_true, beq_iff_eq, not_and] at hm c
          rintro ⟨a, b, d⟩
          exact hm (by omega) (by omega) (by omega)
        simp [c, this]
      · simp only [c, hi]
        simp

/-- Reading a controller after `conv_setctl`: the value written for the key of
`ev`, the former value for every other key. -/
theorem getctl_setctl (l : List Ev) (ev e : Ev) (num : Nat) :
    conv_getctl (conv_setctl l ev) e num =
      if ev.v0 = num ∧ ev.ch = e.ch ∧ ev.dev = e.dev then ev.v1 else conv_getctl l e num := by
  unfold conv_setctl
  cases h : conv_setctl_loop l ev with
  | some l' => exact getctl_setctl_loop_some l l' ev h e num
  | none =>
    simp only [statelist_add, conv_getctl, CHAN_MATCH]
    by_cases c : ev.v0 = num ∧ ev.ch = e.ch ∧ ev.dev = e.dev
    · simp [c]
    · have : (ev.v0 == num && (ev.ch == e.ch && ev.dev == e.dev)) = false := by
        simp only [Bool.and_eq_false_iff, beq_eq_false_iff_ne, ne_eq]
        tauto
      simp [c, this]

/-- Removing the state of another key does not change a lookup. -/
theorem getctl_rmctl_ne (l : List Ev) (ev e : Ev) (k num : Nat)
    (hne : ¬ (k = num ∧ ev.ch = e.ch ∧ ev.dev = e.dev)) :
    conv_getctl (conv_rmctl l ev k) e num = conv_getctl l e num := by
  induction l with
  | nil => simp [conv_rmctl]
  | cons i rest ih =>
    simp only [conv_rmctl]
    split
    · rename_i hm
      simp only [CHAN_MATCH, Bool.and_eq_true, beq_iff_eq] at hm
      obtain ⟨m0, m1, m2⟩ := hm
      have : (i.v0 == num && CHAN_MATCH i e) = false := by
        simp only [CHAN_MATCH, Bool.and_eq_false_iff, beq_eq_false_iff_ne, ne_eq]
        by_cases a : i.v0 = num
        · by_cases b : i.ch = e.ch
          · right; right; intro c; exact hne ⟨by omega, by omega, by omega⟩
          · right; left; exact b
        · left; exact a
      simp [conv_getctl, this]
    · simp only [conv_getctl, ih]

/-- A lookup depends on the event only through its channel and device. -/
theorem getctl_chan_congr (l : List Ev) (e e' : Ev) (num : Nat)
    (hch : e.ch = e'.ch) (hdev : e.dev = e'.dev) :
    conv_getctl l e num = conv_getctl l e' num := by
  induction l with
  | nil => rfl
  | cons i rest ih => simp only [conv_getctl, CHAN_MATCH, hch, hdev, ih]

theorem getctx_chan_congr (l : List Ev) (e e' : Ev) (hi lo : Nat)
    (hch : e.ch = e'.ch) (hdev : e.dev = e'.dev) :
    conv_getctx l e hi lo = conv_getctx l e' hi lo := by
  simp only [conv_getctx, getctl_chan_congr l e e' _ hch hdev]

theorem rmctl_chan_congr (l : List Ev) (e e' : Ev) (num : Nat)
    (hch : e.ch = e'.ch) (hdev : e.dev = e'.dev) :
    conv_rmctl l e num = conv_rmctl l e' num := by
  induction l with
  | nil => rfl
  | cons i rest ih => simp only [conv_rmctl, CHAN_MATCH, hch, hdev, ih]

/-- A lookup finds nothing when no state has the key. -/
theorem getctl_of_absent (l : List Ev) (e : Ev) (num : Nat)
    (h : ∀ s ∈ l, ¬ (s.v0 = num ∧ s.ch = e.ch ∧ s.dev = e.dev)) :
    conv_getctl l e num = EV_UNDEF := by
  induction l with
  | nil => rfl
  | cons i rest ih =>
    have hi := h i (List.mem_cons_self i rest)
    have : (i.v0 == num && CHAN_MATCH i e) = false := by
      simp only [CHAN_MATCH, Bool.and_eq_false_iff, beq_eq_false_iff_ne, ne_eq]
      tauto
    simp only [conv_getctl, this]
    exact ih (fun s hs => h s (List.mem_cons_of_mem i hs))

/-! ## Lookups by channel: rewriting rules -/

theorem getctl_eq_getv (l : List Ev) (e : Ev) (k : Nat) :
    conv_getctl l e k = getv l e.dev e.ch k :=
  getctl_chan_congr l e _ k rfl rfl

theorem getv_setctl (l : List Ev) (ev : Ev) (dev ch k : Nat) :
    getv (conv_setctl l ev) dev ch k =
      if ev.v0 = k ∧ ev.ch = ch ∧ ev.dev = dev then ev.v1 else getv l dev ch k := by
  simp only [getv, getctl_setctl]

theorem getv_rmctl (l : List Ev) (ev : Ev) (n dev ch k : Nat) :
    getv (conv_rmctl l ev n) dev ch k =
      if n = k ∧ ev.ch = ch ∧ ev.dev = dev then rmv l dev ch k else getv l dev ch k := by
  by_cases h : n = k ∧ ev.ch = ch ∧ ev.dev = dev
  · obtain ⟨h1, h2, h3⟩ := h
    subst h1
    rw [if_pos ⟨rfl, h2, h3⟩, rmv,
      rmctl_chan_congr l ev { cmd := 0, dev := dev, ch := ch, v0 := 0, v1 := 0 } n h2 h3]
  · rw [if_neg h, getv, getv]
    exact getctl_rmctl_ne l ev _ n k h

theorem getctx_eq_getv (l : List Ev) (e : Ev) (hi lo : Nat) :
    conv_getctx l e hi lo =
      if getv l e.dev e.ch lo = 65535 then 65535
      else if getv l e.dev e.ch hi = 65535 then 65535
      else (getv l e.dev e.ch lo + getv l e.dev e.ch hi * 128 % 4294967296) % 4294967296 := by
  simp only [conv_getctx, getctl_eq_getv, EV_UNDEF, shl7]


/-! ## The packer on single wire events -/

theorem pk_bank_hi (l : List Ev) (x dev ch v : Nat) (rev : Ev) :
    conv_packev l x (mkCTL dev ch 0 v) rev
      = (conv_setctl (conv_rmctl l (mkCTL dev ch 0 v) 32) (mkCTL dev ch 0 v), rev, 0) := by
  simp [conv_packev, mkCTL]

theorem pk_bank_lo (l : List Ev) (x dev ch v : Nat) (rev : Ev) :
    conv_packev l x (mkCTL dev ch 32 v) rev = (conv_setctl l (mkCTL dev ch 32 v), rev, 0) := by
  simp [conv_packev, mkCTL]

theorem pk_nrpn_hi (l : List Ev) (x dev ch v : Nat) (rev : Ev) :
    conv_packev l x (mkCTL dev ch 99 v) rev
      = (conv_setctl (conv_rmctl (conv_rmctl l (mkCTL dev ch 99 v) 100) (mkCTL dev ch 99 v) 98)
          (mkCTL dev ch 99 v), rev, 0) := by
  simp [conv_packev, mkCTL]

theorem pk_nrpn_lo (l : List Ev) (x dev ch v : Nat) (rev : Ev) :
    conv_packev l x (mkCTL dev ch 98 v) rev
      = (conv_setctl (conv_rmctl l (mkCTL dev ch 98 v) 100) (mkCTL dev ch 98 v), rev, 0) := by
  simp [conv_packev, mkCTL]

theorem pk_dataent_hi (l : List Ev) (x dev ch v : Nat) (rev : Ev) :
    conv_packev l x (mkCTL dev ch 6 v) rev
      = (conv_setctl (conv_rmctl l (mkCTL dev ch 6 v) 38) (mkCTL dev ch 6 v), rev, 0) := by
  simp [conv_packev, mkCTL]

theorem pk_dataent_lo_nrpn (l : List Ev) (x dev ch d num c : Nat) (rev : Ev)
    (hctx : conv_getctx l (mkCTL dev ch 38 d) 99 98 = num) (hnum : num ≠ 65535)
    (hval : conv_getctl l (mkCTL dev ch 38 d) 6 = c) (hc : c ≠ 65535) :
    conv_packev l x (mkCTL dev ch 38 d) rev
      = (l, mkNRPN dev ch num ((d + c * 128 % 4294967296) % 4294967296), 1) := by
  simp only [mkCTL, EV_CTL] at hctx hval
  simp [conv_packev, conv_packev_dataent, mkCTL, mkNRPN, hctx, hval, hnum, hc, shl7]

theorem pk_pc (l : List Ev) (x dev ch p j : Nat) (rev : Ev) :
    conv_packev l x (mkPC dev ch p j) rev
      = (l, mkXPC dev ch (conv_getctx l (mkPC dev ch p j) 0 32) p, 1) := by
  simp [conv_packev, mkPC, mkXPC]

theorem pk_fine_hi (l : List Ev) (x dev ch n v : Nat) (rev : Ev)
    (hn1 : 1 ≤ n) (hn2 : n ≤ 31) (hn6 : n ≠ 6) (hfine : EVCTL_ISFINE x n = true) :
    conv_packev l x (mkCTL dev ch n v) rev = (conv_setctl l (mkCTL dev ch n v), rev, 0) := by
  have a0 : ¬ (n = 0) := by omega
  have a1 : ¬ (n = 101) := by omega
  have a2 : ¬ (n = 99) := by omega
  have a3 : ¬ (n = 32) := by omega
  have a4 : ¬ (n = 98) := by omega
  have a5 : ¬ (n = 100) := by omega
  have a6 : ¬ (n = 38) := by omega
  have a7 : n < 32 := by omega
  simp [conv_packev, conv_packev_default, mkCTL, a0, a1, a2, a3, a4, a5, a6, a7, hn6, hfine]

theorem pk_fine_lo (l : List Ev) (x dev ch n v hi : Nat) (rev : Ev)
    (hn1 : 1 ≤ n) (hn2 : n ≤ 31) (hn6 : n ≠ 6) (hfine : EVCTL_ISFINE x n = true)
    (hg : conv_getctl l (mkCTL dev ch (n + 32) v) n = hi) (hhi : hi ≠ 65535) :
    conv_packev l x (mkCTL dev ch (n + 32) v) rev
      = (l, mkXCTL dev ch n ((v + hi * 128 % 4294967296) % 4294967296), 1) := by
  have a0 : ¬ (n = 0) := by omega
  have a7 : n < 32 := by omega
  have b1 : ¬ (n + 32 = 101) := by omega
  have b2 : ¬ (n + 32 = 99) := by omega
  have b4 : ¬ (n + 32 = 98) := by omega
  have b5 : ¬ (n + 32 = 100) := by omega
  have b6 : ¬ (n + 32 = 38) := by omega
  have b8 : ¬ (n + 32 = 6) := by omega
  simp only [mkCTL, EV_CTL] at hg
  simp [conv_packev, conv_packev_default, mkCTL, mkXCTL, a0, b1, b2, b4, b5, b6, b8, a7,
    hfine, hg, hhi, shl7]

theorem pk_coarse (l : List Ev) (x dev ch n v : Nat) (rev : Ev)
    (hn : (1 ≤ n ∧ n ≤ 31 ∧ n ≠ 6 ∧ EVCTL_ISFINE x n = false) ∨
      (64 ≤ n ∧ n ≠ 98 ∧ n ≠ 99 ∧ n ≠ 100 ∧ n ≠ 101)) :
    conv_packev l x (mkCTL dev ch n v) rev
      = (l, mkXCTL dev ch n (v * 128 % 4294967296), 1) := by
  rcases hn with ⟨h1, h2, h3, h4⟩ | ⟨h1, h3, h4, h5, h6⟩
  · have a0 : ¬ (n = 0) := by omega
    have a1 : ¬ (n = 101) := by omega
    have a2 : ¬ (n = 99) := by omega
    have a3 : ¬ (n = 32) := by omega
    have a4 : ¬ (n = 98) := by omega
    have a5 : ¬ (n = 100) := by omega
    have a6 : ¬ (n = 38) := by omega
    have a7 : n < 32 := by omega
    simp [conv_packev, conv_packev_default, mkCTL, mkXCTL, a0, a1, a2, a3, a4, a5, a6, a7,
      h3, h4, shl7]
  · have a0 : ¬ (n = 0) := by omega
    have a3 : ¬ (n = 32) := by omega
    have a6 : ¬ (n = 38) := by omega
    have a8 : ¬ (n = 6) := by omega
    have a7 : ¬ (n < 32) := by omega
    have a9 : ¬ (n < 64) := by omega
    simp [conv_packev, conv_packev_default, mkCTL, mkXCTL, a0, a3, a6, a7, a8, a9, h3, h4,
      h5, h6, shl7]

/-! ## The packer on a wire stream -/

theorem pack_stream_cons (x : Nat) (l : List Ev) (rev e : Ev) (es : List Ev) :
    pack_stream x l rev (e :: es)
      = ((pack_stream x (conv_packev l x e rev).1 (conv_packev l x e rev).2.1 es).1,
         (pack_stream x (conv_packev l x e rev).1 (conv_packev l x e rev).2.1 es).2.1,
         if (conv_packev l x e rev).2.2 = 1 then
           (conv_packev l x e rev).2.1 ::
             (pack_stream x (conv_packev l x e rev).1 (conv_packev l x e rev).2.1 es).2.2
         else (pack_stream x (conv_packev l x e rev).1 (conv_packev l x e rev).2.1 es).2.2) :=
  rfl

theorem pack_stream_absorb (x : Nat) (l l' : List Ev) (rev rev' e : Ev) (es : List Ev)
    (h : conv_packev l x e rev = (l', rev', 0)) :
    pack_stream x l rev (e :: es) = pack_stream x l' rev' es := by
  simp [pack_stream, h]

theorem pack_stream_emit (x : Nat) (l l' : List Ev) (rev r e : Ev) (es : List Ev)
    (h : conv_packev l x e rev = (l', r, 1)) :
    pack_stream x l rev (e :: es)
      = ((pack_stream x l' r es).1, (pack_stream x l' r es).2.1,
          r :: (pack_stream x l' r es).2.2) := by
  simp [pack_stream, h]

theorem pack_stream_append (x : Nat) (a b : List Ev) (l : List Ev) (rev : Ev) :
    pack_stream x l rev (a ++ b)
      = ((pack_stream x (pack_stream x l rev a).1 (pack_stream x l rev a).2.1 b).1,
         (pack_stream x (pack_stream x l rev a).1 (pack_stream x l rev a).2.1 b).2.1,
         (pack_stream x l rev a).2.2 ++
           (pack_stream x (pack_stream x l rev a).1 (pack_stream x l rev a).2.1 b).2.2) := by
  induction a generalizing l rev with
  | nil => simp [pack_stream]
  | cons e es ih =>
    rw [List.cons_append, pack_stream_cons, pack_stream_cons, ih]
    split <;> simp

/-! ## The unpacker on single canonical events -/

theorem unp_nrpn (m : List Ev) (x dev ch num val : Nat) (rev : Nat → Ev) :
    conv_unpackev m x (mkNRPN dev ch num val) rev =
      if conv_getctx m (mkNRPN dev ch num val) 99 98 ≠ num then
        (conv_setctl (conv_setctl
            (conv_rmctl (conv_rmctl m (mkNRPN dev ch num val) 101) (mkNRPN dev ch num val) 100)
            (mkCTL dev ch 99 (num >>> 7))) (mkCTL dev ch 98 (num &&& 127)),
          [mkCTL dev ch 99 (num >>> 7), mkCTL dev ch 98 (num &&& 127),
           mkCTL dev ch 6 (val >>> 7), mkCTL dev ch 38 (val &&& 127)])
      else (m, [mkCTL dev ch 6 (val >>> 7), mkCTL dev ch 38 (val &&& 127)]) := by
  simp [conv_unpackev, conv_unpackev_dataentry, mkNRPN, mkCTL]

theorem unp_xpc (m : List Ev) (x dev ch bank prog : Nat) (rev : Nat → Ev) :
    conv_unpackev m x (mkXPC dev ch bank prog) rev =
      if conv_getctx m (mkXPC dev ch bank prog) 0 32 ≠ bank ∧ bank ≠ 65535 then
        (conv_setctl (conv_setctl m (mkCTL dev ch 0 (bank >>> 7)))
            (mkCTL dev ch 32 (bank &&& 127)),
          [mkCTL dev ch 0 (bank >>> 7), mkCTL dev ch 32 (bank &&& 127),
           mkPC dev ch prog (rev 2).v1])
      else (m, [mkPC dev ch prog (rev 0).v1]) := by
  simp [conv_unpackev, mkXPC, mkCTL, mkPC]

theorem unp_xctl_fine (m : List Ev) (x dev ch n val : Nat) (rev : Nat → Ev)
    (hn : n < 32) (hfine : EVCTL_ISFINE x n = true) :
    conv_unpackev m x (mkXCTL dev ch n val) rev =
      if conv_getctl m (mkXCTL dev ch n val) n ≠ val >>> 7 ∨
          conv_getctl m (mkXCTL dev ch n val) n = 65535 then
        (conv_setctl m (mkCTL dev ch n (val >>> 7)),
          [mkCTL dev ch n (val >>> 7), mkCTL dev ch (n + 32) (val &&& 127)])
      else (m, [mkCTL dev ch (n + 32) (val &&& 127)]) := by
  have h32 : (n + 32) % 4294967296 = n + 32 := by omega
  simp [conv_unpackev, mkXCTL, mkCTL, hn, hfine, h32]

theorem unp_xctl_coarse (m : List Ev) (x dev ch n val : Nat) (rev : Nat → Ev)
    (hn : 32 ≤ n ∨ EVCTL_ISFINE x n = false) :
    conv_unpackev m x (mkXCTL dev ch n val) rev = (m, [mkCTL dev ch n (val >>> 7)]) := by
  rcases hn with h | h
  · have : ¬ (n < 32) := by omega
    simp [conv_unpackev, mkXCTL, mkCTL, this]
  · simp [conv_unpackev, mkXCTL, mkCTL, h]

/-! ## The packer keeps in step with the mirror -/

theorem getctx_of_sync (m p : List Ev) (hs : in_sync m p) (e e' : Ev) (hi lo : Nat)
    (hch : e.ch = e'.ch) (hdev : e.dev = e'.dev) (hhi : sync_key hi) (hlo : sync_key lo) :
    conv_getctx m e hi lo = conv_getctx p e' hi lo := by
  rw [getctx_eq_getv, getctx_eq_getv, ← hch, ← hdev, hs _ _ hi hhi, hs _ _ lo hlo]

/-- The packer on a full NRPN quadruple, from any state. -/
theorem pack_nrpn_quad (x : Nat) (l : List Ev) (prev : Ev) (dev ch a b c d : Nat)
    (ha : a ≤ 127) (hb : b ≤ 127) (hc : c ≤ 127) (hd : d ≤ 127) :
    pack_stream x l prev
        [mkCTL dev ch 99 a, mkCTL dev ch 98 b, mkCTL dev ch 6 c, mkCTL dev ch 38 d]
      = (conv_setctl (conv_rmctl (conv_setctl (conv_rmctl (conv_setctl (conv_rmctl (conv_rmctl l
            (mkCTL dev ch 99 a) 100) (mkCTL dev ch 99 a) 98) (mkCTL dev ch 99 a))
            (mkCTL dev ch 98 b) 100) (mkCTL dev ch 98 b))
            (mkCTL dev ch 6 c) 38) (mkCTL dev ch 6 c),
          mkNRPN dev ch (a * 128 + b) (c * 128 + d),
          [mkNRPN dev ch (a * 128 + b) (c * 128 + d)]) := by
  have ha' : a ≠ 65535 := by omega
  have hb' : b ≠ 65535 := by omega
  have hc' : c ≠ 65535 := by omega
  have hn : (b + a * 128 % 4294967296) % 4294967296 = a * 128 + b := by omega
  have hv : (d + c * 128 % 4294967296) % 4294967296 = c * 128 + d := by omega
  have hctx : conv_getctx (conv_setctl (conv_rmctl (conv_setctl (conv_rmctl (conv_setctl
      (conv_rmctl (conv_rmctl l (mkCTL dev ch 99 a) 100) (mkCTL dev ch 99 a) 98)
      (mkCTL dev ch 99 a)) (mkCTL dev ch 98 b) 100) (mkCTL dev ch 98 b))
      (mkCTL dev ch 6 c) 38) (mkCTL dev ch 6 c)) (mkCTL dev ch 38 d) 99 98
      = a * 128 + b := by
    simp [getctx_eq_getv, getv_setctl, getv_rmctl, mkCTL, ha', hb', hn]
  have h6 : conv_getctl (conv_setctl (conv_rmctl (conv_setctl (conv_rmctl (conv_setctl
      (conv_rmctl (conv_rmctl l (mkCTL dev ch 99 a) 100) (mkCTL dev ch 99 a) 98)
      (mkCTL dev ch 99 a)) (mkCTL dev ch 98 b) 100) (mkCTL dev ch 98 b))
      (mkCTL dev ch 6 c) 38) (mkCTL dev ch 6 c)) (mkCTL dev ch 38 d) 6 = c := by
    simp [getctl_eq_getv, getv_setctl, mkCTL]
  rw [pack_stream_absorb x _ _ _ _ _ _ (pk_nrpn_hi l x dev ch a prev),
    pack_stream_absorb x _ _ _ _ _ _ (pk_nrpn_lo _ x dev ch b prev),
    pack_stream_absorb x _ _ _ _ _ _ (pk_dataent_hi _ x dev ch c prev),
    pack_stream_emit x _ _ _ _ _ _
      (pk_dataent_lo_nrpn _ x dev ch d _ c prev hctx (by omega) h6 hc')]
  simp only [pack_stream, hv]

theorem step_nrpn (x : Nat) (m p : List Ev) (rev : Nat → Ev) (prev : Ev)
    (dev ch num val : Nat) (hnum : num ≤ 16383) (hval : val ≤ 16383) (hs : in_sync m p) :
    (pack_stream x p prev (conv_unpackev m x (mkNRPN dev ch num val) rev).2).2.2
        = [mkNRPN dev ch num val] ∧
      in_sync (conv_unpackev m x (mkNRPN dev ch num val) rev).1
        (pack_stream x p prev (conv_unpackev m x (mkNRPN dev ch num val) rev).2).1 := by
  have hv1 : val / 128 ≠ 65535 := by omega
  have hval' : (val % 128 + val / 128 * 128 % 4294967296) % 4294967296 = val := by omega
  rw [unp_nrpn]
  by_cases hc : conv_getctx m (mkNRPN dev ch num val) 99 98 = num
  · -- the mirror already holds the number: only the data entry pair is sent
    rw [if_neg (by simpa using hc)]
    have hp : conv_getctx
        (conv_setctl (conv_rmctl p (mkCTL dev ch 6 (val >>> 7)) 38) (mkCTL dev ch 6 (val >>> 7)))
        (mkCTL dev ch 38 (val &&& 127)) 99 98 = num := by
      rw [← hc, getctx_of_sync m p hs (mkNRPN dev ch num val) (mkCTL dev ch 38 (val &&& 127))
        99 98 rfl rfl (by simp [sync_key]) (by simp [sync_key])]
      simp [getctx_eq_getv, getv_setctl, getv_rmctl, mkCTL]
    have h6 : conv_getctl
        (conv_setctl (conv_rmctl p (mkCTL dev ch 6 (val >>> 7)) 38) (mkCTL dev ch 6 (val >>> 7)))
        (mkCTL dev ch 38 (val &&& 127)) 6 = val / 128 := by
      simp [getctl_eq_getv, getv_setctl, mkCTL, shr7]
    have hpk : pack_stream x p prev [mkCTL dev ch 6 (val >>> 7), mkCTL dev ch 38 (val &&& 127)]
        = (conv_setctl (conv_rmctl p (mkCTL dev ch 6 (val >>> 7)) 38)
            (mkCTL dev ch 6 (val >>> 7)), mkNRPN dev ch num val, [mkNRPN dev ch num val]) := by
      rw [pack_stream_absorb x _ _ _ _ _ _ (pk_dataent_hi p x dev ch _ prev),
        pack_stream_emit x _ _ _ _ _ _
          (pk_dataent_lo_nrpn _ x dev ch _ num _ prev hp (by omega) h6 hv1)]
      simp only [pack_stream, and7f, hval']
    rw [hpk]
    refine ⟨rfl, ?_⟩
    intro d c k hk
    simp only [getv_setctl, getv_rmctl, mkCTL]
    have hk6 : ¬ (6 = k) := by rcases hk with h | h | h | h | h <;> omega
    have hk38 : ¬ (38 = k) := by rcases hk with h | h | h | h | h <;> omega
    simp only [hk6, hk38, false_and, if_false]
    exact hs d c k hk
  · -- the number is sent first
    rw [if_pos (by simpa using hc)]
    have h1 : num >>> 7 ≤ 127 := by rw [shr7]; omega
    have h2 : num &&& 127 ≤ 127 := by rw [and7f]; omega
    have h3 : val >>> 7 ≤ 127 := by rw [shr7]; omega
    have h4 : val &&& 127 ≤ 127 := by rw [and7f]; omega
    have hn : (num >>> 7) * 128 + (num &&& 127) = num := by rw [shr7, and7f]; omega
    have hv : (val >>> 7) * 128 + (val &&& 127) = val := by rw [shr7, and7f]; omega
    rw [pack_nrpn_quad x p prev dev ch _ _ _ _ h1 h2 h3 h4, hn, hv]
    refine ⟨rfl, ?_⟩
    intro d c k hk
    simp only [getv_setctl, getv_rmctl, mkCTL, mkNRPN]
    have hk6 : ¬ (6 = k) := by rcases hk with h | h | h | h | h <;> omega
    have hk38 : ¬ (38 = k) := by rcases hk with h | h | h | h | h <;> omega
    have hk100 : ¬ (100 = k) := by rcases hk with h | h | h | h | h <;> omega
    have hk101 : ¬ (101 = k) := by rcases hk with h | h | h | h | h <;> omega
    simp only [hk6, hk38, hk100, hk101, false_and, if_false]
    split_ifs <;> first | rfl | exact hs d c k hk

theorem step_xpc (x : Nat) (m p : List Ev) (rev : Nat → Ev) (prev : Ev)
    (dev ch bank prog : Nat) (hbank : bank ≤ 16383) (hs : in_sync m p) :
    (pack_stream x p prev (conv_unpackev m x (mkXPC dev ch bank prog) rev).2).2.2
        = [mkXPC dev ch bank prog] ∧
      in_sync (conv_unpackev m x (mkXPC dev ch bank prog) rev).1
        (pack_stream x p prev (conv_unpackev m x (mkXPC dev ch bank prog) rev).2).1 := by
  have hne : bank ≠ 65535 := by omega
  rw [unp_xpc]
  by_cases hc : conv_getctx m (mkXPC dev ch bank prog) 0 32 = bank
  · -- the mirror already holds the bank: only the program change is sent
    rw [if_neg (by simp [hc])]
    have hp : conv_getctx p (mkPC dev ch prog (rev 0).v1) 0 32 = bank := by
      rw [← hc]
      exact (getctx_of_sync m p hs (mkXPC dev ch bank prog) (mkPC dev ch prog (rev 0).v1)
        0 32 rfl rfl (by simp [sync_key]) (by simp [sync_key])).symm
    have hpk : pack_stream x p prev [mkPC dev ch prog (rev 0).v1]
        = (p, mkXPC dev ch bank prog, [mkXPC dev ch bank prog]) := by
      rw [pack_stream_emit x _ _ _ _ _ _ (pk_pc p x dev ch prog _ prev), hp]
      simp only [pack_stream]
    rw [hpk]
    exact ⟨rfl, hs⟩
  · -- the bank is sent first
    rw [if_pos ⟨hc, hne⟩]
    have hp : conv_getctx (conv_setctl (conv_setctl (conv_rmctl p (mkCTL dev ch 0 (bank >>> 7)) 32)
        (mkCTL dev ch 0 (bank >>> 7))) (mkCTL dev ch 32 (bank &&& 127)))
        (mkPC dev ch prog (rev 2).v1) 0 32 = bank := by
      have h1 : bank % 128 ≠ 65535 := by omega
      have h2 : bank / 128 ≠ 65535 := by omega
      have h3 : (bank % 128 + bank / 128 * 128 % 4294967296) % 4294967296 = bank := by omega
      simp [getctx_eq_getv, getv_setctl, mkCTL, mkPC, shr7, and7f, h1, h2, h3]
    have hpk : pack_stream x p prev [mkCTL dev ch 0 (bank >>> 7),
          mkCTL dev ch 32 (bank &&& 127), mkPC dev ch prog (rev 2).v1]
        = (conv_setctl (conv_setctl (conv_rmctl p (mkCTL dev ch 0 (bank >>> 7)) 32)
            (mkCTL dev ch 0 (bank >>> 7))) (mkCTL dev ch 32 (bank &&& 127)),
           mkXPC dev ch bank prog, [mkXPC dev ch bank prog]) := by
      rw [pack_stream_absorb x _ _ _ _ _ _ (pk_bank_hi p x dev ch _ prev),
        pack_stream_absorb x _ _ _ _ _ _ (pk_bank_lo _ x dev ch _ prev),
        pack_stream_emit x _ _ _ _ _ _ (pk_pc _ x dev ch prog _ prev), hp]
      simp only [pack_stream]
    rw [hpk]
    refine ⟨rfl, ?_⟩
    intro d c k hk
    simp only [getv_setctl, getv_rmctl, mkCTL]
    split_ifs <;> first | rfl | exact hs d c k hk

theorem step_xctl (x : Nat) (m p : List Ev) (rev : Nat → Ev) (prev : Ev)
    (dev ch n val : Nat) (hn1 : 1 ≤ n) (hn2 : n ≤ 31) (hn6 : n ≠ 6)
    (hfine : EVCTL_ISFINE x n = true) (hval : val ≤ 16383) (hs : in_sync m p) :
    (pack_stream x p prev (conv_unpackev m x (mkXCTL dev ch n val) rev).2).2.2
        = [mkXCTL dev ch n val] ∧
      in_sync (conv_unpackev m x (mkXCTL dev ch n val) rev).1
        (pack_stream x p prev (conv_unpackev m x (mkXCTL dev ch n val) rev).2).1 := by
  have hkey : sync_key n := Or.inr (Or.inr (Or.inr (Or.inr ⟨hn1, hn2, hn6⟩)))
  have hv1 : val >>> 7 ≠ 65535 := by rw [shr7]; omega
  have hv : ((val &&& 127) + (val >>> 7) * 128 % 4294967296) % 4294967296 = val := by
    rw [shr7, and7f]; omega
  rw [unp_xctl_fine m x dev ch n val rev (by omega) hfine]
  by_cases hc : conv_getctl m (mkXCTL dev ch n val) n ≠ val >>> 7 ∨
      conv_getctl m (mkXCTL dev ch n val) n = 65535
  · -- the high byte is sent first
    rw [if_pos hc]
    have hg : conv_getctl (conv_setctl p (mkCTL dev ch n (val >>> 7)))
        (mkCTL dev ch (n + 32) (val &&& 127)) n = val >>> 7 := by
      simp [getctl_eq_getv, getv_setctl, mkCTL]
    have hpk : pack_stream x p prev
          [mkCTL dev ch n (val >>> 7), mkCTL dev ch (n + 32) (val &&& 127)]
        = (conv_setctl p (mkCTL dev ch n (val >>> 7)), mkXCTL dev ch n val,
            [mkXCTL dev ch n val]) := by
      rw [pack_stream_absorb x _ _ _ _ _ _ (pk_fine_hi p x dev ch n _ prev hn1 hn2 hn6 hfine),
        pack_stream_emit x _ _ _ _ _ _
          (pk_fine_lo _ x dev ch n _ _ prev hn1 hn2 hn6 hfine hg hv1), hv]
      simp only [pack_stream]
    rw [hpk]
    refine ⟨rfl, ?_⟩
    intro d c k hk
    simp only [getv_setctl, mkCTL]
    split_ifs <;> first | rfl | exact hs d c k hk
  · -- the mirror already holds the high byte: only the low byte is sent
    rw [if_neg hc]
    have hc' : conv_getctl m (mkXCTL dev ch n val) n = val >>> 7 := by
      by_contra h
      exact hc (Or.inl h)
    have hg : conv_getctl p (mkCTL dev ch (n + 32) (val &&& 127)) n = val >>> 7 := by
      rw [← hc', getctl_eq_getv, getctl_eq_getv]
      exact (hs _ _ n hkey).symm
    have hpk : pack_stream x p prev [mkCTL dev ch (n + 32) (val &&& 127)]
        = (p, mkXCTL dev ch n val, [mkXCTL dev ch n val]) := by
      rw [pack_stream_emit x _ _ _ _ _ _
          (pk_fine_lo _ x dev ch n _ _ prev hn1 hn2 hn6 hfine hg hv1), hv]
      simp only [pack_stream]
    rw [hpk]
    exact ⟨rfl, hs⟩

/-- One step of the recovery: a recoverable event sent through the unpacker
and back through the packer comes out alone and unchanged, and the two states
stay in step. -/
theorem step_recoverable (x : Nat) (m p : List Ev) (rev : Nat → Ev) (prev : Ev) (c : Ev)
    (hc : recoverable x c) (hs : in_sync m p) :
    (pack_stream x p prev (conv_unpackev m x c rev).2).2.2 = [c] ∧
      in_sync (conv_unpackev m x c rev).1 (pack_stream x p prev (conv_unpackev m x c rev).2).1 := by
  obtain ⟨cmd, dev, ch, v0, v1⟩ := c
  rcases hc with ⟨h1, h2, h3⟩ | ⟨h1, h2⟩ | ⟨h1, h2, h3, h4, h5, h6⟩
  · simp only at h1 h2 h3
    subst h1
    exact step_nrpn x m p rev prev dev ch v0 v1 (by simpa using h2) (by simpa using h3) hs
  · simp only at h1 h2
    subst h1
    exact step_xpc x m p rev prev dev ch v1 v0 (by simpa using h2) hs
  · simp only at h1 h2 h3 h4 h5 h6
    subst h1
    exact step_xctl x m p rev prev dev ch v0 v1 h2 h3 h4 h5 (by simpa using h6) hs

theorem in_sync_refl (l : List Ev) : in_sync l l :=
  fun _ _ _ _ => rfl

/-- The recovery of a stream from any pair of states in step. -/
theorem stream_recovery_from (x : Nat) (cs : List Ev) :
    ∀ (m p : List Ev) (rev : Nat → Ev) (prev : Ev), in_sync m p →
      (∀ c ∈ cs, recoverable x c) →
      (pack_stream x p prev (unpack_stream x m rev cs).2).2.2 = cs := by
  induction cs with
  | nil => intro m p rev prev _ _; rfl
  | cons c cs ih =>
    intro m p rev prev hs hall
    have hstep := step_recoverable x m p rev prev c (hall c (List.mem_cons_self c cs)) hs
    have hrest := ih (conv_unpackev m x c rev).1
      (pack_stream x p prev (conv_unpackev m x c rev).2).1
      (rev_store rev (conv_unpackev m x c rev).2)
      (pack_stream x p prev (conv_unpackev m x c rev).2).2.1 hstep.2
      (fun c' hc' => hall c' (List.mem_cons_of_mem c hc'))
    simp only [unpack_stream]
    rw [pack_stream_append, hstep.1, hrest]
    rfl

/-! ## Scenario B: an NRPN quadruple -/

/-- Claim C1: for every device, channel, prior packer state and 7-bit values
a, b, c, d, packing CTL(99,a), CTL(98,b), CTL(6,c), CTL(38,d) in that order
returns 0 for the first three events and 1 for the fourth, with exactly the
event NRPN{num=(a<<7)|b, val=(c<<7)|d} on the same device and channel; with
a=0x12, b=0x34, c=0x56, d=0x78 that event is NRPN{num=2356, val=11128}. -/
theorem C1_nrpn_quadruple (l : List Ev) (x dev ch a b c d : Nat) (r1 r2 r3 r4 : Ev)
    (ha : a ≤ 127) (hb : b ≤ 127) (hc : c ≤ 127) (hd : d ≤ 127) :
    let p1 := conv_packev l x (mkCTL dev ch 99 a) r1
    let p2 := conv_packev p1.1 x (mkCTL dev ch 98 b) r2
    let p3 := conv_packev p2.1 x (mkCTL dev ch 6 c) r3
    let p4 := conv_packev p3.1 x (mkCTL dev ch 38 d) r4
    p1.2.2 = 0 ∧ p2.2.2 = 0 ∧ p3.2.2 = 0 ∧ p4.2.2 = 1 ∧
      p4.2.1 = mkNRPN dev ch ((a <<< 7) ||| b) ((c <<< 7) ||| d) ∧
      (a = 0x12 → b = 0x34 → c = 0x56 → d = 0x78 → p4.2.1 = mkNRPN dev ch 2356 11128) := by
  intro p1 p2 p3 p4
  have e1 : p1 = (conv_setctl (conv_rmctl (conv_rmctl l (mkCTL dev ch 99 a) 100)
      (mkCTL dev ch 99 a) 98) (mkCTL dev ch 99 a), r1, 0) := by
    simp [p1, conv_packev, mkCTL]
  have e2 : p2 = (conv_setctl (conv_rmctl p1.1 (mkCTL dev ch 98 b) 100) (mkCTL dev ch 98 b),
      r2, 0) := by
    simp [p2, conv_packev, mkCTL]
  have e3 : p3 = (conv_setctl (conv_rmctl p2.1 (mkCTL dev ch 6 c) 38) (mkCTL dev ch 6 c),
      r3, 0) := by
    simp [p3, conv_packev, mkCTL]
  have g98 : conv_getctl p3.1 (mkCTL dev ch 38 d) 98 = b := by
    rw [e3, e2]
    simp [getctl_setctl, getctl_rmctl_ne, mkCTL]
  have g99 : conv_getctl p3.1 (mkCTL dev ch 38 d) 99 = a := by
    rw [e3, e2, e1]
    simp [getctl_setctl, getctl_rmctl_ne, mkCTL]
  have g6 : conv_getctl p3.1 (mkCTL dev ch 38 d) 6 = c := by
    rw [e3]
    simp [getctl_setctl, mkCTL]
  have hx : conv_getctx p3.1 (mkCTL dev ch 38 d) 99 98 = a * 128 + b := by
    simp only [conv_getctx, g98, g99, EV_UNDEF, shl7]
    rw [if_neg (by omega), if_neg (by omega)]
    omega
  have e4 : p4 = (p3.1, mkNRPN dev ch (a * 128 + b) (c * 128 + d), 1) := by
    have hne : a * 128 + b ≠ 65535 := by omega
    have hc6 : c ≠ 65535 := by omega
    simp only [p4, conv_packev, mkCTL, EV_PC, EV_CTL, BANK_HI, RPN_HI, NRPN_HI, DATAENT_HI,
      BANK_LO, NRPN_LO, RPN_LO, DATAENT_LO, EV_UNDEF, EV_NRPN, mkNRPN]
    simp only [mkCTL, NRPN_HI, NRPN_LO, EV_CTL] at hx
    simp only [mkCTL, EV_CTL] at g6
    simp only [hx, conv_packev_dataent, DATAENT_HI, g6, EV_UNDEF, shl7]
    simp [hne, hc6]
    omega
  have hor1 : (a <<< 7) ||| b = a * 128 + b := shl7_or a b (by omega)
  have hor2 : (c <<< 7) ||| d = c * 128 + d := shl7_or c d (by omega)
  refine ⟨by rw [e1], by rw [e2], by rw [e3], by rw [e4], by rw [e4, hor1, hor2], ?_⟩
  intro h1 h2 h3 h4
  rw [e4, h1, h2, h3, h4]

/-- Witness for C1 at the values of scenario B on device 0, channel 0 and the
empty state list. -/
theorem C1_nrpn_quadruple_witness :
    (conv_packev (conv_packev (conv_packev (conv_packev [] 0 (mkCTL 0 0 99 0x12)
        (mkPC 0 0 0 0)).1 0 (mkCTL 0 0 98 0x34) (mkPC 0 0 0 0)).1 0 (mkCTL 0 0 6 0x56)
        (mkPC 0 0 0 0)).1 0 (mkCTL 0 0 38 0x78) (mkPC 0 0 0 0)).2.1 = mkNRPN 0 0 2356 11128 :=
  (C1_nrpn_quadruple [] 0 0 0 0x12 0x34 0x56 0x78 (mkPC 0 0 0 0) (mkPC 0 0 0 0)
    (mkPC 0 0 0 0) (mkPC 0 0 0 0) (by decide) (by decide) (by decide) (by decide)).2.2.2.2.2
    rfl rfl rfl rfl

/-! ## Scenario A: bank select followed by a program change -/

/-- Claim C2: for every device, channel, 7-bit h, l and every p, starting from the
empty state list, packing CTL(0,h), CTL(32,l), PC(p) emits nothing for the two
controller events and emits exactly XPC{bank=(h<<7)+l, prog=p} for the program
change; afterwards the state list holds exactly the two states BANK_HI=h and
BANK_LO=l of that channel. With h=1, l=2, p=5 the event is XPC{bank=130,
prog=5}. -/
theorem C2_bank_then_pc (x dev ch h l p junk : Nat) (r1 r2 r3 : Ev)
    (hh : h ≤ 127) (hl : l ≤ 127) :
    let p1 := conv_packev [] x (mkCTL dev ch 0 h) r1
    let p2 := conv_packev p1.1 x (mkCTL dev ch 32 l) r2
    let p3 := conv_packev p2.1 x (mkPC dev ch p junk) r3
    p1.2.2 = 0 ∧ p2.2.2 = 0 ∧ p3.2.2 = 1 ∧
      p3.2.1 = mkXPC dev ch ((h <<< 7) + l) p ∧
      p3.1 = [mkCTL dev ch 32 l, mkCTL dev ch 0 h] ∧
      conv_getctl p3.1 (mkPC dev ch p junk) BANK_HI = h ∧
      conv_getctl p3.1 (mkPC dev ch p junk) BANK_LO = l ∧
      (h = 1 → l = 2 → p = 5 → p3.2.1 = mkXPC dev ch 130 5) := by
  intro p1 p2 p3
  have e1 : p1 = ([mkCTL dev ch 0 h], r1, 0) := by
    simp [p1, conv_packev, mkCTL, conv_rmctl, conv_setctl, conv_setctl_loop, statelist_add]
  have e2 : p2 = ([mkCTL dev ch 32 l, mkCTL dev ch 0 h], r2, 0) := by
    simp [p2, e1, conv_packev, mkCTL, conv_setctl, conv_setctl_loop, statelist_add,
      CTL_MATCH]
  have hne : l ≠ 65535 := by omega
  have hne2 : h ≠ 65535 := by omega
  have e3 : p3 = ([mkCTL dev ch 32 l, mkCTL dev ch 0 h], mkXPC dev ch (h * 128 + l) p, 1) := by
    simp [p3, e2, conv_packev, mkCTL, mkPC, mkXPC, conv_getctx, conv_getctl, CHAN_MATCH, hne,
      hne2, shl7]
    omega
  refine ⟨by rw [e1], by rw [e2], by rw [e3], by rw [e3, shl7], by rw [e3], ?_, ?_, ?_⟩
  · rw [e3]; simp [conv_getctl, mkCTL, mkPC, CHAN_MATCH]
  · rw [e3]; simp [conv_getctl, mkCTL, mkPC, CHAN_MATCH]
  · intro h1 h2 h3
    rw [e3, h1, h2, h3]

/-- Witness for C2 at the values of scenario A (device 0, channel 0). -/
theorem C2_bank_then_pc_witness :
    (conv_packev (conv_packev (conv_packev [] 0 (mkCTL 0 0 0 1) (mkPC 0 0 0 0)).1 0
        (mkCTL 0 0 32 2) (mkPC 0 0 0 0)).1 0 (mkPC 0 0 5 0) (mkPC 0 0 0 0)).2.1
      = mkXPC 0 0 130 5 :=
  (C2_bank_then_pc 0 0 0 1 2 5 0 (mkPC 0 0 0 0) (mkPC 0 0 0 0) (mkPC 0 0 0 0)
    (by decide) (by decide)).2.2.2.2.2.2.2 rfl rfl rfl

/-! ## Scenario F: an RPN selected low byte first -/

/-- Claim C3, refuted as stated: on device 0, channel 0, starting from the
empty state list, after CTL(100,0), CTL(101,0), CTL(6,0x40) the event
CTL(38,0x00) makes `conv_packev` return 0: no RPN{num=0, val=0x2000} is
emitted. -/
theorem C3_counterexample :
    ¬ ((conv_packev (conv_packev (conv_packev (conv_packev [] 0 (mkCTL 0 0 100 0)
          (mkPC 0 0 0 0)).1 0 (mkCTL 0 0 101 0) (mkPC 0 0 0 0)).1 0 (mkCTL 0 0 6 0x40)
          (mkPC 0 0 0 0)).1 0 (mkCTL 0 0 38 0) (mkPC 0 0 0 0)).2.2 = 1 ∧
       (conv_packev (conv_packev (conv_packev (conv_packev [] 0 (mkCTL 0 0 100 0)
          (mkPC 0 0 0 0)).1 0 (mkCTL 0 0 101 0) (mkPC 0 0 0 0)).1 0 (mkCTL 0 0 6 0x40)
          (mkPC 0 0 0 0)).1 0 (mkCTL 0 0 38 0) (mkPC 0 0 0 0)).2.1 = mkRPN 0 0 0 0x2000) := by
  decide

/-- Claim C3, amended: starting from the empty state list, packing CTL(100,0),
CTL(101,0), CTL(6,0x40), CTL(38,0x00) in that order on one channel emits
nothing: `conv_packev` returns 0 on each of the four events. CTL(101) removes
the RPN_LO state recorded by CTL(100), so that only RPN_HI and DATAENT_HI are
recorded when the data-entry low byte arrives, and `*rev` is left as it was. -/
theorem C3_rpn_low_first_emits_nothing (x dev ch : Nat) (r1 r2 r3 r4 : Ev) :
    let p1 := conv_packev [] x (mkCTL dev ch 100 0) r1
    let p2 := conv_packev p1.1 x (mkCTL dev ch 101 0) r2
    let p3 := conv_packev p2.1 x (mkCTL dev ch 6 0x40) r3
    let p4 := conv_packev p3.1 x (mkCTL dev ch 38 0) r4
    p1.2.2 = 0 ∧ p2.2.2 = 0 ∧ p3.2.2 = 0 ∧ p4.2.2 = 0 ∧
      p1.1 = [mkCTL dev ch 100 0] ∧
      p2.1 = [mkCTL dev ch 101 0] ∧
      p4.1 = [mkCTL dev ch 6 0x40, mkCTL dev ch 101 0] ∧
      p4.2.1 = r4 := by
  intro p1 p2 p3 p4
  have e1 : p1 = ([mkCTL dev ch 100 0], r1, 0) := by
    simp [p1, conv_packev, mkCTL, conv_rmctl, conv_setctl, conv_setctl_loop, statelist_add]
  have e2 : p2 = ([mkCTL dev ch 101 0], r2, 0) := by
    simp [p2, e1, conv_packev, mkCTL, conv_rmctl, conv_setctl, conv_setctl_loop,
      statelist_add, CHAN_MATCH]
  have e3 : p3 = ([mkCTL dev ch 6 0x40, mkCTL dev ch 101 0], r3, 0) := by
    simp [p3, e2, conv_packev, mkCTL, conv_rmctl, conv_setctl, conv_setctl_loop,
      statelist_add, CHAN_MATCH, CTL_MATCH]
  have e4 : p4 = ([mkCTL dev ch 6 0x40, mkCTL dev ch 101 0], r4, 0) := by
    simp [p4, e3, conv_packev, mkCTL, conv_getctx, conv_getctl, CHAN_MATCH]
  refine ⟨by rw [e1], by rw [e2], by rw [e3], by rw [e4], by rw [e1], by rw [e2],
    by rw [e4], by rw [e4]⟩

/-! ## Scenario C and the bank kept by the unpacker -/

/-- The 14-bit value read back from the two states written by the unpacker
for bank `b`. -/
theorem getctx_bank_after_set (m : List Ev) (ev : Ev) (b : Nat) (hb : b ≤ 0x3fff) :
    conv_getctx
      (conv_setctl (conv_setctl m
        { cmd := EV_CTL, dev := ev.dev, ch := ev.ch, v0 := BANK_HI, v1 := b >>> 7 })
        { cmd := EV_CTL, dev := ev.dev, ch := ev.ch, v0 := BANK_LO, v1 := b &&& 0x7f })
      ev BANK_HI BANK_LO = b := by
  have h1 : b % 128 ≠ 65535 := by omega
  have h2 : b / 128 ≠ 65535 := by omega
  simp only [conv_getctx, getctl_setctl, shl7, shr7, and7f, BANK_HI, BANK_LO, EV_UNDEF, EV_CTL]
  simp [h1, h2]
  omega

/-- Claim C5: for every device, channel, program p and 14-bit bank b,
`conv_unpackev` of XPC{bank=b, prog=p} against the empty mirror state returns
exactly the three wire events CTL(0, b>>7), CTL(32, b&0x7F), PC(p) in that
order; against a mirror state that already records bank b for that channel it
returns exactly one event, PC(p). With b=130, p=5 the first output is CTL(0,1),
CTL(32,2), PC(5). (The source does not write the field `v1` of a PC event: it
keeps the previous contents of its slot.) -/
theorem C5_unpack_xpc (x dev ch p b : Nat) (rev : Nat → Ev) (hb : b ≤ 0x3fff) :
    (conv_unpackev [] x (mkXPC dev ch b p) rev).2 =
        [mkCTL dev ch 0 (b >>> 7), mkCTL dev ch 32 (b &&& 0x7f), mkPC dev ch p (rev 2).v1] ∧
      (∀ m : List Ev, conv_getctx m (mkXPC dev ch b p) BANK_HI BANK_LO = b →
        conv_unpackev m x (mkXPC dev ch b p) rev = (m, [mkPC dev ch p (rev 0).v1])) ∧
      (b = 130 → p = 5 → (conv_unpackev [] x (mkXPC dev ch b p) rev).2 =
        [mkCTL dev ch 0 1, mkCTL dev ch 32 2, mkPC dev ch 5 (rev 2).v1]) := by
  have hne : b ≠ 65535 := by omega
  have h0 : (conv_unpackev [] x (mkXPC dev ch b p) rev).2 =
      [mkCTL dev ch 0 (b >>> 7), mkCTL dev ch 32 (b &&& 0x7f), mkPC dev ch p (rev 2).v1] := by
    have hne' : ¬ (65535 = b) := by omega
    simp [conv_unpackev, mkXPC, mkCTL, mkPC, conv_getctx, conv_getctl, hne, hne']
  refine ⟨h0, ?_, ?_⟩
  · intro m hm
    simp only [mkXPC, BANK_HI, BANK_LO, EV_XPC] at hm
    simp [conv_unpackev, mkXPC, mkPC, hm]
  · intro h1 h2
    rw [h0, h1, h2]
    rfl

/-- Witness for C5 at bank 130, program 5 on device 0, channel 0: the three
events from the empty mirror state, and the single PC from the mirror state
that the first call leaves. -/
theorem C5_unpack_xpc_witness :
    (conv_unpackev [] 0 (mkXPC 0 0 130 5) (fun _ => mkPC 0 0 0 0)).2 =
        [mkCTL 0 0 0 1, mkCTL 0 0 32 2, mkPC 0 0 5 0] ∧
      conv_unpackev [mkCTL 0 0 32 2, mkCTL 0 0 0 1] 0 (mkXPC 0 0 130 5) (fun _ => mkPC 0 0 0 0)
        = ([mkCTL 0 0 32 2, mkCTL 0 0 0 1], [mkPC 0 0 5 0]) :=
  ⟨(C5_unpack_xpc 0 0 0 5 130 (fun _ => mkPC 0 0 0 0) (by decide)).2.2 rfl rfl,
   (C5_unpack_xpc 0 0 0 5 130 (fun _ => mkPC 0 0 0 0) (by decide)).2.1
     [mkCTL 0 0 32 2, mkCTL 0 0 0 1] (by decide)⟩

/-- Claim C6: for every mirror state and every two XPC events on the same
device and channel carrying the same bank (a 14-bit value or UNDEF), unpacking
them consecutively emits at most one bank-select pair CTL(BANK_HI),
CTL(BANK_LO) over the two calls, and the second call returns only the PC
event and leaves the mirror state as the first call left it. -/
theorem C6_idempotent_bank (m : List Ev) (x dev ch b p1 p2 : Nat) (rev1 rev2 : Nat → Ev)
    (hb : b ≤ 0x3fff ∨ b = EV_UNDEF) :
    let u1 := conv_unpackev m x (mkXPC dev ch b p1) rev1
    let u2 := conv_unpackev u1.1 x (mkXPC dev ch b p2) rev2
    u2 = (u1.1, [mkPC dev ch p2 (rev2 0).v1]) ∧
      (u1.2 = [mkPC dev ch p1 (rev1 0).v1] ∨
        u1.2 = [mkCTL dev ch 0 (b >>> 7), mkCTL dev ch 32 (b &&& 0x7f),
                mkPC dev ch p1 (rev1 2).v1]) ∧
      count_ctl BANK_HI (u1.2 ++ u2.2) ≤ 1 ∧ count_ctl BANK_LO (u1.2 ++ u2.2) ≤ 1 := by
  intro u1 u2
  by_cases hc : conv_getctx m (mkXPC dev ch b p1) BANK_HI BANK_LO ≠ b ∧ b ≠ EV_UNDEF
  · -- the first call writes the bank
    have hb14 : b ≤ 0x3fff := by
      rcases hb with h | h
      · exact h
      · exact absurd h hc.2
    have e1 : u1 = (conv_setctl (conv_setctl m (mkCTL dev ch 0 (b >>> 7)))
        (mkCTL dev ch 32 (b &&& 0x7f)),
        [mkCTL dev ch 0 (b >>> 7), mkCTL dev ch 32 (b &&& 0x7f), mkPC dev ch p1 (rev1 2).v1]) := by
      have hc1 := hc.1
      have hc2 := hc.2
      simp only [mkXPC, BANK_HI, BANK_LO, EV_UNDEF, EV_XPC] at hc1 hc2
      simp [u1, conv_unpackev, mkXPC, mkCTL, mkPC, hc1, hc2]
    have hg := getctx_bank_after_set m (mkXPC dev ch b p2) b hb14
    simp only [mkXPC, BANK_HI, BANK_LO, EV_CTL, EV_XPC] at hg
    have e2 : u2 = (u1.1, [mkPC dev ch p2 (rev2 0).v1]) := by
      simp [u2, e1, conv_unpackev, mkXPC, mkCTL, mkPC, hg]
    refine ⟨e2, Or.inr (by rw [e1]), ?_, ?_⟩
    · rw [e2, e1]; simp [count_ctl, mkCTL, mkPC]
    · rw [e2, e1]; simp [count_ctl, mkCTL, mkPC]
  · -- the first call writes only the PC event
    have e1 : u1 = (m, [mkPC dev ch p1 (rev1 0).v1]) := by
      have hc0 := hc
      simp only [mkXPC, BANK_HI, BANK_LO, EV_UNDEF, EV_XPC] at hc0
      simp only [u1, conv_unpackev, mkXPC, EV_XPC, EV_XCTL, BANK_HI, BANK_LO, EV_UNDEF]
      simp [hc0, mkPC]
    have hc' : ¬ (conv_getctx m (mkXPC dev ch b p2) BANK_HI BANK_LO ≠ b ∧ b ≠ EV_UNDEF) := by
      rw [getctx_chan_congr m (mkXPC dev ch b p2) (mkXPC dev ch b p1) _ _ rfl rfl]
      exact hc
    have e2 : u2 = (u1.1, [mkPC dev ch p2 (rev2 0).v1]) := by
      simp only [mkXPC, BANK_HI, BANK_LO, EV_UNDEF, EV_XPC] at hc'
      simp only [u2, e1, conv_unpackev, mkXPC, EV_XPC, EV_XCTL, BANK_HI, BANK_LO, EV_UNDEF]
      simp [hc', mkPC]
    refine ⟨e2, Or.inl (by rw [e1]), ?_, ?_⟩
    · rw [e2, e1]; simp [count_ctl, mkPC]
    · rw [e2, e1]; simp [count_ctl, mkPC]

/-- Witness for C6: two XPC events with bank 130 on the empty mirror state. -/
theorem C6_idempotent_bank_witness :
    (conv_unpackev (conv_unpackev [] 0 (mkXPC 0 0 130 5) (fun _ => mkPC 0 0 0 0)).1 0
        (mkXPC 0 0 130 6) (fun _ => mkPC 0 0 0 0)).2 = [mkPC 0 0 6 0] :=
  congrArg Prod.snd
    (C6_idempotent_bank [] 0 0 0 130 5 6 (fun _ => mkPC 0 0 0 0) (fun _ => mkPC 0 0 0 0)
      (Or.inl (by decide))).1

/-! ## The RPN context of the packer -/

/-- Claim C8, evaluated on the source: on device 0, channel 0, the wire
sequence CTL(101,0), CTL(100,0), CTL(6,0x40) packed from the empty state list
leaves RPN_HI=0, RPN_LO=0 and DATAENT_HI=0x40 recorded and no NRPN context;
then `conv_packev` of CTL(DATAENT_LO, 0) returns 0 and leaves `*rev` as it
was, where the claim has RPN{num=0, val=0x2000}: the lookup pairs RPN_HI with
NRPN_LO. On a state where NRPN_LO=5 stands beside RPN_HI=1 and RPN_LO=2 the
emitted number is 5 + (1<<7), not 2 + (1<<7). -/
theorem C8_rpn_pairing_failing :
    (conv_packev (conv_packev (conv_packev [] 0 (mkCTL 0 0 101 0) (mkPC 0 0 0 0)).1 0
        (mkCTL 0 0 100 0) (mkPC 0 0 0 0)).1 0 (mkCTL 0 0 6 0x40) (mkPC 0 0 0 0)).1
      = [mkCTL 0 0 6 0x40, mkCTL 0 0 100 0, mkCTL 0 0 101 0] ∧
    conv_getctl [mkCTL 0 0 6 0x40, mkCTL 0 0 100 0, mkCTL 0 0 101 0] (mkCTL 0 0 38 0) RPN_HI = 0 ∧
    conv_getctl [mkCTL 0 0 6 0x40, mkCTL 0 0 100 0, mkCTL 0 0 101 0] (mkCTL 0 0 38 0) RPN_LO = 0 ∧
    conv_getctl [mkCTL 0 0 6 0x40, mkCTL 0 0 100 0, mkCTL 0 0 101 0] (mkCTL 0 0 38 0)
      DATAENT_HI = 0x40 ∧
    conv_getctx [mkCTL 0 0 6 0x40, mkCTL 0 0 100 0, mkCTL 0 0 101 0] (mkCTL 0 0 38 0)
      NRPN_HI NRPN_LO = EV_UNDEF ∧
    conv_packev [mkCTL 0 0 6 0x40, mkCTL 0 0 100 0, mkCTL 0 0 101 0] 0 (mkCTL 0 0 38 0)
        (mkPC 0 0 0 0)
      = ([mkCTL 0 0 6 0x40, mkCTL 0 0 100 0, mkCTL 0 0 101 0], mkPC 0 0 0 0, 0) ∧
    conv_packev [mkCTL 0 0 6 3, mkCTL 0 0 98 5, mkCTL 0 0 100 2, mkCTL 0 0 101 1] 0
        (mkCTL 0 0 38 0) (mkPC 0 0 0 0)
      = ([mkCTL 0 0 6 3, mkCTL 0 0 98 5, mkCTL 0 0 100 2, mkCTL 0 0 101 1],
          mkRPN 0 0 (5 + (1 <<< 7)) (0 + (3 <<< 7)), 1) := by
  decide

/-! ## Coarse and fine controllers in the packer -/

/-- Claim C9, refuted as stated: controller 33 is none of 0, 6, 32, 38, 98, 99,
100, 101, is not below 32 and, with the bitmap 0, is not the companion of a
fine controller; yet `conv_packev` of CTL(33, 5) returns 0 and emits no
XCTL{num=33, val=5<<7}. -/
theorem C9_counterexample :
    (33 ∉ [0, 6, 32, 38, 98, 99, 100, 101]) ∧ EVCTL_ISFINE 0 (33 - 32) = false ∧
    ¬ ((conv_packev [] 0 (mkCTL 0 0 33 5) (mkPC 0 0 0 0)).2.2 = 1 ∧
       (conv_packev [] 0 (mkCTL 0 0 33 5) (mkPC 0 0 0 0)).2.1 = mkXCTL 0 0 33 (5 <<< 7)) := by
  decide

/-- Claim C9, amended: for every CTL event whose controller number is in 1..31
other than 6 and not marked fine by the bitmap, or in 64..127 other than 98,
99, 100, 101, `conv_packev` emits XCTL{num = ctl_num, val = ctl_val << 7} on
the same device and channel and leaves the state list unchanged; for a
controller number in 33..63 other than 38 whose companion (number - 32) is not
fine, `conv_packev` emits nothing and leaves the state list and `*rev`
unchanged. The shift is that of a 32-bit unsigned; it is exact for a 7-bit
value. -/
theorem C9_coarse (l : List Ev) (x : Nat) (ev rev : Ev) (hcmd : ev.cmd = EV_CTL) :
    (((1 ≤ ev.v0 ∧ ev.v0 ≤ 31 ∧ ev.v0 ≠ 6 ∧ EVCTL_ISFINE x ev.v0 = false) ∨
      (64 ≤ ev.v0 ∧ ev.v0 ≤ 127 ∧ ev.v0 ≠ 98 ∧ ev.v0 ≠ 99 ∧ ev.v0 ≠ 100 ∧ ev.v0 ≠ 101)) →
      conv_packev l x ev rev
          = (l, mkXCTL ev.dev ev.ch ev.v0 ((ev.v1 <<< 7) % 4294967296), 1) ∧
        (ev.v1 ≤ 127 →
          conv_packev l x ev rev = (l, mkXCTL ev.dev ev.ch ev.v0 (ev.v1 <<< 7), 1))) ∧
    ((33 ≤ ev.v0 ∧ ev.v0 ≤ 63 ∧ ev.v0 ≠ 38 ∧ EVCTL_ISFINE x (ev.v0 - 32) = false) →
      conv_packev l x ev rev = (l, rev, 0)) := by
  have hpc : ¬ (ev.cmd = 12) := by simp [hcmd]
  have hctl : ev.cmd = 11 := by simp [hcmd]
  constructor
  · intro h
    have key : conv_packev l x ev rev
        = (l, mkXCTL ev.dev ev.ch ev.v0 ((ev.v1 <<< 7) % 4294967296), 1) := by
      rcases h with ⟨h1, h2, h3, h4⟩ | ⟨h1, h2, h3, h4, h5, h6⟩
      · have a0 : ¬ (ev.v0 = 0) := by omega
        have a1 : ¬ (ev.v0 = 101) := by omega
        have a2 : ¬ (ev.v0 = 99) := by omega
        have a3 : ¬ (ev.v0 = 32) := by omega
        have a4 : ¬ (ev.v0 = 98) := by omega
        have a5 : ¬ (ev.v0 = 100) := by omega
        have a6 : ¬ (ev.v0 = 38) := by omega
        have a7 : ev.v0 < 32 := by omega
        simp [conv_packev, conv_packev_default, mkXCTL, hpc, hctl, a0, a1, a2, a3, a4, a5,
          a6, a7, h3, h4]
      · have a0 : ¬ (ev.v0 = 0) := by omega
        have a3 : ¬ (ev.v0 = 32) := by omega
        have a6 : ¬ (ev.v0 = 38) := by omega
        have a8 : ¬ (ev.v0 = 6) := by omega
        have a7 : ¬ (ev.v0 < 32) := by omega
        have a9 : ¬ (ev.v0 < 64) := by omega
        simp [conv_packev, conv_packev_default, mkXCTL, hpc, hctl, a0, a3, a6, a7, a8, a9,
          h3, h4, h5, h6]
    refine ⟨key, ?_⟩
    intro hv
    rw [key, shl7, Nat.mod_eq_of_lt (by omega)]
  · rintro ⟨h1, h2, h3, h4⟩
    have a0 : ¬ (ev.v0 = 0) := by omega
    have a1 : ¬ (ev.v0 = 101) := by omega
    have a2 : ¬ (ev.v0 = 99) := by omega
    have a3 : ¬ (ev.v0 = 32) := by omega
    have a4 : ¬ (ev.v0 = 98) := by omega
    have a5 : ¬ (ev.v0 = 100) := by omega
    have a8 : ¬ (ev.v0 = 6) := by omega
    have a7 : ¬ (ev.v0 < 32) := by omega
    have a9 : ev.v0 < 64 := by omega
    simp [conv_packev, conv_packev_default, hpc, hctl, a0, a1, a2, a3, a4, a5, a7, a8, a9,
      h3, h4]

/-- Witness for the amended C9 with no fine controller: CTL(7, 100) gives
XCTL{num=7, val=12800}, CTL(64, 127) gives XCTL{num=64, val=16256}, and
CTL(33, 5) is dropped. -/
theorem C9_coarse_witness :
    conv_packev [] 0 (mkCTL 0 0 7 100) (mkPC 0 0 0 0) = ([], mkXCTL 0 0 7 12800, 1) ∧
      conv_packev [] 0 (mkCTL 0 0 64 127) (mkPC 0 0 0 0) = ([], mkXCTL 0 0 64 16256, 1) ∧
      conv_packev [] 0 (mkCTL 0 0 33 5) (mkPC 0 0 0 0) = ([], mkPC 0 0 0 0, 0) :=
  ⟨((C9_coarse [] 0 (mkCTL 0 0 7 100) (mkPC 0 0 0 0) rfl).1
      (Or.inl ⟨by decide, by decide, by decide, by decide⟩)).2 (by decide),
   ((C9_coarse [] 0 (mkCTL 0 0 64 127) (mkPC 0 0 0 0) rfl).1
      (Or.inr ⟨by decide, by decide, by decide, by decide, by decide, by decide⟩)).2
      (by decide),
   (C9_coarse [] 0 (mkCTL 0 0 33 5) (mkPC 0 0 0 0) rfl).2
      ⟨by decide, by decide, by decide, by decide⟩⟩

/-- Claim C10: for every controller number n in 1..31 other than 6 that the
bitmap marks fine, `conv_packev` of CTL(n, hi) records hi for (device,
channel, n) and emits nothing; `conv_packev` of CTL(n+32, lo) emits
XCTL{num = n, val = lo + (hi << 7)} when a value hi is recorded for (device,
channel, n), and emits nothing with the state list unchanged when none is
recorded. The sum is that of 32-bit unsigned arithmetic; it is exact for
7-bit lo and hi. -/
theorem C10_fine_pair (l : List Ev) (x dev ch n hi lo : Nat) (rev : Ev)
    (hn1 : 1 ≤ n) (hn2 : n ≤ 31) (hn6 : n ≠ 6) (hfine : EVCTL_ISFINE x n = true) :
    conv_packev l x (mkCTL dev ch n hi) rev = (conv_setctl l (mkCTL dev ch n hi), rev, 0) ∧
    conv_getctl (conv_packev l x (mkCTL dev ch n hi) rev).1 (mkCTL dev ch (n + 32) lo) n = hi ∧
    (hi ≠ EV_UNDEF → conv_getctl l (mkCTL dev ch (n + 32) lo) n = hi →
      conv_packev l x (mkCTL dev ch (n + 32) lo) rev
        = (l, mkXCTL dev ch n ((lo + (hi <<< 7) % 4294967296) % 4294967296), 1)) ∧
    (lo ≤ 127 → hi ≤ 127 → conv_getctl l (mkCTL dev ch (n + 32) lo) n = hi →
      conv_packev l x (mkCTL dev ch (n + 32) lo) rev
        = (l, mkXCTL dev ch n (lo + (hi <<< 7)), 1)) ∧
    (conv_getctl l (mkCTL dev ch (n + 32) lo) n = EV_UNDEF →
      conv_packev l x (mkCTL dev ch (n + 32) lo) rev = (l, rev, 0)) ∧
    ((∀ s ∈ l, ¬ (s.v0 = n ∧ s.ch = ch ∧ s.dev = dev)) →
      conv_packev l x (mkCTL dev ch (n + 32) lo) rev = (l, rev, 0)) := by
  have a0 : ¬ (n = 0) := by omega
  have a1 : ¬ (n = 101) := by omega
  have a2 : ¬ (n = 99) := by omega
  have a3 : ¬ (n = 32) := by omega
  have a4 : ¬ (n = 98) := by omega
  have a5 : ¬ (n = 100) := by omega
  have a6 : ¬ (n = 38) := by omega
  have a7 : n < 32 := by omega
  have b1 : ¬ (n + 32 = 101) := by omega
  have b2 : ¬ (n + 32 = 99) := by omega
  have b4 : ¬ (n + 32 = 98) := by omega
  have b5 : ¬ (n + 32 = 100) := by omega
  have b6 : ¬ (n + 32 = 38) := by omega
  have b8 : ¬ (n + 32 = 6) := by omega
  have e1 : conv_packev l x (mkCTL dev ch n hi) rev
      = (conv_setctl l (mkCTL dev ch n hi), rev, 0) := by
    simp [conv_packev, conv_packev_default, mkCTL, a0, a1, a2, a3, a4, a5, a6, a7, hn6, hfine]
  have emit : ∀ v, v ≠ EV_UNDEF → conv_getctl l (mkCTL dev ch (n + 32) lo) n = v →
      conv_packev l x (mkCTL dev ch (n + 32) lo) rev
        = (l, mkXCTL dev ch n ((lo + (v <<< 7) % 4294967296) % 4294967296), 1) := by
    intro v hv hg
    simp only [EV_UNDEF] at hv
    simp only [mkCTL, EV_CTL] at hg
    simp [conv_packev, conv_packev_default, mkCTL, mkXCTL, a0, b1, b2, b4, b5, b6, b8, a7,
      hfine, hg, hv]
  have none : conv_getctl l (mkCTL dev ch (n + 32) lo) n = EV_UNDEF →
      conv_packev l x (mkCTL dev ch (n + 32) lo) rev = (l, rev, 0) := by
    intro hg
    simp only [mkCTL, EV_CTL, EV_UNDEF] at hg
    simp [conv_packev, conv_packev_default, mkCTL, a0, b1, b2, b4, b5, b6, b8, a7, hfine, hg]
  refine ⟨e1, ?_, emit hi, ?_, none, ?_⟩
  · rw [e1]
    simp [getctl_setctl, mkCTL]
  · intro hlo hhi hg
    have hsum : (lo + hi * 128 % 4294967296) % 4294967296 = lo + hi * 128 := by omega
    rw [emit hi (by simp only [EV_UNDEF]; omega) hg, shl7, hsum]
  · intro habs
    exact none (getctl_of_absent l _ n (by simpa [mkCTL] using habs))

/-- Witness for C10 with controller 7 marked fine: CTL(7, 3) is recorded,
CTL(39, 4) then gives XCTL{num=7, val=4 + (3<<7)}, and CTL(39, 4) on the empty
state list gives nothing. -/
theorem C10_fine_pair_witness :
    conv_packev [] 128 (mkCTL 0 0 7 3) (mkPC 0 0 0 0) = ([mkCTL 0 0 7 3], mkPC 0 0 0 0, 0) ∧
      conv_packev [mkCTL 0 0 7 3] 128 (mkCTL 0 0 39 4) (mkPC 0 0 0 0)
        = ([mkCTL 0 0 7 3], mkXCTL 0 0 7 388, 1) ∧
      conv_packev [] 128 (mkCTL 0 0 39 4) (mkPC 0 0 0 0) = ([], mkPC 0 0 0 0, 0) :=
  ⟨(C10_fine_pair [] 128 0 0 7 3 4 (mkPC 0 0 0 0) (by decide) (by decide)
      (by decide) (by decide)).1,
   (C10_fine_pair [mkCTL 0 0 7 3] 128 0 0 7 3 4 (mkPC 0 0 0 0) (by decide) (by decide)
      (by decide) (by decide)).2.2.2.1 (by decide) (by decide) (by decide),
   (C10_fine_pair [] 128 0 0 7 3 4 (mkPC 0 0 0 0) (by decide) (by decide)
      (by decide) (by decide)).2.2.2.2.2 (by decide)⟩

/-! ## Round trips through the wire form -/

/-- Claim C4, refuted as stated: the canonical event XCTL{num=7, val=1} on a
controller that the bitmap 0 does not mark fine is unpacked to CTL(7, 0), and
packing that event emits XCTL{num=7, val=0}, not the original event. -/
theorem C4_counterexample :
    (conv_unpackev [] 0 (mkXCTL 0 0 7 1) (fun _ => mkPC 0 0 0 0)).2 = [mkCTL 0 0 7 0] ∧
    (pack_stream 0 [] (mkPC 0 0 0 0)
        (conv_unpackev [] 0 (mkXCTL 0 0 7 1) (fun _ => mkPC 0 0 0 0)).2).2.2
      = [mkXCTL 0 0 7 0] ∧
    (pack_stream 0 [] (mkPC 0 0 0 0)
        (conv_unpackev [] 0 (mkXCTL 0 0 7 1) (fun _ => mkPC 0 0 0 0)).2).2.2
      ≠ [mkXCTL 0 0 7 1] := by
  decide

/-- Claim C4, amended: for every fine-controller bitmap and every canonical
event c that is an XPC with a 14-bit bank, an NRPN with 14-bit num and val, an
XCTL with a 14-bit value on a controller number in 1..31 other than 6 that the
bitmap marks fine, or an XCTL on a coarse controller that is not reserved
(number in 1..31 other than 6 and not fine, or in 64..127 other than 98..101)
whose 14-bit value has its low seven bits clear, on any device and channel:
unpacking c against an empty mirror state and feeding the returned wire events
in order to `conv_packev` against an empty packer state emits exactly one
canonical event in total, and that event equals c. -/
theorem C4_round_trip (x : Nat) (c : Ev) (rev : Nat → Ev) (prev : Ev)
    (h : round_trips x c) :
    (pack_stream x [] prev (conv_unpackev [] x c rev).2).2.2 = [c] := by
  rcases h with h | ⟨h1, h2, h3, h4⟩
  · exact (step_recoverable x [] [] rev prev c h (in_sync_refl [])).1
  · obtain ⟨cmd, dev, ch, n, val⟩ := c
    simp only [EV_MAXFINE] at h1 h2 h3 h4
    subst h1
    have hv : val >>> 7 * 128 % 4294967296 = val := by rw [shr7]; omega
    have hu : conv_unpackev [] x (mkXCTL dev ch n val) rev = ([], [mkCTL dev ch n (val >>> 7)]) := by
      apply unp_xctl_coarse
      rcases h4 with h | h
      · exact Or.inr h.2.2.2
      · exact Or.inl (by omega)
    have hp : conv_packev [] x (mkCTL dev ch n (val >>> 7)) prev
        = ([], mkXCTL dev ch n val, 1) := by
      rw [pk_coarse [] x dev ch n (val >>> 7) prev
        (h4.imp id (fun h => ⟨h.1, h.2.2.1, h.2.2.2.1, h.2.2.2.2.1, h.2.2.2.2.2⟩)), hv]
    show (pack_stream x [] prev (conv_unpackev [] x (mkXCTL dev ch n val) rev).2).2.2 = _
    rw [hu, pack_stream_emit x _ _ _ _ _ _ hp]
    rfl

/-- Witness for the amended C4: the NRPN of scenario B and the coarse event
XCTL{num=7, val=12800} make the round trip. -/
theorem C4_round_trip_witness :
    (pack_stream 0 [] (mkPC 0 0 0 0)
        (conv_unpackev [] 0 (mkNRPN 0 0 2356 11128) (fun _ => mkPC 0 0 0 0)).2).2.2
      = [mkNRPN 0 0 2356 11128] ∧
    (pack_stream 0 [] (mkPC 0 0 0 0)
        (conv_unpackev [] 0 (mkXCTL 0 0 7 12800) (fun _ => mkPC 0 0 0 0)).2).2.2
      = [mkXCTL 0 0 7 12800] :=
  ⟨C4_round_trip 0 (mkNRPN 0 0 2356 11128) (fun _ => mkPC 0 0 0 0) (mkPC 0 0 0 0)
     (Or.inl (Or.inl ⟨rfl, by decide, by decide⟩)),
   C4_round_trip 0 (mkXCTL 0 0 7 12800) (fun _ => mkPC 0 0 0 0) (mkPC 0 0 0 0)
     (Or.inr ⟨rfl, by decide, by decide,
       Or.inl ⟨by decide, by decide, by decide, by decide⟩⟩)⟩

/-- The round trip of an RPN event on the source: the four wire events written
by the unpacker are all absorbed by the packer, which emits nothing. -/
theorem rpn_round_trip_emits_nothing :
    (conv_unpackev [] 0 (mkRPN 0 0 0 0x2000) (fun _ => mkPC 0 0 0 0)).2
      = [mkCTL 0 0 101 0, mkCTL 0 0 100 0, mkCTL 0 0 6 0x40, mkCTL 0 0 38 0] ∧
    (pack_stream 0 [] (mkPC 0 0 0 0)
        (conv_unpackev [] 0 (mkRPN 0 0 0 0x2000) (fun _ => mkPC 0 0 0 0)).2).2.2 = [] := by
  decide

/-- Claim C7: for every finite sequence of canonical events, each an NRPN with
14-bit num and val, an XPC with a 14-bit bank, or an XCTL with a 14-bit value
on a controller number in 1..31 other than 6 that the bitmap marks fine, on
arbitrary devices and channels, and for a fixed bitmap: unpacking the sequence
event by event with one running mirror state that starts empty, and packing
the concatenated wire output event by event with one running packer state
that starts empty, emits exactly the original sequence. -/
theorem C7_stream_recovery (x : Nat) (cs : List Ev) (rev : Nat → Ev) (prev : Ev)
    (h : ∀ c ∈ cs, recoverable x c) :
    (pack_stream x [] prev (unpack_stream x [] rev cs).2).2.2 = cs :=
  stream_recovery_from x cs [] [] rev prev (in_sync_refl []) h

/-- Witness for C7: a stream of six events on controller 7 marked fine, in
which the second NRPN, the second XPC and the second XCTL repeat the context
of the first, so that the unpacker leaves their context bytes out. -/
theorem C7_stream_recovery_witness :
    (pack_stream 128 [] (mkPC 0 0 0 0)
        (unpack_stream 128 [] (fun _ => mkPC 0 0 0 0)
          [mkNRPN 0 0 2356 11128, mkNRPN 0 0 2356 5, mkXPC 0 0 130 5, mkXPC 0 0 130 6,
           mkXCTL 0 0 7 388, mkXCTL 0 0 7 389]).2).2.2
      = [mkNRPN 0 0 2356 11128, mkNRPN 0 0 2356 5, mkXPC 0 0 130 5, mkXPC 0 0 130 6,
         mkXCTL 0 0 7 388, mkXCTL 0 0 7 389] :=
  C7_stream_recovery 128
    [mkNRPN 0 0 2356 11128, mkNRPN 0 0 2356 5, mkXPC 0 0 130 5, mkXPC 0 0 130 6,
     mkXCTL 0 0 7 388, mkXCTL 0 0 7 389] (fun _ => mkPC 0 0 0 0) (mkPC 0 0 0 0)
    (by simp [recoverable, mkNRPN, mkXPC, mkXCTL, EVCTL_ISFINE])

/-- On the stream of the witness the unpacker writes thirteen wire events, where
six events unpacked each from an empty mirror state take eighteen. -/
theorem stream_suppression_example :
    (unpack_stream 128 [] (fun _ => mkPC 0 0 0 0)
      [mkNRPN 0 0 2356 11128, mkNRPN 0 0 2356 5, mkXPC 0 0 130 5, mkXPC 0 0 130 6,
       mkXCTL 0 0 7 388, mkXCTL 0 0 7 389]).2.length = 13 := by
  decide

/-! ## Keys of the state list: what the list operations preserve -/

theorem rmctl_sublist (l : List Ev) (ev : Ev) (k : Nat) : (conv_rmctl l ev k).Sublist l := by
  induction l with
  | nil => exact List.Sublist.refl _
  | cons i rest ih =>
    simp only [conv_rmctl]
    split
    · exact List.sublist_cons_self i rest
    · exact ih.cons₂ i

theorem keys_unique_rmctl (l : List Ev) (ev : Ev) (k : Nat) (h : keys_unique l) :
    keys_unique (conv_rmctl l ev k) :=
  List.Pairwise.sublist (rmctl_sublist l ev k) h

theorem absent_rmctl (l : List Ev) (ev : Ev) (n dev ch k : Nat) (h : absent l dev ch k) :
    absent (conv_rmctl l ev n) dev ch k :=
  fun s hs => h s ((rmctl_sublist l ev n).subset hs)

/-- On a list with unique keys, removing a key leaves no state with it. -/
theorem absent_after_rmctl (l : List Ev) (ev : Ev) (k : Nat) (h : keys_unique l) :
    absent (conv_rmctl l ev k) ev.dev ev.ch k := by
  induction l with
  | nil => intro s hs; simp [conv_rmctl] at hs
  | cons i rest ih =>
    have hp := List.pairwise_cons.mp h
    simp only [conv_rmctl]
    split
    · rename_i hm
      simp only [CHAN_MATCH, Bool.and_eq_true, beq_iff_eq] at hm
      intro s hs hk
      exact hp.1 s hs ⟨by omega, by omega, by omega⟩
    · rename_i hm
      simp only [CHAN_MATCH, Bool.and_eq_true, beq_iff_eq] at hm
      intro s hs
      rcases List.mem_cons.mp hs with h1 | h1
      · subst h1
        exact hm
      · exact ih hp.2 s h1

/-- The states of an updated list have the keys of the former list. -/
theorem setctl_loop_keys (l l' : List Ev) (ev : Ev) (h : conv_setctl_loop l ev = some l') :
    ∀ b ∈ l', ∃ b' ∈ l, b.v0 = b'.v0 ∧ b.ch = b'.ch ∧ b.dev = b'.dev := by
  induction l generalizing l' with
  | nil => simp [conv_setctl_loop] at h
  | cons i rest ih =>
    simp only [conv_setctl_loop] at h
    split at h
    · simp only [Option.some.injEq] at h
      subst h
      intro b hb
      rcases List.mem_cons.mp hb with h1 | h1
      · subst h1
        exact ⟨i, List.mem_cons_self i rest, rfl, rfl, rfl⟩
      · exact ⟨b, List.mem_cons_of_mem i h1, rfl, rfl, rfl⟩
    · simp only [Option.map_eq_some'] at h
      obtain ⟨r, hr, hl⟩ := h
      subst hl
      intro b hb
      rcases List.mem_cons.mp hb with h1 | h1
      · subst h1
        exact ⟨b, List.mem_cons_self b rest, rfl, rfl, rfl⟩
      · obtain ⟨b', hb', hk⟩ := ih r hr b h1
        exact ⟨b', List.mem_cons_of_mem i hb', hk⟩

theorem setctl_loop_none_absent (l : List Ev) (ev : Ev) (h : conv_setctl_loop l ev = none) :
    absent l ev.dev ev.ch ev.v0 := by
  induction l with
  | nil => intro s hs; simp at hs
  | cons i rest ih =>
    simp only [conv_setctl_loop] at h
    split at h
    · simp at h
    · rename_i hm
      simp only [Option.map_eq_none'] at h
      simp only [CTL_MATCH, CHAN_MATCH, Bool.and_eq_true, beq_iff_eq] at hm
      intro s hs
      rcases List.mem_cons.mp hs with h1 | h1
      · subst h1
        exact hm
      · exact ih h s h1

theorem keys_unique_setctl_loop (l l' : List Ev) (ev : Ev)
    (h : conv_setctl_loop l ev = some l') (hu : keys_unique l) : keys_unique l' := by
  induction l generalizing l' with
  | nil => simp [conv_setctl_loop] at h
  | cons i rest ih =>
    have hp := List.pairwise_cons.mp hu
    simp only [conv_setctl_loop] at h
    split at h
    · simp only [Option.some.injEq] at h
      subst h
      exact List.pairwise_cons.mpr ⟨fun b hb => hp.1 b hb, hp.2⟩
    · simp only [Option.map_eq_some'] at h
      obtain ⟨r, hr, hl⟩ := h
      subst hl
      refine List.pairwise_cons.mpr ⟨?_, ih r hr hp.2⟩
      intro b hb hk
      obtain ⟨b', hb', k0, k1, k2⟩ := setctl_loop_keys rest r ev hr b hb
      exact hp.1 b' hb' ⟨hk.1.trans k0, hk.2.1.trans k1, hk.2.2.trans k2⟩

theorem keys_unique_setctl (l : List Ev) (ev : Ev) (h : keys_unique l) :
    keys_unique (conv_setctl l ev) := by
  unfold conv_setctl
  cases hl : conv_setctl_loop l ev with
  | some l' => exact keys_unique_setctl_loop l l' ev hl h
  | none =>
    refine List.pairwise_cons.mpr ⟨?_, h⟩
    intro b hb hk
    exact setctl_loop_none_absent l ev hl b hb ⟨hk.1.symm, hk.2.1.symm, hk.2.2.symm⟩

theorem absent_setctl (l : List Ev) (ev : Ev) (dev ch k : Nat) (h : absent l dev ch k)
    (hne : ¬ (ev.v0 = k ∧ ev.ch = ch ∧ ev.dev = dev)) :
    absent (conv_setctl l ev) dev ch k := by
  unfold conv_setctl
  cases hl : conv_setctl_loop l ev with
  | some l' =>
    intro b hb hk
    obtain ⟨b', hb', k0, k1, k2⟩ := setctl_loop_keys l l' ev hl b hb
    exact h b' hb' ⟨k0 ▸ hk.1, k1 ▸ hk.2.1, k2 ▸ hk.2.2⟩
  | none =>
    intro b hb
    rcases List.mem_cons.mp hb with h1 | h1
    · subst h1
      exact hne
    · exact h b h1

/-! ## The state list after one call of the packer or of the unpacker -/

/-- The results of the packer, branch by branch: a PC gives an XPC; an event
that is neither PC nor CTL is copied; a CTL is absorbed (the state list is then
unchanged, or has at most two states of the channel of `ev` removed and the
controller of `ev` set), or is a data entry low byte that fails after the
kind was written to `*rev`, or is emitted as XCTL, NRPN or RPN with the state
list unchanged. -/
theorem packev_cases (l : List Ev) (x : Nat) (ev rev : Ev) :
    (ev.cmd = EV_PC ∧ conv_packev l x ev rev
        = (l, { cmd := EV_XPC, dev := ev.dev, ch := ev.ch, v0 := ev.v0,
                v1 := conv_getctx l ev BANK_HI BANK_LO }, 1)) ∨
    (ev.cmd ≠ EV_PC ∧ ev.cmd ≠ EV_CTL ∧ conv_packev l x ev rev = (l, ev, 1)) ∨
    (ev.cmd = EV_CTL ∧ ∃ l', conv_packev l x ev rev = (l', rev, 0) ∧
      (l' = l ∨ l' = conv_setctl l ev ∨ (∃ a, l' = conv_setctl (conv_rmctl l ev a) ev) ∨
        (∃ a b, l' = conv_setctl (conv_rmctl (conv_rmctl l ev a) ev b) ev))) ∨
    (ev.cmd = EV_CTL ∧ ev.v0 = DATAENT_LO ∧ ∃ c, (c = EV_NRPN ∨ c = EV_RPN) ∧
      conv_packev l x ev rev = (l, { rev with cmd := c }, 0)) ∨
    (ev.cmd = EV_CTL ∧ ∃ r, conv_packev l x ev rev = (l, r, 1) ∧
      (r.cmd = EV_XCTL ∨ r.cmd = EV_NRPN ∨ r.cmd = EV_RPN) ∧ r.dev = ev.dev ∧ r.ch = ev.ch) := by
  by_cases hpc : ev.cmd = EV_PC
  · exact Or.inl ⟨hpc, by rw [conv_packev, if_pos hpc]⟩
  by_cases hctl : ev.cmd = EV_CTL
  swap
  · exact Or.inr (Or.inl ⟨hpc, hctl, by rw [conv_packev, if_neg hpc, if_neg hctl]⟩)
  right; right
  by_cases h0 : ev.v0 = BANK_HI
  · exact Or.inl ⟨hctl, _, by rw [conv_packev, if_neg hpc, if_pos hctl, if_pos h0],
      Or.inr (Or.inr (Or.inl ⟨_, rfl⟩))⟩
  by_cases h1 : ev.v0 = RPN_HI
  · exact Or.inl ⟨hctl, _, by rw [conv_packev, if_neg hpc, if_pos hctl, if_neg h0, if_pos h1],
      Or.inr (Or.inr (Or.inr ⟨_, _, rfl⟩))⟩
  by_cases h2 : ev.v0 = NRPN_HI
  · exact Or.inl ⟨hctl, _, by
      rw [conv_packev, if_neg hpc, if_pos hctl, if_neg h0, if_neg h1, if_pos h2],
      Or.inr (Or.inr (Or.inr ⟨_, _, rfl⟩))⟩
  by_cases h3 : ev.v0 = DATAENT_HI
  · exact Or.inl ⟨hctl, _, by
      rw [conv_packev, if_neg hpc, if_pos hctl, if_neg h0, if_neg h1, if_neg h2, if_pos h3],
      Or.inr (Or.inr (Or.inl ⟨_, rfl⟩))⟩
  by_cases h4 : ev.v0 = BANK_LO
  · exact Or.inl ⟨hctl, _, by
      rw [conv_packev, if_neg hpc, if_pos hctl, if_neg h0, if_neg h1, if_neg h2, if_neg h3,
        if_pos h4],
      Or.inr (Or.inl rfl)⟩
  by_cases h5 : ev.v0 = NRPN_LO
  · exact Or.inl ⟨hctl, _, by
      rw [conv_packev, if_neg hpc, if_pos hctl, if_neg h0, if_neg h1, if_neg h2, if_neg h3,
        if_neg h4, if_pos h5],
      Or.inr (Or.inr (Or.inl ⟨_, rfl⟩))⟩
  by_cases h6 : ev.v0 = RPN_LO
  · exact Or.inl ⟨hctl, _, by
      rw [conv_packev, if_neg hpc, if_pos hctl, if_neg h0, if_neg h1, if_neg h2, if_neg h3,
        if_neg h4, if_neg h5, if_pos h6],
      Or.inr (Or.inr (Or.inl ⟨_, rfl⟩))⟩
  by_cases h7 : ev.v0 = DATAENT_LO
  · -- the data entry low byte
    have hde : ∀ (r : Ev) (num : Nat) (c : Nat), (c = EV_NRPN ∨ c = EV_RPN) → r.cmd = c →
        r = { rev with cmd := c } →
        ((∃ c, (c = EV_NRPN ∨ c = EV_RPN) ∧
            conv_packev_dataent l ev r num = (l, { rev with cmd := c }, 0)) ∨
         (∃ r', conv_packev_dataent l ev r num = (l, r', 1) ∧
            (r'.cmd = EV_XCTL ∨ r'.cmd = EV_NRPN ∨ r'.cmd = EV_RPN) ∧ r'.dev = ev.dev ∧
            r'.ch = ev.ch)) := by
      intro r num c hc hrc hr
      unfold conv_packev_dataent
      by_cases hv : conv_getctl l ev DATAENT_HI = EV_UNDEF
      · left
        refine ⟨c, hc, ?_⟩
        simp only [hv, if_true, hr]
      · right
        refine ⟨{ r with dev := ev.dev, ch := ev.ch, v0 := num,
                         v1 := (ev.v1 + (conv_getctl l ev DATAENT_HI <<< 7) % 4294967296)
                                  % 4294967296 },
          by simp only [hv, if_false], ?_, rfl, rfl⟩
        rcases hc with h | h
        · exact Or.inr (Or.inl (hrc.trans h))
        · exact Or.inr (Or.inr (hrc.trans h))
    have hval : conv_packev l x ev rev =
        (if conv_getctx l ev NRPN_HI NRPN_LO ≠ EV_UNDEF then
          conv_packev_dataent l ev { rev with cmd := EV_NRPN } (conv_getctx l ev NRPN_HI NRPN_LO)
        else if conv_getctx l ev RPN_HI NRPN_LO = EV_UNDEF then (l, rev, 0)
        else conv_packev_dataent l ev { rev with cmd := EV_RPN }
          (conv_getctx l ev RPN_HI NRPN_LO)) := by
      rw [conv_packev]
      simp only [if_neg hpc, if_pos hctl, if_neg h0, if_neg h1, if_neg h2, if_neg h3, if_neg h4,
        if_neg h5, if_neg h6, if_pos h7]
    rw [hval]
    by_cases hn : conv_getctx l ev NRPN_HI NRPN_LO ≠ EV_UNDEF
    · rw [if_pos hn]
      rcases hde { rev with cmd := EV_NRPN } (conv_getctx l ev NRPN_HI NRPN_LO) EV_NRPN
        (Or.inl rfl) rfl rfl with h | h
      · exact Or.inr (Or.inl ⟨hctl, h7, h⟩)
      · exact Or.inr (Or.inr ⟨hctl, h⟩)
    · rw [if_neg hn]
      by_cases hr : conv_getctx l ev RPN_HI NRPN_LO = EV_UNDEF
      · rw [if_pos hr]
        exact Or.inl ⟨hctl, l, rfl, Or.inl rfl⟩
      · rw [if_neg hr]
        rcases hde { rev with cmd := EV_RPN } (conv_getctx l ev RPN_HI NRPN_LO) EV_RPN
          (Or.inr rfl) rfl rfl with h | h
        · exact Or.inr (Or.inl ⟨hctl, h7, h⟩)
        · exact Or.inr (Or.inr ⟨hctl, h⟩)
  · -- the default case
    have hval : conv_packev l x ev rev = conv_packev_default l x ev rev := by
      rw [conv_packev]
      simp only [if_neg hpc, if_pos hctl, if_neg h0, if_neg h1, if_neg h2, if_neg h3, if_neg h4,
        if_neg h5, if_neg h6, if_neg h7]
    rw [hval]
    unfold conv_packev_default
    by_cases ha : ev.v0 < 32
    · by_cases hf : EVCTL_ISFINE x ev.v0 = true
      · exact Or.inl ⟨hctl, conv_setctl l ev, by simp only [if_pos ha, if_pos hf],
          Or.inr (Or.inl rfl)⟩
      · exact Or.inr (Or.inr ⟨hctl,
          { cmd := EV_XCTL, dev := ev.dev, ch := ev.ch, v0 := ev.v0,
            v1 := (ev.v1 <<< 7) % 4294967296 },
          by simp only [if_pos ha, if_neg hf], Or.inl rfl, rfl, rfl⟩)
    · by_cases hb : ev.v0 < 64
      · by_cases hf : (!EVCTL_ISFINE x (ev.v0 - 32)) = true
        · exact Or.inl ⟨hctl, l, by simp only [if_neg ha, if_pos hb, if_pos hf], Or.inl rfl⟩
        · by_cases hv : conv_getctl l ev (ev.v0 - 32) = EV_UNDEF
          · exact Or.inl ⟨hctl, l, by simp only [if_neg ha, if_pos hb, if_neg hf, if_pos hv],
              Or.inl rfl⟩
          · exact Or.inr (Or.inr ⟨hctl,
              { cmd := EV_XCTL, dev := ev.dev, ch := ev.ch, v0 := ev.v0 - 32,
                v1 := (ev.v1 + (conv_getctl l ev (ev.v0 - 32) <<< 7) % 4294967296)
                  % 4294967296 },
              by simp only [if_neg ha, if_pos hb, if_neg hf, if_neg hv], Or.inl rfl, rfl, rfl⟩)
      · exact Or.inr (Or.inr ⟨hctl,
          { cmd := EV_XCTL, dev := ev.dev, ch := ev.ch, v0 := ev.v0,
            v1 := (ev.v1 <<< 7) % 4294967296 },
          by simp only [if_neg ha, if_neg hb], Or.inl rfl, rfl, rfl⟩)

theorem unp_rpn (m : List Ev) (x dev ch num val : Nat) (rev : Nat → Ev) :
    conv_unpackev m x (mkRPN dev ch num val) rev =
      if conv_getctx m (mkRPN dev ch num val) 101 100 ≠ num then
        (conv_setctl (conv_setctl
            (conv_rmctl (conv_rmctl m (mkRPN dev ch num val) 99) (mkRPN dev ch num val) 98)
            (mkCTL dev ch 101 (num >>> 7))) (mkCTL dev ch 100 (num &&& 127)),
          [mkCTL dev ch 101 (num >>> 7), mkCTL dev ch 100 (num &&& 127),
           mkCTL dev ch 6 (val >>> 7), mkCTL dev ch 38 (val &&& 127)])
      else (m, [mkCTL dev ch 6 (val >>> 7), mkCTL dev ch 38 (val &&& 127)]) := by
  simp [conv_unpackev, conv_unpackev_dataentry, mkRPN, mkCTL]

theorem unp_other (m : List Ev) (x : Nat) (ev : Ev) (rev : Nat → Ev)
    (h1 : ev.cmd ≠ EV_XCTL) (h2 : ev.cmd ≠ EV_XPC) (h3 : ev.cmd ≠ EV_NRPN)
    (h4 : ev.cmd ≠ EV_RPN) :
    conv_unpackev m x ev rev = (m, [ev]) := by
  rw [conv_unpackev, if_neg h1, if_neg h2, if_neg h3, if_neg h4]

/-- The results of the unpacker, branch by branch. -/
theorem unpackev_cases (m : List Ev) (x : Nat) (ev : Ev) (rev : Nat → Ev) :
    (ev.cmd = EV_XCTL ∧ ev.v0 < 32 ∧ EVCTL_ISFINE x ev.v0 = true ∧
      (conv_getctl m ev ev.v0 ≠ ev.v1 >>> 7 ∨ conv_getctl m ev ev.v0 = EV_UNDEF) ∧
      conv_unpackev m x ev rev
        = (conv_setctl m (mkCTL ev.dev ev.ch ev.v0 (ev.v1 >>> 7)),
           [mkCTL ev.dev ev.ch ev.v0 (ev.v1 >>> 7),
            mkCTL ev.dev ev.ch (ev.v0 + 32) (ev.v1 &&& 127)])) ∨
    (ev.cmd = EV_XCTL ∧ ev.v0 < 32 ∧ EVCTL_ISFINE x ev.v0 = true ∧
      conv_getctl m ev ev.v0 = ev.v1 >>> 7 ∧ conv_getctl m ev ev.v0 ≠ EV_UNDEF ∧
      conv_unpackev m x ev rev = (m, [mkCTL ev.dev ev.ch (ev.v0 + 32) (ev.v1 &&& 127)])) ∨
    (ev.cmd = EV_XCTL ∧ ¬ (ev.v0 < 32 ∧ EVCTL_ISFINE x ev.v0 = true) ∧
      conv_unpackev m x ev rev = (m, [mkCTL ev.dev ev.ch ev.v0 (ev.v1 >>> 7)])) ∨
    (ev.cmd = EV_XPC ∧ conv_getctx m ev BANK_HI BANK_LO ≠ ev.v1 ∧ ev.v1 ≠ EV_UNDEF ∧
      conv_unpackev m x ev rev
        = (conv_setctl (conv_setctl m (mkCTL ev.dev ev.ch 0 (ev.v1 >>> 7)))
              (mkCTL ev.dev ev.ch 32 (ev.v1 &&& 127)),
           [mkCTL ev.dev ev.ch 0 (ev.v1 >>> 7), mkCTL ev.dev ev.ch 32 (ev.v1 &&& 127),
            mkPC ev.dev ev.ch ev.v0 (rev 2).v1])) ∨
    (ev.cmd = EV_XPC ∧ ¬ (conv_getctx m ev BANK_HI BANK_LO ≠ ev.v1 ∧ ev.v1 ≠ EV_UNDEF) ∧
      conv_unpackev m x ev rev = (m, [mkPC ev.dev ev.ch ev.v0 (rev 0).v1])) ∨
    (ev.cmd = EV_NRPN ∧ conv_getctx m ev NRPN_HI NRPN_LO ≠ ev.v0 ∧
      conv_unpackev m x ev rev
        = (conv_setctl (conv_setctl (conv_rmctl (conv_rmctl m ev 101) ev 100)
              (mkCTL ev.dev ev.ch 99 (ev.v0 >>> 7))) (mkCTL ev.dev ev.ch 98 (ev.v0 &&& 127)),
           [mkCTL ev.dev ev.ch 99 (ev.v0 >>> 7), mkCTL ev.dev ev.ch 98 (ev.v0 &&& 127),
            mkCTL ev.dev ev.ch 6 (ev.v1 >>> 7), mkCTL ev.dev ev.ch 38 (ev.v1 &&& 127)])) ∨
    (ev.cmd = EV_NRPN ∧ conv_getctx m ev NRPN_HI NRPN_LO = ev.v0 ∧
      conv_unpackev m x ev rev
        = (m, [mkCTL ev.dev ev.ch 6 (ev.v1 >>> 7), mkCTL ev.dev ev.ch 38 (ev.v1 &&& 127)])) ∨
    (ev.cmd = EV_RPN ∧ conv_getctx m ev RPN_HI RPN_LO ≠ ev.v0 ∧
      conv_unpackev m x ev rev
        = (conv_setctl (conv_setctl (conv_rmctl (conv_rmctl m ev 99) ev 98)
              (mkCTL ev.dev ev.ch 101 (ev.v0 >>> 7))) (mkCTL ev.dev ev.ch 100 (ev.v0 &&& 127)),
           [mkCTL ev.dev ev.ch 101 (ev.v0 >>> 7), mkCTL ev.dev ev.ch 100 (ev.v0 &&& 127),
            mkCTL ev.dev ev.ch 6 (ev.v1 >>> 7), mkCTL ev.dev ev.ch 38 (ev.v1 &&& 127)])) ∨
    (ev.cmd = EV_RPN ∧ conv_getctx m ev RPN_HI RPN_LO = ev.v0 ∧
      conv_unpackev m x ev rev
        = (m, [mkCTL ev.dev ev.ch 6 (ev.v1 >>> 7), mkCTL ev.dev ev.ch 38 (ev.v1 &&& 127)])) ∨
    (ev.cmd ≠ EV_XCTL ∧ ev.cmd ≠ EV_XPC ∧ ev.cmd ≠ EV_NRPN ∧ ev.cmd ≠ EV_RPN ∧
      conv_unpackev m x ev rev = (m, [ev])) := by
  obtain ⟨cmd, dev, ch, v0, v1⟩ := ev
  by_cases h1 : cmd = EV_XCTL
  · subst h1
    by_cases hf : v0 < 32 ∧ EVCTL_ISFINE x v0 = true
    · have hu := unp_xctl_fine m x dev ch v0 v1 rev hf.1 hf.2
      simp only [mkXCTL] at hu
      by_cases hc : conv_getctl m ⟨EV_XCTL, dev, ch, v0, v1⟩ v0 ≠ v1 >>> 7 ∨
          conv_getctl m ⟨EV_XCTL, dev, ch, v0, v1⟩ v0 = 65535
      · rw [if_pos hc] at hu
        exact Or.inl ⟨rfl, hf.1, hf.2, hc, hu⟩
      · rw [if_neg hc] at hu
        refine Or.inr (Or.inl ⟨rfl, hf.1, hf.2, ?_, ?_, hu⟩)
        · by_contra h; exact hc (Or.inl h)
        · intro h; exact hc (Or.inr h)
    · refine Or.inr (Or.inr (Or.inl ⟨rfl, hf, ?_⟩))
      have hu := unp_xctl_coarse m x dev ch v0 v1 rev (by
        by_cases h : v0 < 32
        · right
          by_contra h'
          exact hf ⟨h, by simpa using h'⟩
        · left; omega)
      simpa only [mkXCTL] using hu
  by_cases h2 : cmd = EV_XPC
  · subst h2
    have hu := unp_xpc m x dev ch v1 v0 rev
    simp only [mkXPC] at hu
    by_cases hc : conv_getctx m ⟨EV_XPC, dev, ch, v0, v1⟩ 0 32 ≠ v1 ∧ v1 ≠ 65535
    · rw [if_pos hc] at hu
      exact Or.inr (Or.inr (Or.inr (Or.inl ⟨rfl, hc.1, hc.2, hu⟩)))
    · rw [if_neg hc] at hu
      exact Or.inr (Or.inr (Or.inr (Or.inr (Or.inl ⟨rfl, hc, hu⟩))))
  by_cases h3 : cmd = EV_NRPN
  · subst h3
    have hu := unp_nrpn m x dev ch v0 v1 rev
    simp only [mkNRPN] at hu
    by_cases hc : conv_getctx m ⟨EV_NRPN, dev, ch, v0, v1⟩ 99 98 ≠ v0
    · rw [if_pos hc] at hu
      exact Or.inr (Or.inr (Or.inr (Or.inr (Or.inr (Or.inl ⟨rfl, hc, hu⟩)))))
    · rw [if_neg hc] at hu
      exact Or.inr (Or.inr (Or.inr (Or.inr (Or.inr (Or.inr (Or.inl
        ⟨rfl, by simpa using hc, hu⟩))))))
  by_cases h4 : cmd = EV_RPN
  · subst h4
    have hu := unp_rpn m x dev ch v0 v1 rev
    simp only [mkRPN] at hu
    by_cases hc : conv_getctx m ⟨EV_RPN, dev, ch, v0, v1⟩ 101 100 ≠ v0
    · rw [if_pos hc] at hu
      exact Or.inr (Or.inr (Or.inr (Or.inr (Or.inr (Or.inr (Or.inr (Or.inl
        ⟨rfl, hc, hu⟩)))))))
    · rw [if_neg hc] at hu
      exact Or.inr (Or.inr (Or.inr (Or.inr (Or.inr (Or.inr (Or.inr (Or.inr (Or.inl
        ⟨rfl, by simpa using hc, hu⟩))))))))
  exact Or.inr (Or.inr (Or.inr (Or.inr (Or.inr (Or.inr (Or.inr (Or.inr (Or.inr
    ⟨h1, h2, h3, h4, unp_other m x _ rev h1 h2 h3 h4⟩))))))))

/-- A key that is absent stays absent through a call of the packer on an event
that is not a CTL of that key. -/
theorem absent_packev (l : List Ev) (x : Nat) (ev rev : Ev) (dev ch k : Nat)
    (h : absent l dev ch k) (hne : ¬ is_ctl_on dev ch k ev) :
    absent (conv_packev l x ev rev).1 dev ch k := by
  rcases packev_cases l x ev rev with ⟨_, he⟩ | ⟨_, _, he⟩ | ⟨hctl, l', he, hl⟩ |
    ⟨_, _, c, _, he⟩ | ⟨_, r, he, _⟩
  · rw [he]; exact h
  · rw [he]; exact h
  · rw [he]
    have hk : ¬ (ev.v0 = k ∧ ev.ch = ch ∧ ev.dev = dev) :=
      fun hk => hne ⟨hctl, hk.1, hk.2.1, hk.2.2⟩
    rcases hl with hl | hl | ⟨a, hl⟩ | ⟨a, b, hl⟩
    · rw [hl]; exact h
    · rw [hl]; exact absent_setctl l ev dev ch k h hk
    · rw [hl]; exact absent_setctl _ ev dev ch k (absent_rmctl l ev a dev ch k h) hk
    · rw [hl]
      exact absent_setctl _ ev dev ch k
        (absent_rmctl _ ev b dev ch k (absent_rmctl l ev a dev ch k h)) hk
  · rw [he]; exact h
  · rw [he]; exact h

theorem absent_pack_stream (x : Nat) (dev ch k : Nat) (es : List Ev) :
    ∀ (l : List Ev) (rev : Ev), absent l dev ch k → (∀ e ∈ es, ¬ is_ctl_on dev ch k e) →
      absent (pack_stream x l rev es).1 dev ch k := by
  induction es with
  | nil => intro l rev h _; exact h
  | cons e es ih =>
    intro l rev h hes
    rw [pack_stream_cons]
    exact ih _ _ (absent_packev l x e rev dev ch k h (hes e (List.mem_cons_self e es)))
      (fun e' he' => hes e' (List.mem_cons_of_mem e he'))

theorem getctx_of_absent_lo (l : List Ev) (e : Ev) (hi lo : Nat)
    (h : absent l e.dev e.ch lo) : conv_getctx l e hi lo = EV_UNDEF := by
  simp only [conv_getctx, getctl_of_absent l e lo h, if_true]

/-! ## Program changes in the packer -/

/-- Claim C11: for every packer state and every PC event e, `conv_packev`
returns 1 with XPC{device, channel, prog = e.prog, bank} and leaves the state
list unchanged, where bank = BANK_LO + (BANK_HI << 7) when both BANK_HI and
BANK_LO are recorded for the device and channel of e (the sum is the 32-bit
unsigned one, exact for 7-bit values) and bank = UNDEF when either is missing.
In particular, on a state list with unique keys, a PC that follows CTL(0,h)
with no CTL(32,_) of that channel in between gets bank UNDEF, because
recording BANK_HI removes BANK_LO. -/
theorem C11_pc_bank (l : List Ev) (x : Nat) (ev rev : Ev) (hcmd : ev.cmd = EV_PC) :
    conv_packev l x ev rev
        = (l, mkXPC ev.dev ev.ch (conv_getctx l ev BANK_HI BANK_LO) ev.v0, 1) ∧
    (conv_getctl l ev BANK_HI ≠ EV_UNDEF → conv_getctl l ev BANK_LO ≠ EV_UNDEF →
      conv_getctx l ev BANK_HI BANK_LO
        = (conv_getctl l ev BANK_LO + (conv_getctl l ev BANK_HI <<< 7) % 4294967296)
            % 4294967296) ∧
    (conv_getctl l ev BANK_HI ≤ 127 → conv_getctl l ev BANK_LO ≤ 127 →
      conv_getctx l ev BANK_HI BANK_LO
        = conv_getctl l ev BANK_LO + (conv_getctl l ev BANK_HI <<< 7)) ∧
    (conv_getctl l ev BANK_HI = EV_UNDEF ∨ conv_getctl l ev BANK_LO = EV_UNDEF →
      conv_getctx l ev BANK_HI BANK_LO = EV_UNDEF) ∧
    (absent l ev.dev ev.ch BANK_HI ∨ absent l ev.dev ev.ch BANK_LO →
      conv_getctx l ev BANK_HI BANK_LO = EV_UNDEF) ∧
    (∀ (l0 : List Ev) (h : Nat) (r0 : Ev) (es : List Ev), keys_unique l0 →
      (∀ e ∈ es, ¬ is_ctl_on ev.dev ev.ch BANK_LO e) →
      conv_packev (pack_stream x (conv_packev l0 x (mkCTL ev.dev ev.ch 0 h) r0).1 r0 es).1
          x ev rev
        = ((pack_stream x (conv_packev l0 x (mkCTL ev.dev ev.ch 0 h) r0).1 r0 es).1,
            mkXPC ev.dev ev.ch EV_UNDEF ev.v0, 1)) := by
  have hpk : ∀ s : List Ev, conv_packev s x ev rev
      = (s, mkXPC ev.dev ev.ch (conv_getctx s ev BANK_HI BANK_LO) ev.v0, 1) := by
    intro s
    rw [conv_packev, if_pos hcmd]
    rfl
  have hundef : conv_getctl l ev BANK_HI = EV_UNDEF ∨ conv_getctl l ev BANK_LO = EV_UNDEF →
      conv_getctx l ev BANK_HI BANK_LO = EV_UNDEF := by
    intro h
    unfold conv_getctx
    by_cases hlo : conv_getctl l ev BANK_LO = EV_UNDEF
    · simp only [hlo, if_true]
    · rcases h with h | h
      · simp only [hlo, h, if_true, if_false]
      · exact absurd h hlo
  refine ⟨hpk l, ?_, ?_, hundef, ?_, ?_⟩
  · intro hhi hlo
    unfold conv_getctx
    simp only [hlo, hhi, if_false]
  · intro hhi hlo
    unfold conv_getctx
    have h1 : conv_getctl l ev BANK_LO ≠ EV_UNDEF := by simp only [EV_UNDEF]; omega
    have h2 : conv_getctl l ev BANK_HI ≠ EV_UNDEF := by simp only [EV_UNDEF]; omega
    simp only [h1, h2, if_false, shl7]
    omega
  · intro h
    rcases h with h | h
    · exact hundef (Or.inl (getctl_of_absent l ev BANK_HI h))
    · exact hundef (Or.inr (getctl_of_absent l ev BANK_LO h))
  · intro l0 h r0 es hu hes
    rw [hpk]
    have h1 : absent (conv_packev l0 x (mkCTL ev.dev ev.ch 0 h) r0).1 ev.dev ev.ch BANK_LO := by
      rw [pk_bank_hi]
      apply absent_setctl
      · exact absent_after_rmctl l0 (mkCTL ev.dev ev.ch 0 h) 32 hu
      · simp [mkCTL]
    have h2 := absent_pack_stream x ev.dev ev.ch BANK_LO es _ r0 h1 hes
    rw [getctx_of_absent_lo _ ev BANK_HI BANK_LO h2]

/-- Witness for C11: PC(5) after CTL(0,1), CTL(32,2) gets bank 130; PC(5) after
CTL(0,1), CTL(32,2), CTL(0,1), CTL(7,9) gets bank UNDEF. -/
theorem C11_pc_bank_witness :
    conv_packev [mkCTL 0 0 32 2, mkCTL 0 0 0 1] 0 (mkPC 0 0 5 0) (mkPC 0 0 0 0)
        = ([mkCTL 0 0 32 2, mkCTL 0 0 0 1], mkXPC 0 0 130 5, 1) ∧
    conv_packev (pack_stream 0 (conv_packev [mkCTL 0 0 32 2, mkCTL 0 0 0 1] 0 (mkCTL 0 0 0 1)
          (mkPC 0 0 0 0)).1 (mkPC 0 0 0 0) [mkCTL 0 0 7 9]).1 0 (mkPC 0 0 5 0) (mkPC 0 0 0 0)
        = ((pack_stream 0 (conv_packev [mkCTL 0 0 32 2, mkCTL 0 0 0 1] 0 (mkCTL 0 0 0 1)
          (mkPC 0 0 0 0)).1 (mkPC 0 0 0 0) [mkCTL 0 0 7 9]).1, mkXPC 0 0 EV_UNDEF 5, 1) :=
  ⟨(C11_pc_bank [mkCTL 0 0 32 2, mkCTL 0 0 0 1] 0 (mkPC 0 0 5 0) (mkPC 0 0 0 0) rfl).1,
   (C11_pc_bank [] 0 (mkPC 0 0 5 0) (mkPC 0 0 0 0) rfl).2.2.2.2.2
     [mkCTL 0 0 32 2, mkCTL 0 0 0 1] 1 (mkPC 0 0 0 0) [mkCTL 0 0 7 9]
     (by simp [keys_unique, same_key, mkCTL]) (by simp [is_ctl_on, mkCTL])⟩

/-! ## The data entry low byte -/

/-- The packer on CTL(DATAENT_LO, v): the two context lookups of the source,
then the tail of the case. -/
theorem packev_dataent_lo_eq (l : List Ev) (x dev ch v : Nat) (rev : Ev) :
    conv_packev l x (mkCTL dev ch 38 v) rev =
      if conv_getctx l (mkCTL dev ch 38 v) NRPN_HI NRPN_LO ≠ EV_UNDEF then
        conv_packev_dataent l (mkCTL dev ch 38 v) { rev with cmd := EV_NRPN }
          (conv_getctx l (mkCTL dev ch 38 v) NRPN_HI NRPN_LO)
      else if conv_getctx l (mkCTL dev ch 38 v) RPN_HI NRPN_LO = EV_UNDEF then (l, rev, 0)
      else conv_packev_dataent l (mkCTL dev ch 38 v) { rev with cmd := EV_RPN }
        (conv_getctx l (mkCTL dev ch 38 v) RPN_HI NRPN_LO) := by
  simp [conv_packev, mkCTL]

theorem dataent_fst (l : List Ev) (ev r : Ev) (num : Nat) :
    (conv_packev_dataent l ev r num).1 = l := by
  unfold conv_packev_dataent
  by_cases h : conv_getctl l ev DATAENT_HI = EV_UNDEF
  · simp only [h, if_true]
  · simp only [h, if_false]

theorem dataent_undef (l : List Ev) (ev r : Ev) (num : Nat)
    (h : conv_getctl l ev DATAENT_HI = EV_UNDEF) :
    conv_packev_dataent l ev r num = (l, r, 0) := by
  unfold conv_packev_dataent
  simp only [h, if_true]

/-- What holds of the data entry low byte on the source: the state list is
never changed, and nothing is emitted when DATAENT_HI is not recorded or when
NRPN_LO is not recorded (both context lookups of the source read NRPN_LO). -/
theorem dataent_lo_silent (l : List Ev) (x dev ch v : Nat) (rev : Ev) :
    (conv_packev l x (mkCTL dev ch 38 v) rev).1 = l ∧
    (conv_getctl l (mkCTL dev ch 38 v) DATAENT_HI = EV_UNDEF →
      (conv_packev l x (mkCTL dev ch 38 v) rev).2.2 = 0) ∧
    (conv_getctl l (mkCTL dev ch 38 v) NRPN_LO = EV_UNDEF →
      conv_packev l x (mkCTL dev ch 38 v) rev = (l, rev, 0)) := by
  rw [packev_dataent_lo_eq]
  refine ⟨?_, ?_, ?_⟩
  · split_ifs
    · exact dataent_fst _ _ _ _
    · rfl
    · exact dataent_fst _ _ _ _
  · intro h
    split_ifs
    · rw [dataent_undef _ _ _ _ h]
    · rfl
    · rw [dataent_undef _ _ _ _ h]
  · intro h
    have h1 : ∀ hi, conv_getctx l (mkCTL dev ch 38 v) hi NRPN_LO = EV_UNDEF := by
      intro hi
      simp only [conv_getctx, h, if_true]
    rw [h1 NRPN_HI, h1 RPN_HI]
    simp

/-- Claim C12, evaluated on the source: on device 0, channel 0, the wire events
CTL(101,1), CTL(98,5), CTL(6,3) packed from the empty state list leave RPN_HI=1,
NRPN_LO=5 and DATAENT_HI=3 recorded, with no NRPN_HI and no RPN_LO: neither an
NRPN selection nor an RPN selection is recorded. `conv_packev` of
CTL(DATAENT_LO, 0) then returns 1 and emits RPN{num=133, val=384}, where the
claim has 0: the RPN lookup pairs RPN_HI with NRPN_LO. -/
theorem C12_silent_absence_failing :
    (pack_stream 0 [] (mkPC 0 0 0 0) [mkCTL 0 0 101 1, mkCTL 0 0 98 5, mkCTL 0 0 6 3]).1
      = [mkCTL 0 0 6 3, mkCTL 0 0 98 5, mkCTL 0 0 101 1] ∧
    conv_getctl [mkCTL 0 0 6 3, mkCTL 0 0 98 5, mkCTL 0 0 101 1] (mkCTL 0 0 38 0) NRPN_HI
      = EV_UNDEF ∧
    conv_getctl [mkCTL 0 0 6 3, mkCTL 0 0 98 5, mkCTL 0 0 101 1] (mkCTL 0 0 38 0) RPN_LO
      = EV_UNDEF ∧
    conv_getctx [mkCTL 0 0 6 3, mkCTL 0 0 98 5, mkCTL 0 0 101 1] (mkCTL 0 0 38 0)
      NRPN_HI NRPN_LO = EV_UNDEF ∧
    conv_getctx [mkCTL 0 0 6 3, mkCTL 0 0 98 5, mkCTL 0 0 101 1] (mkCTL 0 0 38 0)
      RPN_HI RPN_LO = EV_UNDEF ∧
    conv_packev [mkCTL 0 0 6 3, mkCTL 0 0 98 5, mkCTL 0 0 101 1] 0 (mkCTL 0 0 38 0)
        (mkPC 0 0 0 0)
      = ([mkCTL 0 0 6 3, mkCTL 0 0 98 5, mkCTL 0 0 101 1], mkRPN 0 0 133 384, 1) := by
  decide

/-! ## Kinds of the packed events and pass-through -/

/-- Claim C13: for every packer state, bitmap and input event, if
`conv_packev` returns 1 then the kind of the emitted event is neither CTL nor
PC; every CTL input is either absorbed (return 0) or emitted as XCTL, NRPN or
RPN, and every PC input is emitted as XPC. -/
theorem C13_no_wire_controller_survives (l : List Ev) (x : Nat) (ev rev : Ev) :
    ((conv_packev l x ev rev).2.2 = 1 →
      (conv_packev l x ev rev).2.1.cmd ≠ EV_CTL ∧ (conv_packev l x ev rev).2.1.cmd ≠ EV_PC) ∧
    (ev.cmd = EV_CTL →
      (conv_packev l x ev rev).2.2 = 0 ∨
      ((conv_packev l x ev rev).2.2 = 1 ∧
        ((conv_packev l x ev rev).2.1.cmd = EV_XCTL ∨
         (conv_packev l x ev rev).2.1.cmd = EV_NRPN ∨
         (conv_packev l x ev rev).2.1.cmd = EV_RPN))) ∧
    (ev.cmd = EV_PC →
      (conv_packev l x ev rev).2.2 = 1 ∧ (conv_packev l x ev rev).2.1.cmd = EV_XPC) := by
  rcases packev_cases l x ev rev with ⟨hc, he⟩ | ⟨h1, h2, he⟩ | ⟨hctl, l', he, _⟩ |
    ⟨hctl, _, c, _, he⟩ | ⟨hctl, r, he, hr, _⟩
  · rw [he]
    refine ⟨fun _ => ⟨by simp, by simp⟩, fun h => ?_, fun _ => ⟨rfl, rfl⟩⟩
    rw [hc] at h
    simp at h
  · rw [he]
    exact ⟨fun _ => ⟨h2, h1⟩, fun h => absurd h h2, fun h => absurd h h1⟩
  · rw [he]
    refine ⟨fun h => by simp at h, fun _ => Or.inl rfl, fun h => ?_⟩
    rw [hctl] at h
    simp at h
  · rw [he]
    refine ⟨fun h => by simp at h, fun _ => Or.inl rfl, fun h => ?_⟩
    rw [hctl] at h
    simp at h
  · rw [he]
    refine ⟨fun _ => ?_, fun _ => Or.inr ⟨rfl, hr⟩, fun h => ?_⟩
    · rcases hr with h | h | h <;> simp [h]
    · rw [hctl] at h
      simp at h

/-- Claim C14: for every event whose kind is neither PC nor CTL, `conv_packev`
returns 1 with an output equal to the input in every field and leaves the
state list unchanged; for every event whose kind is none of XCTL, XPC, NRPN,
RPN, `conv_unpackev` returns 1 with the single output equal to the input and
leaves the mirror state unchanged. -/
theorem C14_pass_through (l : List Ev) (x : Nat) (ev rev : Ev) (revs : Nat → Ev) :
    (ev.cmd ≠ EV_PC → ev.cmd ≠ EV_CTL → conv_packev l x ev rev = (l, ev, 1)) ∧
    (ev.cmd ≠ EV_XCTL → ev.cmd ≠ EV_XPC → ev.cmd ≠ EV_NRPN → ev.cmd ≠ EV_RPN →
      conv_unpackev l x ev revs = (l, [ev]) ∧ (conv_unpackev l x ev revs).2.length = 1) := by
  constructor
  · intro h1 h2
    rw [conv_packev, if_neg h1, if_neg h2]
  · intro h1 h2 h3 h4
    rw [unp_other l x ev revs h1 h2 h3 h4]
    exact ⟨rfl, rfl⟩

/-- Witness for C14: a note-on event passes through the packer and through the
unpacker. -/
theorem C14_pass_through_witness :
    conv_packev [mkCTL 0 0 7 3] 0 ⟨EV_NON, 0, 1, 60, 100⟩ (mkPC 0 0 0 0)
        = ([mkCTL 0 0 7 3], ⟨EV_NON, 0, 1, 60, 100⟩, 1) ∧
    conv_unpackev [mkCTL 0 0 7 3] 0 ⟨EV_NON, 0, 1, 60, 100⟩ (fun _ => mkPC 0 0 0 0)
        = ([mkCTL 0 0 7 3], [⟨EV_NON, 0, 1, 60, 100⟩]) :=
  ⟨(C14_pass_through [mkCTL 0 0 7 3] 0 ⟨EV_NON, 0, 1, 60, 100⟩ (mkPC 0 0 0 0)
      (fun _ => mkPC 0 0 0 0)).1 (by decide) (by decide),
   ((C14_pass_through [mkCTL 0 0 7 3] 0 ⟨EV_NON, 0, 1, 60, 100⟩ (mkPC 0 0 0 0)
      (fun _ => mkPC 0 0 0 0)).2 (by decide) (by decide) (by decide) (by decide)).1⟩

/-- Witness for C13: a CTL on a coarse controller comes out as XCTL, a PC as
XPC. -/
theorem C13_no_wire_controller_survives_witness :
    (conv_packev [] 0 (mkCTL 0 0 7 100) (mkPC 0 0 0 0)).2.1.cmd = EV_XCTL ∧
    (conv_packev [] 0 (mkPC 0 0 5 0) (mkPC 0 0 0 0)).2.1.cmd = EV_XPC :=
  ⟨((C13_no_wire_controller_survives [] 0 (mkCTL 0 0 7 100) (mkPC 0 0 0 0)).2.1 rfl).elim
      (fun h => absurd h (by decide)) (fun h => h.2.elim id (fun h' => absurd h' (by decide))),
   ((C13_no_wire_controller_survives [] 0 (mkPC 0 0 5 0) (mkPC 0 0 0 0)).2.2 rfl).2⟩

/-! ## The unpacker on XCTL, NRPN and RPN events -/

/-- Claim C15: for every XCTL event e with controller number n < 32 that the
bitmap marks fine, and every mirror state, `conv_unpackev` emits
CTL(n, e.val>>7) if and only if the mirror records no value for (device,
channel, n) or a value different from e.val>>7 (it then records the new
value), always emits CTL(n+32, e.val & 0x7F) as its last event, and afterwards
the mirror records e.val>>7 for (device, channel, n). For every other XCTL
event (n >= 32, or n not fine) it emits exactly one event CTL(n, e.val>>7) and
leaves the mirror unchanged. -/
theorem C15_unpack_xctl (m : List Ev) (x : Nat) (ev : Ev) (revs : Nat → Ev)
    (hcmd : ev.cmd = EV_XCTL) :
    (ev.v0 < 32 → EVCTL_ISFINE x ev.v0 = true →
      (mkCTL ev.dev ev.ch ev.v0 (ev.v1 >>> 7) ∈ (conv_unpackev m x ev revs).2 ↔
        (conv_getctl m ev ev.v0 = EV_UNDEF ∨ conv_getctl m ev ev.v0 ≠ ev.v1 >>> 7)) ∧
      ((conv_getctl m ev ev.v0 = EV_UNDEF ∨ conv_getctl m ev ev.v0 ≠ ev.v1 >>> 7) →
        conv_unpackev m x ev revs
          = (conv_setctl m (mkCTL ev.dev ev.ch ev.v0 (ev.v1 >>> 7)),
             [mkCTL ev.dev ev.ch ev.v0 (ev.v1 >>> 7),
              mkCTL ev.dev ev.ch (ev.v0 + 32) (ev.v1 &&& 0x7f)])) ∧
      (¬ (conv_getctl m ev ev.v0 = EV_UNDEF ∨ conv_getctl m ev ev.v0 ≠ ev.v1 >>> 7) →
        conv_unpackev m x ev revs
          = (m, [mkCTL ev.dev ev.ch (ev.v0 + 32) (ev.v1 &&& 0x7f)])) ∧
      (conv_unpackev m x ev revs).2.getLast?
        = some (mkCTL ev.dev ev.ch (ev.v0 + 32) (ev.v1 &&& 0x7f)) ∧
      conv_getctl (conv_unpackev m x ev revs).1 ev ev.v0 = ev.v1 >>> 7) ∧
    (¬ (ev.v0 < 32 ∧ EVCTL_ISFINE x ev.v0 = true) →
      conv_unpackev m x ev revs = (m, [mkCTL ev.dev ev.ch ev.v0 (ev.v1 >>> 7)])) := by
  have hx : ∀ c, c ≠ EV_XCTL → ev.cmd = c → False := fun c hc h => hc (h.symm.trans hcmd)
  rcases unpackev_cases m x ev revs with ⟨_, _, _, hc, he⟩ | ⟨_, _, _, hc1, hc2, he⟩ |
    ⟨_, hn, he⟩ | ⟨h, _⟩ | ⟨h, _⟩ | ⟨h, _⟩ | ⟨h, _⟩ | ⟨h, _⟩ | ⟨h, _⟩ | ⟨h, _⟩
  · have hcond : conv_getctl m ev ev.v0 = EV_UNDEF ∨ conv_getctl m ev ev.v0 ≠ ev.v1 >>> 7 :=
      hc.symm
    refine ⟨fun _ _ => ⟨?_, fun _ => he, fun h => absurd hcond h, ?_, ?_⟩,
      fun h => ?_⟩
    · rw [he]
      exact ⟨fun _ => hcond, fun _ => List.mem_cons_self _ _⟩
    · rw [he]; rfl
    · rw [he]
      simp [getctl_setctl, mkCTL]
    · exact absurd ⟨by assumption, by assumption⟩ h
  · have hcond : ¬ (conv_getctl m ev ev.v0 = EV_UNDEF ∨
        conv_getctl m ev ev.v0 ≠ ev.v1 >>> 7) := by
      rintro (h | h)
      · exact hc2 h
      · exact h hc1
    refine ⟨fun _ _ => ⟨?_, fun h => absurd h hcond, fun _ => he, ?_, ?_⟩, fun h => ?_⟩
    · rw [he]
      constructor
      · intro hmem
        simp [mkCTL] at hmem
      · intro h
        exact absurd h hcond
    · rw [he]; rfl
    · rw [he]; exact hc1
    · exact absurd ⟨by assumption, by assumption⟩ h
  · exact ⟨fun h1 h2 => absurd ⟨h1, h2⟩ hn, fun _ => he⟩
  · exact (hx _ (by decide) h).elim
  · exact (hx _ (by decide) h).elim
  · exact (hx _ (by decide) h).elim
  · exact (hx _ (by decide) h).elim
  · exact (hx _ (by decide) h).elim
  · exact (hx _ (by decide) h).elim
  · exact absurd hcmd h

/-- Witness for C15 with controller 7 marked fine: XCTL{7, 388} on the empty
mirror gives CTL(7,3), CTL(39,4); on a mirror that records 3 for controller 7
it gives CTL(39,4) alone; with no fine controller it gives CTL(7,3) alone. -/
theorem C15_unpack_xctl_witness :
    conv_unpackev [] 128 (mkXCTL 0 0 7 388) (fun _ => mkPC 0 0 0 0)
        = ([mkCTL 0 0 7 3], [mkCTL 0 0 7 3, mkCTL 0 0 39 4]) ∧
    conv_unpackev [mkCTL 0 0 7 3] 128 (mkXCTL 0 0 7 388) (fun _ => mkPC 0 0 0 0)
        = ([mkCTL 0 0 7 3], [mkCTL 0 0 39 4]) ∧
    conv_unpackev [] 0 (mkXCTL 0 0 7 388) (fun _ => mkPC 0 0 0 0)
        = ([], [mkCTL 0 0 7 3]) :=
  ⟨((C15_unpack_xctl [] 128 (mkXCTL 0 0 7 388) (fun _ => mkPC 0 0 0 0) rfl).1
      (by decide) (by decide)).2.1 (by decide),
   ((C15_unpack_xctl [mkCTL 0 0 7 3] 128 (mkXCTL 0 0 7 388) (fun _ => mkPC 0 0 0 0) rfl).1
      (by decide) (by decide)).2.2.1 (by decide),
   (C15_unpack_xctl [] 0 (mkXCTL 0 0 7 388) (fun _ => mkPC 0 0 0 0) rfl).2 (by decide)⟩

/-- Claim C16: for every NRPN event e with a 14-bit num and every mirror state:
if the 14-bit value of (NRPN_HI, NRPN_LO) recorded for the device and channel
of e is absent or differs from e.num, `conv_unpackev` removes the recorded
RPN_HI and RPN_LO of that channel, records NRPN_HI = num>>7 and
NRPN_LO = num & 0x7F, and returns the four events CTL(99, num>>7),
CTL(98, num&0x7F), CTL(6, val>>7), CTL(38, val&0x7F); otherwise it returns only
the two data-entry events and leaves the mirror unchanged. For an RPN event the
same holds with 101/100 in place of 99/98 and with NRPN_HI/NRPN_LO being the
entries removed. (A removal unlinks the first state of the key: on a list with
unique keys no state of the key is left.) -/
theorem C16_unpack_nrpn_rpn (m : List Ev) (x dev ch num val : Nat) (revs : Nat → Ev)
    (hnum : num ≤ 0x3fff) :
    ((conv_getctx m (mkNRPN dev ch num val) NRPN_HI NRPN_LO = EV_UNDEF ∨
        conv_getctx m (mkNRPN dev ch num val) NRPN_HI NRPN_LO ≠ num) →
      conv_unpackev m x (mkNRPN dev ch num val) revs
        = (conv_setctl (conv_setctl
              (conv_rmctl (conv_rmctl m (mkNRPN dev ch num val) RPN_HI)
                (mkNRPN dev ch num val) RPN_LO)
              (mkCTL dev ch 99 (num >>> 7))) (mkCTL dev ch 98 (num &&& 0x7f)),
           [mkCTL dev ch 99 (num >>> 7), mkCTL dev ch 98 (num &&& 0x7f),
            mkCTL dev ch 6 (val >>> 7), mkCTL dev ch 38 (val &&& 0x7f)]) ∧
      conv_getctl (conv_unpackev m x (mkNRPN dev ch num val) revs).1
        (mkNRPN dev ch num val) NRPN_HI = num >>> 7 ∧
      conv_getctl (conv_unpackev m x (mkNRPN dev ch num val) revs).1
        (mkNRPN dev ch num val) NRPN_LO = num &&& 0x7f ∧
      (keys_unique m →
        absent (conv_unpackev m x (mkNRPN dev ch num val) revs).1 dev ch RPN_HI ∧
        absent (conv_unpackev m x (mkNRPN dev ch num val) revs).1 dev ch RPN_LO)) ∧
    (conv_getctx m (mkNRPN dev ch num val) NRPN_HI NRPN_LO = num →
      conv_unpackev m x (mkNRPN dev ch num val) revs
        = (m, [mkCTL dev ch 6 (val >>> 7), mkCTL dev ch 38 (val &&& 0x7f)])) ∧
    ((conv_getctx m (mkRPN dev ch num val) RPN_HI RPN_LO = EV_UNDEF ∨
        conv_getctx m (mkRPN dev ch num val) RPN_HI RPN_LO ≠ num) →
      conv_unpackev m x (mkRPN dev ch num val) revs
        = (conv_setctl (conv_setctl
              (conv_rmctl (conv_rmctl m (mkRPN dev ch num val) NRPN_HI)
                (mkRPN dev ch num val) NRPN_LO)
              (mkCTL dev ch 101 (num >>> 7))) (mkCTL dev ch 100 (num &&& 0x7f)),
           [mkCTL dev ch 101 (num >>> 7), mkCTL dev ch 100 (num &&& 0x7f),
            mkCTL dev ch 6 (val >>> 7), mkCTL dev ch 38 (val &&& 0x7f)]) ∧
      conv_getctl (conv_unpackev m x (mkRPN dev ch num val) revs).1
        (mkRPN dev ch num val) RPN_HI = num >>> 7 ∧
      conv_getctl (conv_unpackev m x (mkRPN dev ch num val) revs).1
        (mkRPN dev ch num val) RPN_LO = num &&& 0x7f ∧
      (keys_unique m →
        absent (conv_unpackev m x (mkRPN dev ch num val) revs).1 dev ch NRPN_HI ∧
        absent (conv_unpackev m x (mkRPN dev ch num val) revs).1 dev ch NRPN_LO)) ∧
    (conv_getctx m (mkRPN dev ch num val) RPN_HI RPN_LO = num →
      conv_unpackev m x (mkRPN dev ch num val) revs
        = (m, [mkCTL dev ch 6 (val >>> 7), mkCTL dev ch 38 (val &&& 0x7f)])) := by
  have hne : num ≠ 65535 := by omega
  refine ⟨?_, ?_, ?_, ?_⟩
  · intro h
    have hc : conv_getctx m (mkNRPN dev ch num val) 99 98 ≠ num := by
      rcases h with h | h
      · simp only [NRPN_HI, NRPN_LO, EV_UNDEF] at h
        rw [h]; exact hne.symm
      · exact h
    have he := unp_nrpn m x dev ch num val revs
    rw [if_pos hc] at he
    rw [he]
    refine ⟨rfl, ?_, ?_, ?_⟩
    · simp [getctl_setctl, mkCTL, mkNRPN]
    · simp [getctl_setctl, mkCTL, mkNRPN]
    · intro hu
      constructor
      · apply absent_setctl _ _ _ _ _ _ (by simp [mkCTL])
        apply absent_setctl _ _ _ _ _ _ (by simp [mkCTL])
        apply absent_rmctl
        exact absent_after_rmctl m (mkNRPN dev ch num val) 101 hu
      · apply absent_setctl _ _ _ _ _ _ (by simp [mkCTL])
        apply absent_setctl _ _ _ _ _ _ (by simp [mkCTL])
        exact absent_after_rmctl _ (mkNRPN dev ch num val) 100
          (keys_unique_rmctl m _ 101 hu)
  · intro h
    have he := unp_nrpn m x dev ch num val revs
    simp only [NRPN_HI, NRPN_LO] at h
    rw [if_neg (by simp [h])] at he
    exact he
  · intro h
    have hc : conv_getctx m (mkRPN dev ch num val) 101 100 ≠ num := by
      rcases h with h | h
      · simp only [RPN_HI, RPN_LO, EV_UNDEF] at h
        rw [h]; exact hne.symm
      · exact h
    have he := unp_rpn m x dev ch num val revs
    rw [if_pos hc] at he
    rw [he]
    refine ⟨rfl, ?_, ?_, ?_⟩
    · simp [getctl_setctl, mkCTL, mkRPN]
    · simp [getctl_setctl, mkCTL, mkRPN]
    · intro hu
      constructor
      · apply absent_setctl _ _ _ _ _ _ (by simp [mkCTL])
        apply absent_setctl _ _ _ _ _ _ (by simp [mkCTL])
        apply absent_rmctl
        exact absent_after_rmctl m (mkRPN dev ch num val) 99 hu
      · apply absent_setctl _ _ _ _ _ _ (by simp [mkCTL])
        apply absent_setctl _ _ _ _ _ _ (by simp [mkCTL])
        exact absent_after_rmctl _ (mkRPN dev ch num val) 98
          (keys_unique_rmctl m _ 99 hu)
  · intro h
    have he := unp_rpn m x dev ch num val revs
    simp only [RPN_HI, RPN_LO] at h
    rw [if_neg (by simp [h])] at he
    exact he

/-- Witness for C16: NRPN{2356, 11128} on a mirror that records an RPN number
replaces it by the NRPN number and gives four events; sent again it gives the
two data-entry events. -/
theorem C16_unpack_nrpn_rpn_witness :
    conv_unpackev [mkCTL 0 0 100 0, mkCTL 0 0 101 0] 0 (mkNRPN 0 0 2356 11128)
        (fun _ => mkPC 0 0 0 0)
      = ([mkCTL 0 0 98 52, mkCTL 0 0 99 18],
         [mkCTL 0 0 99 18, mkCTL 0 0 98 52, mkCTL 0 0 6 86, mkCTL 0 0 38 120]) ∧
    conv_unpackev [mkCTL 0 0 98 52, mkCTL 0 0 99 18] 0 (mkNRPN 0 0 2356 11128)
        (fun _ => mkPC 0 0 0 0)
      = ([mkCTL 0 0 98 52, mkCTL 0 0 99 18], [mkCTL 0 0 6 86, mkCTL 0 0 38 120]) :=
  ⟨((C16_unpack_nrpn_rpn [mkCTL 0 0 100 0, mkCTL 0 0 101 0] 0 0 0 2356 11128
      (fun _ => mkPC 0 0 0 0) (by decide)).1 (Or.inl (by decide))).1,
   (C16_unpack_nrpn_rpn [mkCTL 0 0 98 52, mkCTL 0 0 99 18] 0 0 0 2356 11128
      (fun _ => mkPC 0 0 0 0) (by decide)).2.1 (by decide)⟩

/-! ## Order, count and range of the unpacked events -/

/-- Claim C17: for every canonical event and mirror state, the array returned
by one call of `conv_unpackev` has one of the following forms, in which every
bank-select CTL (0 then 32) precedes the PC, every context-select CTL (99 then
98, or 101 then 100) precedes CTL(DATAENT_HI), which immediately precedes
CTL(DATAENT_LO), and the high byte CTL(n) of a fine controller precedes its low
byte CTL(n+32) whenever both are emitted: for an XPC, the PC alone or CTL(0),
CTL(32), PC; for an NRPN, CTL(6), CTL(38) alone or after CTL(99), CTL(98); for
an RPN, CTL(6), CTL(38) alone or after CTL(101), CTL(100); for an XCTL, CTL(n)
alone, CTL(n+32) alone, or CTL(n), CTL(n+32). -/
theorem C17_wire_order (m : List Ev) (x : Nat) (ev : Ev) (revs : Nat → Ev) :
    (ev.cmd = EV_XPC →
      (conv_unpackev m x ev revs).2 = [mkPC ev.dev ev.ch ev.v0 (revs 0).v1] ∨
      (conv_unpackev m x ev revs).2
        = [mkCTL ev.dev ev.ch BANK_HI (ev.v1 >>> 7), mkCTL ev.dev ev.ch BANK_LO (ev.v1 &&& 0x7f),
           mkPC ev.dev ev.ch ev.v0 (revs 2).v1]) ∧
    (ev.cmd = EV_NRPN →
      (conv_unpackev m x ev revs).2
        = [mkCTL ev.dev ev.ch DATAENT_HI (ev.v1 >>> 7),
           mkCTL ev.dev ev.ch DATAENT_LO (ev.v1 &&& 0x7f)] ∨
      (conv_unpackev m x ev revs).2
        = [mkCTL ev.dev ev.ch NRPN_HI (ev.v0 >>> 7), mkCTL ev.dev ev.ch NRPN_LO (ev.v0 &&& 0x7f),
           mkCTL ev.dev ev.ch DATAENT_HI (ev.v1 >>> 7),
           mkCTL ev.dev ev.ch DATAENT_LO (ev.v1 &&& 0x7f)]) ∧
    (ev.cmd = EV_RPN →
      (conv_unpackev m x ev revs).2
        = [mkCTL ev.dev ev.ch DATAENT_HI (ev.v1 >>> 7),
           mkCTL ev.dev ev.ch DATAENT_LO (ev.v1 &&& 0x7f)] ∨
      (conv_unpackev m x ev revs).2
        = [mkCTL ev.dev ev.ch RPN_HI (ev.v0 >>> 7), mkCTL ev.dev ev.ch RPN_LO (ev.v0 &&& 0x7f),
           mkCTL ev.dev ev.ch DATAENT_HI (ev.v1 >>> 7),
           mkCTL ev.dev ev.ch DATAENT_LO (ev.v1 &&& 0x7f)]) ∧
    (ev.cmd = EV_XCTL →
      (conv_unpackev m x ev revs).2 = [mkCTL ev.dev ev.ch ev.v0 (ev.v1 >>> 7)] ∨
      (conv_unpackev m x ev revs).2 = [mkCTL ev.dev ev.ch (ev.v0 + 32) (ev.v1 &&& 0x7f)] ∨
      (conv_unpackev m x ev revs).2
        = [mkCTL ev.dev ev.ch ev.v0 (ev.v1 >>> 7),
           mkCTL ev.dev ev.ch (ev.v0 + 32) (ev.v1 &&& 0x7f)]) := by
  have hx : ∀ a b : Nat, a ≠ b → ev.cmd = a → ev.cmd = b → False :=
    fun a b hab ha hb => hab (ha.symm.trans hb)
  rcases unpackev_cases m x ev revs with ⟨h, _, _, _, he⟩ | ⟨h, _, _, _, _, he⟩ |
    ⟨h, _, he⟩ | ⟨h, _, _, he⟩ | ⟨h, _, he⟩ | ⟨h, _, he⟩ | ⟨h, _, he⟩ | ⟨h, _, he⟩ |
    ⟨h, _, he⟩ | ⟨h1, h2, h3, h4, he⟩
  · rw [he]
    exact ⟨fun h' => (hx _ _ (by decide) h h').elim, fun h' => (hx _ _ (by decide) h h').elim,
      fun h' => (hx _ _ (by decide) h h').elim, fun _ => Or.inr (Or.inr rfl)⟩
  · rw [he]
    exact ⟨fun h' => (hx _ _ (by decide) h h').elim, fun h' => (hx _ _ (by decide) h h').elim,
      fun h' => (hx _ _ (by decide) h h').elim, fun _ => Or.inr (Or.inl rfl)⟩
  · rw [he]
    exact ⟨fun h' => (hx _ _ (by decide) h h').elim, fun h' => (hx _ _ (by decide) h h').elim,
      fun h' => (hx _ _ (by decide) h h').elim, fun _ => Or.inl rfl⟩
  · rw [he]
    exact ⟨fun _ => Or.inr rfl, fun h' => (hx _ _ (by decide) h h').elim,
      fun h' => (hx _ _ (by decide) h h').elim, fun h' => (hx _ _ (by decide) h h').elim⟩
  · rw [he]
    exact ⟨fun _ => Or.inl rfl, fun h' => (hx _ _ (by decide) h h').elim,
      fun h' => (hx _ _ (by decide) h h').elim, fun h' => (hx _ _ (by decide) h h').elim⟩
  · rw [he]
    exact ⟨fun h' => (hx _ _ (by decide) h h').elim, fun _ => Or.inr rfl,
      fun h' => (hx _ _ (by decide) h h').elim, fun h' => (hx _ _ (by decide) h h').elim⟩
  · rw [he]
    exact ⟨fun h' => (hx _ _ (by decide) h h').elim, fun _ => Or.inl rfl,
      fun h' => (hx _ _ (by decide) h h').elim, fun h' => (hx _ _ (by decide) h h').elim⟩
  · rw [he]
    exact ⟨fun h' => (hx _ _ (by decide) h h').elim, fun h' => (hx _ _ (by decide) h h').elim,
      fun _ => Or.inr rfl, fun h' => (hx _ _ (by decide) h h').elim⟩
  · rw [he]
    exact ⟨fun h' => (hx _ _ (by decide) h h').elim, fun h' => (hx _ _ (by decide) h h').elim,
      fun _ => Or.inl rfl, fun h' => (hx _ _ (by decide) h h').elim⟩
  · exact ⟨fun h' => absurd h' h2, fun h' => absurd h' h3, fun h' => absurd h' h4,
      fun h' => absurd h' h1⟩

/-- Witness for C17: the forms of the array unpacked from XPC{bank=130, prog=5}
and from NRPN{2356, 11128} on the empty mirror state. -/
theorem C17_wire_order_witness :
    ((conv_unpackev [] 0 (mkXPC 0 0 130 5) (fun _ => mkPC 0 0 0 0)).2 = [mkPC 0 0 5 0] ∨
      (conv_unpackev [] 0 (mkXPC 0 0 130 5) (fun _ => mkPC 0 0 0 0)).2
        = [mkCTL 0 0 0 1, mkCTL 0 0 32 2, mkPC 0 0 5 0]) ∧
    ((conv_unpackev [] 0 (mkNRPN 0 0 2356 11128) (fun _ => mkPC 0 0 0 0)).2
        = [mkCTL 0 0 6 86, mkCTL 0 0 38 120] ∨
      (conv_unpackev [] 0 (mkNRPN 0 0 2356 11128) (fun _ => mkPC 0 0 0 0)).2
        = [mkCTL 0 0 99 18, mkCTL 0 0 98 52, mkCTL 0 0 6 86, mkCTL 0 0 38 120]) :=
  ⟨(C17_wire_order [] 0 (mkXPC 0 0 130 5) (fun _ => mkPC 0 0 0 0)).1 rfl,
   (C17_wire_order [] 0 (mkNRPN 0 0 2356 11128) (fun _ => mkPC 0 0 0 0)).2.1 rfl⟩

/-- Claim C18: for every mirror state, bitmap and input event, `conv_unpackev`
returns a count n with 1 <= n <= 4 (1 or 2 for XCTL, 1 or 3 for XPC, 2 or 4 for
NRPN and RPN, 1 for anything else) and writes exactly the first n slots of the
array of the caller: every slot from n on, and so every slot from 4 on, keeps
its contents. -/
theorem C18_unpack_count (m : List Ev) (x : Nat) (ev : Ev) (revs : Nat → Ev) :
    1 ≤ (conv_unpackev m x ev revs).2.length ∧ (conv_unpackev m x ev revs).2.length ≤ 4 ∧
    (ev.cmd = EV_XCTL → (conv_unpackev m x ev revs).2.length = 1 ∨
      (conv_unpackev m x ev revs).2.length = 2) ∧
    (ev.cmd = EV_XPC → (conv_unpackev m x ev revs).2.length = 1 ∨
      (conv_unpackev m x ev revs).2.length = 3) ∧
    (ev.cmd = EV_NRPN ∨ ev.cmd = EV_RPN → (conv_unpackev m x ev revs).2.length = 2 ∨
      (conv_unpackev m x ev revs).2.length = 4) ∧
    (ev.cmd ≠ EV_XCTL → ev.cmd ≠ EV_XPC → ev.cmd ≠ EV_NRPN → ev.cmd ≠ EV_RPN →
      (conv_unpackev m x ev revs).2.length = 1) ∧
    (∀ i, (conv_unpackev m x ev revs).2.length ≤ i →
      rev_store revs (conv_unpackev m x ev revs).2 i = revs i) ∧
    (∀ i, 4 ≤ i → rev_store revs (conv_unpackev m x ev revs).2 i = revs i) ∧
    (∀ i e, (conv_unpackev m x ev revs).2.get? i = some e →
      rev_store revs (conv_unpackev m x ev revs).2 i = e) := by
  have hx : ∀ a b : Nat, a ≠ b → ev.cmd = a → ev.cmd = b → False :=
    fun a b hab ha hb => hab (ha.symm.trans hb)
  have hkeep : ∀ (out : List Ev) (i : Nat), out.length ≤ i → rev_store revs out i = revs i := by
    intro out i hi
    simp only [rev_store]
    exact List.getD_eq_default _ _ hi
  have hwrite : ∀ (out : List Ev) (i : Nat) (e : Ev), out.get? i = some e →
      rev_store revs out i = e := by
    intro out i e hi
    simp only [rev_store, List.getD_eq_getElem?_getD]
    rw [List.get?_eq_getElem?] at hi
    rw [hi]
    rfl
  have hlen : (ev.cmd = EV_XCTL ∧ ((conv_unpackev m x ev revs).2.length = 1 ∨
        (conv_unpackev m x ev revs).2.length = 2)) ∨
      (ev.cmd = EV_XPC ∧ ((conv_unpackev m x ev revs).2.length = 1 ∨
        (conv_unpackev m x ev revs).2.length = 3)) ∨
      ((ev.cmd = EV_NRPN ∨ ev.cmd = EV_RPN) ∧ ((conv_unpackev m x ev revs).2.length = 2 ∨
        (conv_unpackev m x ev revs).2.length = 4)) ∨
      ((ev.cmd ≠ EV_XCTL ∧ ev.cmd ≠ EV_XPC ∧ ev.cmd ≠ EV_NRPN ∧ ev.cmd ≠ EV_RPN) ∧
        (conv_unpackev m x ev revs).2.length = 1) := by
    rcases unpackev_cases m x ev revs with ⟨h, _, _, _, he⟩ | ⟨h, _, _, _, _, he⟩ |
      ⟨h, _, he⟩ | ⟨h, _, _, he⟩ | ⟨h, _, he⟩ | ⟨h, _, he⟩ | ⟨h, _, he⟩ | ⟨h, _, he⟩ |
      ⟨h, _, he⟩ | ⟨h1, h2, h3, h4, he⟩
    · rw [he]; exact Or.inl ⟨h, Or.inr rfl⟩
    · rw [he]; exact Or.inl ⟨h, Or.inl rfl⟩
    · rw [he]; exact Or.inl ⟨h, Or.inl rfl⟩
    · rw [he]; exact Or.inr (Or.inl ⟨h, Or.inr rfl⟩)
    · rw [he]; exact Or.inr (Or.inl ⟨h, Or.inl rfl⟩)
    · rw [he]; exact Or.inr (Or.inr (Or.inl ⟨Or.inl h, Or.inr rfl⟩))
    · rw [he]; exact Or.inr (Or.inr (Or.inl ⟨Or.inl h, Or.inl rfl⟩))
    · rw [he]; exact Or.inr (Or.inr (Or.inl ⟨Or.inr h, Or.inr rfl⟩))
    · rw [he]; exact Or.inr (Or.inr (Or.inl ⟨Or.inr h, Or.inl rfl⟩))
    · rw [he]; exact Or.inr (Or.inr (Or.inr ⟨⟨h1, h2, h3, h4⟩, rfl⟩))
  have hb : 1 ≤ (conv_unpackev m x ev revs).2.length ∧
      (conv_unpackev m x ev revs).2.length ≤ 4 := by
    rcases hlen with ⟨_, h | h⟩ | ⟨_, h | h⟩ | ⟨_, h | h⟩ | ⟨_, h⟩ <;> omega
  refine ⟨hb.1, hb.2, ?_, ?_, ?_, ?_, hkeep _, fun i hi => hkeep _ i (by omega), hwrite _⟩
  · intro hc
    rcases hlen with ⟨_, h⟩ | ⟨h', _⟩ | ⟨h' | h', _⟩ | ⟨h', _⟩
    · exact h
    · exact (hx _ _ (by decide) hc h').elim
    · exact (hx _ _ (by decide) hc h').elim
    · exact (hx _ _ (by decide) hc h').elim
    · exact absurd hc h'.1
  · intro hc
    rcases hlen with ⟨h', _⟩ | ⟨_, h⟩ | ⟨h' | h', _⟩ | ⟨h', _⟩
    · exact (hx _ _ (by decide) hc h').elim
    · exact h
    · exact (hx _ _ (by decide) hc h').elim
    · exact (hx _ _ (by decide) hc h').elim
    · exact absurd hc h'.2.1
  · intro hc
    rcases hlen with ⟨h', _⟩ | ⟨h', _⟩ | ⟨_, h⟩ | ⟨h', _⟩
    · rcases hc with hc | hc <;> exact (hx _ _ (by decide) hc h').elim
    · rcases hc with hc | hc <;> exact (hx _ _ (by decide) hc h').elim
    · exact h
    · rcases hc with hc | hc
      · exact absurd hc h'.2.2.1
      · exact absurd hc h'.2.2.2
  · intro h1 h2 h3 h4
    rcases hlen with ⟨h', _⟩ | ⟨h', _⟩ | ⟨h' | h', _⟩ | ⟨_, h⟩
    · exact absurd h' h1
    · exact absurd h' h2
    · exact absurd h' h3
    · exact absurd h' h4
    · exact h

/-- Witness for C18: the counts for XPC{bank=130, prog=5} and for a note-on
event on the empty mirror state. -/
theorem C18_unpack_count_witness :
    ((conv_unpackev [] 0 (mkXPC 0 0 130 5) (fun _ => mkPC 0 0 0 0)).2.length = 1 ∨
      (conv_unpackev [] 0 (mkXPC 0 0 130 5) (fun _ => mkPC 0 0 0 0)).2.length = 3) ∧
    (conv_unpackev [] 0 ⟨EV_NON, 0, 1, 60, 100⟩ (fun _ => mkPC 0 0 0 0)).2.length = 1 :=
  ⟨(C18_unpack_count [] 0 (mkXPC 0 0 130 5) (fun _ => mkPC 0 0 0 0)).2.2.2.1 rfl,
   (C18_unpack_count [] 0 ⟨EV_NON, 0, 1, 60, 100⟩ (fun _ => mkPC 0 0 0 0)).2.2.2.2.2.1
     (by decide) (by decide) (by decide) (by decide)⟩

/-- Claim C19: for every mirror state and every canonical event whose fields
are in range (XCTL with num <= 127 and val <= 0x3FFF; NRPN/RPN with num and
val <= 0x3FFF; XPC with prog <= 127 and bank <= 0x3FFF or bank = UNDEF), every
event that `conv_unpackev` returns is a CTL with ctl_num <= 127 and
ctl_val <= 127 or a PC with prog <= 127. -/
theorem C19_wire_payloads (m : List Ev) (x : Nat) (ev : Ev) (revs : Nat → Ev)
    (hr : canonical_in_range ev) :
    ∀ e ∈ (conv_unpackev m x ev revs).2, wire_7bit e := by
  have hx : ∀ a b : Nat, a ≠ b → ev.cmd = a → ev.cmd = b → False :=
    fun a b hab ha hb => hab (ha.symm.trans hb)
  have hctl : ∀ n v : Nat, n ≤ 127 → v ≤ 127 → wire_7bit (mkCTL ev.dev ev.ch n v) :=
    fun n v hn hv => Or.inl ⟨rfl, hn, hv⟩
  have hpc : ∀ p j : Nat, p ≤ 127 → wire_7bit (mkPC ev.dev ev.ch p j) :=
    fun p j hp => Or.inr ⟨rfl, hp⟩
  have hhi : ∀ v : Nat, v ≤ 16383 → v >>> 7 ≤ 127 := by
    intro v hv; rw [shr7]; omega
  have hlo : ∀ v : Nat, v &&& 127 ≤ 127 := by
    intro v; rw [and7f]; omega
  simp only [canonical_in_range, EV_MAXCOARSE, EV_MAXFINE] at hr
  rcases unpackev_cases m x ev revs with ⟨h, hn, _, _, he⟩ | ⟨h, hn, _, _, _, he⟩ |
    ⟨h, _, he⟩ | ⟨h, _, hb, he⟩ | ⟨h, _, he⟩ | ⟨h, _, he⟩ | ⟨h, _, he⟩ | ⟨h, _, he⟩ |
    ⟨h, _, he⟩ | ⟨h1, h2, h3, h4, he⟩
  · -- XCTL, fine, both bytes
    rcases hr with ⟨_, r1, r2⟩ | ⟨r | r, _⟩ | ⟨r, _⟩
    · rw [he]
      intro e hmem
      simp only [List.mem_cons, List.mem_singleton, List.not_mem_nil, or_false] at hmem
      rcases hmem with rfl | rfl
      · exact hctl _ _ r1 (hhi _ r2)
      · exact hctl _ _ (by omega) (hlo _)
    · exact (hx _ _ (by decide) h r).elim
    · exact (hx _ _ (by decide) h r).elim
    · exact (hx _ _ (by decide) h r).elim
  · -- XCTL, fine, low byte only
    rcases hr with ⟨_, r1, r2⟩ | ⟨r | r, _⟩ | ⟨r, _⟩
    · rw [he]
      intro e hmem
      simp only [List.mem_singleton] at hmem
      subst hmem
      exact hctl _ _ (by omega) (hlo _)
    · exact (hx _ _ (by decide) h r).elim
    · exact (hx _ _ (by decide) h r).elim
    · exact (hx _ _ (by decide) h r).elim
  · -- XCTL, coarse
    rcases hr with ⟨_, r1, r2⟩ | ⟨r | r, _⟩ | ⟨r, _⟩
    · rw [he]
      intro e hmem
      simp only [List.mem_singleton] at hmem
      subst hmem
      exact hctl _ _ r1 (hhi _ r2)
    · exact (hx _ _ (by decide) h r).elim
    · exact (hx _ _ (by decide) h r).elim
    · exact (hx _ _ (by decide) h r).elim
  · -- XPC with its bank
    rcases hr with ⟨r, _⟩ | ⟨r | r, _⟩ | ⟨_, r1, r2⟩
    · exact (hx _ _ (by decide) h r).elim
    · exact (hx _ _ (by decide) h r).elim
    · exact (hx _ _ (by decide) h r).elim
    · have r3 : ev.v1 ≤ 16383 := by
        rcases r2 with r2 | r2
        · exact r2
        · exact absurd r2 hb
      rw [he]
      intro e hmem
      simp only [List.mem_cons, List.mem_singleton, List.not_mem_nil, or_false] at hmem
      rcases hmem with rfl | rfl | rfl
      · exact hctl _ _ (by omega) (hhi _ r3)
      · exact hctl _ _ (by omega) (hlo _)
      · exact hpc _ _ r1
  · -- XPC alone
    rcases hr with ⟨r, _⟩ | ⟨r | r, _⟩ | ⟨_, r1, r2⟩
    · exact (hx _ _ (by decide) h r).elim
    · exact (hx _ _ (by decide) h r).elim
    · exact (hx _ _ (by decide) h r).elim
    · rw [he]
      intro e hmem
      simp only [List.mem_singleton] at hmem
      subst hmem
      exact hpc _ _ r1
  · -- NRPN with its number
    rcases hr with ⟨r, _⟩ | ⟨_, r1, r2⟩ | ⟨r, _⟩
    · exact (hx _ _ (by decide) h r).elim
    · rw [he]
      intro e hmem
      simp only [List.mem_cons, List.mem_singleton, List.not_mem_nil, or_false] at hmem
      rcases hmem with rfl | rfl | rfl | rfl
      · exact hctl _ _ (by omega) (hhi _ r1)
      · exact hctl _ _ (by omega) (hlo _)
      · exact hctl _ _ (by omega) (hhi _ r2)
      · exact hctl _ _ (by omega) (hlo _)
    · exact (hx _ _ (by decide) h r).elim
  · -- NRPN, data entry only
    rcases hr with ⟨r, _⟩ | ⟨_, r1, r2⟩ | ⟨r, _⟩
    · exact (hx _ _ (by decide) h r).elim
    · rw [he]
      intro e hmem
      simp only [List.mem_cons, List.mem_singleton, List.not_mem_nil, or_false] at hmem
      rcases hmem with rfl | rfl
      · exact hctl _ _ (by omega) (hhi _ r2)
      · exact hctl _ _ (by omega) (hlo _)
    · exact (hx _ _ (by decide) h r).elim
  · -- RPN with its number
    rcases hr with ⟨r, _⟩ | ⟨_, r1, r2⟩ | ⟨r, _⟩
    · exact (hx _ _ (by decide) h r).elim
    · rw [he]
      intro e hmem
      simp only [List.mem_cons, List.mem_singleton, List.not_mem_nil, or_false] at hmem
      rcases hmem with rfl | rfl | rfl | rfl
      · exact hctl _ _ (by omega) (hhi _ r1)
      · exact hctl _ _ (by omega) (hlo _)
      · exact hctl _ _ (by omega) (hhi _ r2)
      · exact hctl _ _ (by omega) (hlo _)
    · exact (hx _ _ (by decide) h r).elim
  · -- RPN, data entry only
    rcases hr with ⟨r, _⟩ | ⟨_, r1, r2⟩ | ⟨r, _⟩
    · exact (hx _ _ (by decide) h r).elim
    · rw [he]
      intro e hmem
      simp only [List.mem_cons, List.mem_singleton, List.not_mem_nil, or_false] at hmem
      rcases hmem with rfl | rfl
      · exact hctl _ _ (by omega) (hhi _ r2)
      · exact hctl _ _ (by omega) (hlo _)
    · exact (hx _ _ (by decide) h r).elim
  · -- not a canonical kind
    rcases hr with ⟨r, _⟩ | ⟨r | r, _⟩ | ⟨r, _⟩
    · exact absurd r h1
    · exact absurd r h3
    · exact absurd r h4
    · exact absurd r h2

/-- Witness for C19: the three events unpacked from XPC{bank=130, prog=5}. -/
theorem C19_wire_payloads_witness :
    wire_7bit (mkCTL 0 0 0 1) ∧ wire_7bit (mkCTL 0 0 32 2) ∧ wire_7bit (mkPC 0 0 5 0) :=
  ⟨C19_wire_payloads [] 0 (mkXPC 0 0 130 5) (fun _ => mkPC 0 0 0 0)
      (Or.inr (Or.inr ⟨rfl, by decide, Or.inl (by decide)⟩)) (mkCTL 0 0 0 1) (by decide),
   C19_wire_payloads [] 0 (mkXPC 0 0 130 5) (fun _ => mkPC 0 0 0 0)
      (Or.inr (Or.inr ⟨rfl, by decide, Or.inl (by decide)⟩)) (mkCTL 0 0 32 2) (by decide),
   C19_wire_payloads [] 0 (mkXPC 0 0 130 5) (fun _ => mkPC 0 0 0 0)
      (Or.inr (Or.inr ⟨rfl, by decide, Or.inl (by decide)⟩)) (mkPC 0 0 5 0) (by decide)⟩

/-! ## Uniqueness of the keys -/

/-- Claim C20: if a state list holds at most one entry per (device, channel,
controller number), then after any call of `conv_packev` or `conv_unpackev` on
it (any event, any bitmap) it still holds at most one entry per (device,
channel, controller number). -/
theorem C20_keys_unique (l : List Ev) (x : Nat) (ev rev : Ev) (revs : Nat → Ev)
    (h : keys_unique l) :
    keys_unique (conv_packev l x ev rev).1 ∧ keys_unique (conv_unpackev l x ev revs).1 := by
  constructor
  · rcases packev_cases l x ev rev with ⟨_, he⟩ | ⟨_, _, he⟩ | ⟨_, l', he, hl⟩ |
      ⟨_, _, c, _, he⟩ | ⟨_, r, he, _⟩
    · rw [he]; exact h
    · rw [he]; exact h
    · rw [he]
      rcases hl with hl | hl | ⟨a, hl⟩ | ⟨a, b, hl⟩
      · rw [hl]; exact h
      · rw [hl]; exact keys_unique_setctl l ev h
      · rw [hl]; exact keys_unique_setctl _ ev (keys_unique_rmctl l ev a h)
      · rw [hl]
        exact keys_unique_setctl _ ev (keys_unique_rmctl _ ev b (keys_unique_rmctl l ev a h))
    · rw [he]; exact h
    · rw [he]; exact h
  · rcases unpackev_cases l x ev revs with ⟨_, _, _, _, he⟩ | ⟨_, _, _, _, _, he⟩ |
      ⟨_, _, he⟩ | ⟨_, _, _, he⟩ | ⟨_, _, he⟩ | ⟨_, _, he⟩ | ⟨_, _, he⟩ | ⟨_, _, he⟩ |
      ⟨_, _, he⟩ | ⟨_, _, _, _, he⟩
    · rw [he]; exact keys_unique_setctl l _ h
    · rw [he]; exact h
    · rw [he]; exact h
    · rw [he]; exact keys_unique_setctl _ _ (keys_unique_setctl l _ h)
    · rw [he]; exact h
    · rw [he]
      exact keys_unique_setctl _ _ (keys_unique_setctl _ _
        (keys_unique_rmctl _ ev 100 (keys_unique_rmctl l ev 101 h)))
    · rw [he]; exact h
    · rw [he]
      exact keys_unique_setctl _ _ (keys_unique_setctl _ _
        (keys_unique_rmctl _ ev 98 (keys_unique_rmctl l ev 99 h)))
    · rw [he]; exact h
    · rw [he]; exact h

/-- Witness for C20: a list of three states with distinct keys, after CTL(0,1)
in the packer and after NRPN{5,6} in the unpacker. -/
theorem C20_keys_unique_witness :
    keys_unique (conv_packev [mkCTL 0 0 32 2, mkCTL 0 0 0 1, mkCTL 0 1 0 1] 0 (mkCTL 0 0 0 1)
        (mkPC 0 0 0 0)).1 ∧
    keys_unique (conv_unpackev [mkCTL 0 0 32 2, mkCTL 0 0 0 1, mkCTL 0 1 0 1] 0 (mkNRPN 0 0 5 6)
        (fun _ => mkPC 0 0 0 0)).1 :=
  ⟨(C20_keys_unique [mkCTL 0 0 32 2, mkCTL 0 0 0 1, mkCTL 0 1 0 1] 0 (mkCTL 0 0 0 1)
      (mkPC 0 0 0 0) (fun _ => mkPC 0 0 0 0) (by simp [keys_unique, same_key, mkCTL])).1,
   (C20_keys_unique [mkCTL 0 0 32 2, mkCTL 0 0 0 1, mkCTL 0 1 0 1] 0 (mkNRPN 0 0 5 6)
      (mkPC 0 0 0 0) (fun _ => mkPC 0 0 0 0) (by simp [keys_unique, same_key, mkCTL])).2⟩

/-! ## Isolation of the channels -/

/-- A lookup reads only the states of the channel of the event. -/
theorem getctl_chan_entries (l : List Ev) (ev : Ev) (k : Nat) :
    conv_getctl (chan_entries l ev.dev ev.ch) ev k = conv_getctl l ev k := by
  induction l with
  | nil => rfl
  | cons i rest ih =>
    simp only [chan_entries, List.filter] at ih ⊢
    by_cases hm : (i.ch == ev.ch && i.dev == ev.dev) = true
    · simp only [hm, conv_getctl, CHAN_MATCH, ih]
    · have hm' : (i.ch == ev.ch && i.dev == ev.dev) = false := by simpa using hm
      simp only [hm', conv_getctl, CHAN_MATCH, Bool.and_false, ih]
      rfl

theorem getctl_of_chan_entries_eq (l1 l2 : List Ev) (ev : Ev)
    (h : chan_entries l1 ev.dev ev.ch = chan_entries l2 ev.dev ev.ch) (k : Nat) :
    conv_getctl l1 ev k = conv_getctl l2 ev k := by
  rw [← getctl_chan_entries l1, ← getctl_chan_entries l2, h]

theorem getctx_of_getctl_eq (l1 l2 : List Ev) (ev : Ev)
    (hg : ∀ k, conv_getctl l1 ev k = conv_getctl l2 ev k) (hi lo : Nat) :
    conv_getctx l1 ev hi lo = conv_getctx l2 ev hi lo := by
  unfold conv_getctx
  rw [hg lo, hg hi]

theorem dataent_out_congr (l1 l2 : List Ev) (ev r : Ev) (num : Nat)
    (hg : ∀ k, conv_getctl l1 ev k = conv_getctl l2 ev k) :
    (conv_packev_dataent l1 ev r num).2 = (conv_packev_dataent l2 ev r num).2 := by
  unfold conv_packev_dataent
  rw [hg DATAENT_HI]
  by_cases h : conv_getctl l2 ev DATAENT_HI = EV_UNDEF
  · simp only [h, if_true]
  · simp only [h, if_false]

theorem default_out_congr (l1 l2 : List Ev) (x : Nat) (ev rev : Ev)
    (hg : ∀ k, conv_getctl l1 ev k = conv_getctl l2 ev k) :
    (conv_packev_default l1 x ev rev).2 = (conv_packev_default l2 x ev rev).2 := by
  unfold conv_packev_default
  simp only [hg (ev.v0 - 32)]
  split_ifs <;> rfl

/-- The packer on a CTL event whose number is none of the eight context
controllers: the `default:` case. -/
theorem packev_default_eq (l : List Ev) (x : Nat) (ev rev : Ev) (hctl : ev.cmd = EV_CTL)
    (h0 : ev.v0 ≠ BANK_HI) (h1 : ev.v0 ≠ RPN_HI) (h2 : ev.v0 ≠ NRPN_HI)
    (h3 : ev.v0 ≠ DATAENT_HI) (h4 : ev.v0 ≠ BANK_LO) (h5 : ev.v0 ≠ NRPN_LO)
    (h6 : ev.v0 ≠ RPN_LO) (h7 : ev.v0 ≠ DATAENT_LO) :
    conv_packev l x ev rev = conv_packev_default l x ev rev := by
  have hpc : ¬ ev.cmd = EV_PC := by rw [hctl]; decide
  rw [conv_packev]
  simp only [if_neg hpc, if_pos hctl, if_neg h0, if_neg h1, if_neg h2, if_neg h3, if_neg h4,
    if_neg h5, if_neg h6, if_neg h7]

/-- The event and the count returned by the packer depend on the state list
only through the lookups on the channel of the event. -/
theorem packev_out_congr (l1 l2 : List Ev) (x : Nat) (ev rev : Ev)
    (hg : ∀ k, conv_getctl l1 ev k = conv_getctl l2 ev k) :
    (conv_packev l1 x ev rev).2 = (conv_packev l2 x ev rev).2 := by
  by_cases hpc : ev.cmd = EV_PC
  · rw [conv_packev, conv_packev, if_pos hpc, if_pos hpc,
      getctx_of_getctl_eq l1 l2 ev hg]
  by_cases hctl : ev.cmd = EV_CTL
  swap
  · rw [conv_packev, conv_packev, if_neg hpc, if_neg hpc, if_neg hctl, if_neg hctl]
  by_cases h0 : ev.v0 = BANK_HI
  · rw [conv_packev, conv_packev, if_neg hpc, if_neg hpc, if_pos hctl, if_pos hctl,
      if_pos h0, if_pos h0]
  by_cases h1 : ev.v0 = RPN_HI
  · rw [conv_packev, conv_packev, if_neg hpc, if_neg hpc, if_pos hctl, if_pos hctl,
      if_neg h0, if_neg h0, if_pos h1, if_pos h1]
  by_cases h2 : ev.v0 = NRPN_HI
  · rw [conv_packev, conv_packev, if_neg hpc, if_neg hpc, if_pos hctl, if_pos hctl,
      if_neg h0, if_neg h0, if_neg h1, if_neg h1, if_pos h2, if_pos h2]
  by_cases h3 : ev.v0 = DATAENT_HI
  · rw [conv_packev, conv_packev, if_neg hpc, if_neg hpc, if_pos hctl, if_pos hctl,
      if_neg h0, if_neg h0, if_neg h1, if_neg h1, if_neg h2, if_neg h2, if_pos h3, if_pos h3]
  by_cases h4 : ev.v0 = BANK_LO
  · rw [conv_packev, conv_packev, if_neg hpc, if_neg hpc, if_pos hctl, if_pos hctl,
      if_neg h0, if_neg h0, if_neg h1, if_neg h1, if_neg h2, if_neg h2, if_neg h3, if_neg h3,
      if_pos h4, if_pos h4]
  by_cases h5 : ev.v0 = NRPN_LO
  · rw [conv_packev, conv_packev, if_neg hpc, if_neg hpc, if_pos hctl, if_pos hctl,
      if_neg h0, if_neg h0, if_neg h1, if_neg h1, if_neg h2, if_neg h2, if_neg h3, if_neg h3,
      if_neg h4, if_neg h4, if_pos h5, if_pos h5]
  by_cases h6 : ev.v0 = RPN_LO
  · rw [conv_packev, conv_packev, if_neg hpc, if_neg hpc, if_pos hctl, if_pos hctl,
      if_neg h0, if_neg h0, if_neg h1, if_neg h1, if_neg h2, if_neg h2, if_neg h3, if_neg h3,
      if_neg h4, if_neg h4, if_neg h5, if_neg h5, if_pos h6, if_pos h6]
  by_cases h7 : ev.v0 = DATAENT_LO
  · obtain ⟨cmd, dev, ch, v0, v1⟩ := ev
    simp only [EV_CTL, DATAENT_LO] at hctl h7
    subst hctl h7
    have e1 := packev_dataent_lo_eq l1 x dev ch v1 rev
    have e2 := packev_dataent_lo_eq l2 x dev ch v1 rev
    simp only [mkCTL, EV_CTL] at e1 e2
    rw [e1, e2]
    have hx : ∀ hi lo, conv_getctx l1 ⟨11, dev, ch, 38, v1⟩ hi lo
        = conv_getctx l2 ⟨11, dev, ch, 38, v1⟩ hi lo :=
      getctx_of_getctl_eq l1 l2 _ hg
    rw [hx NRPN_HI NRPN_LO, hx RPN_HI NRPN_LO]
    split_ifs
    · exact dataent_out_congr l1 l2 _ _ _ hg
    · rfl
    · exact dataent_out_congr l1 l2 _ _ _ hg
  · rw [packev_default_eq l1 x ev rev hctl h0 h1 h2 h3 h4 h5 h6 h7,
      packev_default_eq l2 x ev rev hctl h0 h1 h2 h3 h4 h5 h6 h7]
    exact default_out_congr l1 l2 x ev rev hg

/-- The events written by the unpacker depend on the state list only through
the lookups on the channel of the event. -/
theorem unpackev_out_congr (l1 l2 : List Ev) (x : Nat) (ev : Ev) (revs : Nat → Ev)
    (hg : ∀ k, conv_getctl l1 ev k = conv_getctl l2 ev k) :
    (conv_unpackev l1 x ev revs).2 = (conv_unpackev l2 x ev revs).2 := by
  have hx := getctx_of_getctl_eq l1 l2 ev hg
  by_cases h1 : ev.cmd = EV_XCTL
  · rw [conv_unpackev, conv_unpackev, if_pos h1, if_pos h1]
    simp only [hg ev.v0]
    split_ifs <;> rfl
  by_cases h2 : ev.cmd = EV_XPC
  · rw [conv_unpackev, conv_unpackev, if_neg h1, if_neg h1, if_pos h2, if_pos h2]
    simp only [hx BANK_HI BANK_LO]
    split_ifs <;> rfl
  by_cases h3 : ev.cmd = EV_NRPN
  · rw [conv_unpackev, conv_unpackev, if_neg h1, if_neg h1, if_neg h2, if_neg h2,
      if_pos h3, if_pos h3]
    simp only [hx NRPN_HI NRPN_LO]
    split_ifs <;> rfl
  by_cases h4 : ev.cmd = EV_RPN
  · rw [conv_unpackev, conv_unpackev, if_neg h1, if_neg h1, if_neg h2, if_neg h2,
      if_neg h3, if_neg h3, if_pos h4, if_pos h4]
    simp only [hx RPN_HI RPN_LO]
    split_ifs <;> rfl
  rw [unp_other l1 x ev revs h1 h2 h3 h4, unp_other l2 x ev revs h1 h2 h3 h4]

/-! ### The states of the other channels -/

theorem chan_entries_rmctl_other (l : List Ev) (ev : Ev) (k dev ch : Nat)
    (hne : ¬ (ev.ch = ch ∧ ev.dev = dev)) :
    chan_entries (conv_rmctl l ev k) dev ch = chan_entries l dev ch := by
  induction l with
  | nil => rfl
  | cons i rest ih =>
    simp only [conv_rmctl]
    split
    · rename_i hm
      simp only [CHAN_MATCH, Bool.and_eq_true, beq_iff_eq] at hm
      have hi : (i.ch == ch && i.dev == dev) = false := by
        simp only [Bool.and_eq_false_iff, beq_eq_false_iff_ne, ne_eq]
        by_cases a : i.ch = ch
        · right; intro b; exact hne ⟨by omega, by omega⟩
        · left; exact a
      simp only [chan_entries, List.filter, hi]
    · simp only [chan_entries, List.filter] at ih ⊢
      rw [ih]

theorem chan_entries_setctl_loop_other (l l' : List Ev) (ev : Ev) (dev ch : Nat)
    (h : conv_setctl_loop l ev = some l') (hne : ¬ (ev.ch = ch ∧ ev.dev = dev)) :
    chan_entries l' dev ch = chan_entries l dev ch := by
  induction l generalizing l' with
  | nil => simp [conv_setctl_loop] at h
  | cons i rest ih =>
    simp only [conv_setctl_loop] at h
    split at h
    · rename_i hm
      simp only [Option.some.injEq] at h
      subst h
      simp only [CTL_MATCH, CHAN_MATCH, Bool.and_eq_true, beq_iff_eq] at hm
      have hi : (i.ch == ch && i.dev == dev) = false := by
        simp only [Bool.and_eq_false_iff, beq_eq_false_iff_ne, ne_eq]
        by_cases a : i.ch = ch
        · right; intro b; exact hne ⟨by omega, by omega⟩
        · left; exact a
      simp only [chan_entries, List.filter, hi]
    · simp only [Option.map_eq_some'] at h
      obtain ⟨r, hr, hl⟩ := h
      subst hl
      have := ih r hr
      simp only [chan_entries, List.filter] at this ⊢
      rw [this]

theorem chan_entries_setctl_other (l : List Ev) (ev : Ev) (dev ch : Nat)
    (hne : ¬ (ev.ch = ch ∧ ev.dev = dev)) :
    chan_entries (conv_setctl l ev) dev ch = chan_entries l dev ch := by
  unfold conv_setctl
  cases hl : conv_setctl_loop l ev with
  | some l' => exact chan_entries_setctl_loop_other l l' ev dev ch hl hne
  | none =>
    have hi : (ev.ch == ch && ev.dev == dev) = false := by
      simp only [Bool.and_eq_false_iff, beq_eq_false_iff_ne, ne_eq]
      tauto
    simp only [statelist_add, chan_entries, List.filter, hi]

theorem chan_entries_packev_other (l : List Ev) (x : Nat) (ev rev : Ev) (dev ch : Nat)
    (hne : ¬ (ev.ch = ch ∧ ev.dev = dev)) :
    chan_entries (conv_packev l x ev rev).1 dev ch = chan_entries l dev ch := by
  rcases packev_cases l x ev rev with ⟨_, he⟩ | ⟨_, _, he⟩ | ⟨_, l', he, hl⟩ |
    ⟨_, _, c, _, he⟩ | ⟨_, r, he, _⟩
  · rw [he]
  · rw [he]
  · rw [he]
    rcases hl with hl | hl | ⟨a, hl⟩ | ⟨a, b, hl⟩
    · rw [hl]
    · rw [hl, chan_entries_setctl_other l ev dev ch hne]
    · rw [hl, chan_entries_setctl_other _ ev dev ch hne,
        chan_entries_rmctl_other l ev a dev ch hne]
    · rw [hl, chan_entries_setctl_other _ ev dev ch hne,
        chan_entries_rmctl_other _ ev b dev ch hne, chan_entries_rmctl_other l ev a dev ch hne]
  · rw [he]
  · rw [he]

theorem chan_entries_unpackev_other (l : List Ev) (x : Nat) (ev : Ev) (revs : Nat → Ev)
    (dev ch : Nat) (hne : ¬ (ev.ch = ch ∧ ev.dev = dev)) :
    chan_entries (conv_unpackev l x ev revs).1 dev ch = chan_entries l dev ch := by
  have hset : ∀ (s : List Ev) (n v : Nat),
      chan_entries (conv_setctl s (mkCTL ev.dev ev.ch n v)) dev ch = chan_entries s dev ch :=
    fun s n v => chan_entries_setctl_other s _ dev ch hne
  rcases unpackev_cases l x ev revs with ⟨_, _, _, _, he⟩ | ⟨_, _, _, _, _, he⟩ |
    ⟨_, _, he⟩ | ⟨_, _, _, he⟩ | ⟨_, _, he⟩ | ⟨_, _, he⟩ | ⟨_, _, he⟩ | ⟨_, _, he⟩ |
    ⟨_, _, he⟩ | ⟨_, _, _, _, he⟩
  · rw [he, hset]
  · rw [he]
  · rw [he]
  · rw [he, hset, hset]
  · rw [he]
  · rw [he, hset, hset, chan_entries_rmctl_other _ ev 100 dev ch hne,
      chan_entries_rmctl_other l ev 101 dev ch hne]
  · rw [he]
  · rw [he, hset, hset, chan_entries_rmctl_other _ ev 98 dev ch hne,
      chan_entries_rmctl_other l ev 99 dev ch hne]
  · rw [he]
  · rw [he]

/-- Claim C21: for every event e and every two state lists that hold the same
entries for the device and channel of e, `conv_packev` returns the same count
and the same emitted event on both, and `conv_unpackev` returns the same
events on both; and in every call of either the entries belonging to any other
(device, channel) are left unchanged. -/
theorem C21_channel_isolation (l1 l2 : List Ev) (x : Nat) (ev rev : Ev) (revs : Nat → Ev)
    (h : chan_entries l1 ev.dev ev.ch = chan_entries l2 ev.dev ev.ch) :
    (conv_packev l1 x ev rev).2.2 = (conv_packev l2 x ev rev).2.2 ∧
    (conv_packev l1 x ev rev).2.1 = (conv_packev l2 x ev rev).2.1 ∧
    (conv_unpackev l1 x ev revs).2 = (conv_unpackev l2 x ev revs).2 ∧
    (∀ dev ch, ¬ (ev.ch = ch ∧ ev.dev = dev) →
      chan_entries (conv_packev l1 x ev rev).1 dev ch = chan_entries l1 dev ch ∧
      chan_entries (conv_unpackev l1 x ev revs).1 dev ch = chan_entries l1 dev ch) := by
  have hg := getctl_of_chan_entries_eq l1 l2 ev h
  have hp := packev_out_congr l1 l2 x ev rev hg
  refine ⟨by rw [hp], by rw [hp], unpackev_out_congr l1 l2 x ev revs hg, ?_⟩
  intro dev ch hne
  exact ⟨chan_entries_packev_other l1 x ev rev dev ch hne,
    chan_entries_unpackev_other l1 x ev revs dev ch hne⟩

/-- Witness for C21: two state lists that agree on channel 0 of device 0 and
differ on channel 1; PC(5) on channel 0 gives the same XPC on both, and the
state of channel 1 is kept by CTL(0,7) on channel 0. -/
theorem C21_channel_isolation_witness :
    (conv_packev [mkCTL 0 1 0 9, mkCTL 0 0 32 2, mkCTL 0 0 0 1] 0 (mkPC 0 0 5 0)
        (mkPC 0 0 0 0)).2.1
      = (conv_packev [mkCTL 0 0 32 2, mkCTL 0 1 32 4, mkCTL 0 0 0 1] 0 (mkPC 0 0 5 0)
        (mkPC 0 0 0 0)).2.1 ∧
    chan_entries (conv_packev [mkCTL 0 1 0 9, mkCTL 0 0 32 2, mkCTL 0 0 0 1] 0
        (mkCTL 0 0 0 7) (mkPC 0 0 0 0)).1 0 1 = [mkCTL 0 1 0 9] :=
  ⟨(C21_channel_isolation [mkCTL 0 1 0 9, mkCTL 0 0 32 2, mkCTL 0 0 0 1]
      [mkCTL 0 0 32 2, mkCTL 0 1 32 4, mkCTL 0 0 0 1] 0 (mkPC 0 0 5 0) (mkPC 0 0 0 0)
      (fun _ => mkPC 0 0 0 0) (by decide)).2.1,
   ((C21_channel_isolation [mkCTL 0 1 0 9, mkCTL 0 0 32 2, mkCTL 0 0 0 1]
      [mkCTL 0 1 0 9, mkCTL 0 0 32 2, mkCTL 0 0 0 1] 0 (mkCTL 0 0 0 7) (mkPC 0 0 0 0)
      (fun _ => mkPC 0 0 0 0) rfl).2.2.2 0 1 (by decide)).1⟩

/-! ## The phase of an event and the reserved controllers -/

/-- Claim C22: `ev_phase` equals the phase table for every event and every
registry: NON gives FIRST; NOFF gives LAST; KAT gives NEXT; CAT gives
FIRST|NEXT when its value is not 0 and LAST when it is 0; BEND gives FIRST|NEXT
when its value is not 0x2000 and LAST when it is 0x2000; XCTL on a parametric
controller (registry default UNDEF) gives FIRST|LAST; XCTL on a frame
controller gives FIRST|NEXT when its value differs from the registry default
and LAST when it equals it; every other kind gives FIRST|LAST. -/
theorem C22_phase_table (evctl_tab : Nat → Evctl) (ev : Ev) :
    (ev.cmd = EV_NON → ev_phase evctl_tab ev = EV_PHASE_FIRST) ∧
    (ev.cmd = EV_NOFF → ev_phase evctl_tab ev = EV_PHASE_LAST) ∧
    (ev.cmd = EV_KAT → ev_phase evctl_tab ev = EV_PHASE_NEXT) ∧
    (ev.cmd = EV_CAT → ev.v0 ≠ 0 →
      ev_phase evctl_tab ev = EV_PHASE_FIRST ||| EV_PHASE_NEXT) ∧
    (ev.cmd = EV_CAT → ev.v0 = 0 → ev_phase evctl_tab ev = EV_PHASE_LAST) ∧
    (ev.cmd = EV_BEND → ev.v0 ≠ 0x2000 →
      ev_phase evctl_tab ev = EV_PHASE_FIRST ||| EV_PHASE_NEXT) ∧
    (ev.cmd = EV_BEND → ev.v0 = 0x2000 → ev_phase evctl_tab ev = EV_PHASE_LAST) ∧
    (ev.cmd = EV_XCTL → (evctl_tab ev.v0).defval = EV_UNDEF →
      ev_phase evctl_tab ev = EV_PHASE_FIRST ||| EV_PHASE_LAST) ∧
    (ev.cmd = EV_XCTL → (evctl_tab ev.v0).defval ≠ EV_UNDEF →
      ev.v1 ≠ (evctl_tab ev.v0).defval →
      ev_phase evctl_tab ev = EV_PHASE_FIRST ||| EV_PHASE_NEXT) ∧
    (ev.cmd = EV_XCTL → (evctl_tab ev.v0).defval ≠ EV_UNDEF →
      ev.v1 = (evctl_tab ev.v0).defval → ev_phase evctl_tab ev = EV_PHASE_LAST) ∧
    (ev.cmd ≠ EV_NON → ev.cmd ≠ EV_NOFF → ev.cmd ≠ EV_KAT → ev.cmd ≠ EV_CAT →
      ev.cmd ≠ EV_BEND → ev.cmd ≠ EV_XCTL →
      ev_phase evctl_tab ev = EV_PHASE_FIRST ||| EV_PHASE_LAST) ∧
    ((ev.cmd = EV_NRPN ∨ ev.cmd = EV_RPN ∨ ev.cmd = EV_XPC ∨ ev.cmd = EV_CTL ∨
        ev.cmd = EV_PC ∨ ev.cmd = EV_TEMPO ∨ ev.cmd = EV_TIMESIG ∨ ev.cmd = EV_NULL) →
      ev_phase evctl_tab ev = EV_PHASE_FIRST ||| EV_PHASE_LAST) := by
  have hother : ev.cmd ≠ EV_NON → ev.cmd ≠ EV_NOFF → ev.cmd ≠ EV_KAT → ev.cmd ≠ EV_CAT →
      ev.cmd ≠ EV_BEND → ev.cmd ≠ EV_XCTL →
      ev_phase evctl_tab ev = EV_PHASE_FIRST ||| EV_PHASE_LAST := by
    intro h1 h2 h3 h4 h5 h6
    rw [ev_phase, if_neg h2, if_neg h1, if_neg h3, if_neg h4, if_neg h6, if_neg h5]
  refine ⟨?_, ?_, ?_, ?_, ?_, ?_, ?_, ?_, ?_, ?_, hother, ?_⟩
  · intro h
    rw [ev_phase, if_neg (by rw [h]; decide), if_pos h]
  · intro h
    rw [ev_phase, if_pos h]
  · intro h
    rw [ev_phase, if_neg (by rw [h]; decide), if_neg (by rw [h]; decide), if_pos h]
  · intro h hv
    rw [ev_phase, if_neg (by rw [h]; decide), if_neg (by rw [h]; decide),
      if_neg (by rw [h]; decide), if_pos h, if_pos (show ev.v0 ≠ EV_CAT_DEFAULT from hv)]
  · intro h hv
    rw [ev_phase, if_neg (by rw [h]; decide), if_neg (by rw [h]; decide),
      if_neg (by rw [h]; decide), if_pos h, if_neg (by simp [hv])]
  · intro h hv
    rw [ev_phase, if_neg (by rw [h]; decide), if_neg (by rw [h]; decide),
      if_neg (by rw [h]; decide), if_neg (by rw [h]; decide), if_neg (by rw [h]; decide),
      if_pos h, if_pos (show ev.v0 ≠ EV_BEND_DEFAULT from hv)]
  · intro h hv
    rw [ev_phase, if_neg (by rw [h]; decide), if_neg (by rw [h]; decide),
      if_neg (by rw [h]; decide), if_neg (by rw [h]; decide), if_neg (by rw [h]; decide),
      if_pos h, if_neg (by simp [hv])]
  · intro h hd
    rw [ev_phase, if_neg (by rw [h]; decide), if_neg (by rw [h]; decide),
      if_neg (by rw [h]; decide), if_neg (by rw [h]; decide), if_pos h,
      if_pos (by simp [EV_CTL_ISFRAME, hd])]
  · intro h hd hv
    rw [ev_phase, if_neg (by rw [h]; decide), if_neg (by rw [h]; decide),
      if_neg (by rw [h]; decide), if_neg (by rw [h]; decide), if_pos h,
      if_neg (by simpa [EV_CTL_ISFRAME] using hd), if_pos (by simpa [EV_CTL_DEFVAL] using hv)]
  · intro h hd hv
    rw [ev_phase, if_neg (by rw [h]; decide), if_neg (by rw [h]; decide),
      if_neg (by rw [h]; decide), if_neg (by rw [h]; decide), if_pos h,
      if_neg (by simpa [EV_CTL_ISFRAME] using hd), if_neg (by simp [EV_CTL_DEFVAL, hv])]
  · intro h
    apply hother <;> (rcases h with h | h | h | h | h | h | h | h <;> (rw [h]; decide))

/-- Witness for C22 on the registry of `evctl_init` (controller 1 has the
default 0, the others none): a note-on, a resting modulation wheel, a moving
one, and a volume controller. -/
theorem C22_phase_table_witness :
    ev_phase (fun i => if i = 1 then ⟨some "mod", 0⟩ else ⟨none, EV_UNDEF⟩)
        ⟨EV_NON, 0, 0, 60, 100⟩ = 1 ∧
    ev_phase (fun i => if i = 1 then ⟨some "mod", 0⟩ else ⟨none, EV_UNDEF⟩)
        (mkXCTL 0 0 1 0) = 4 ∧
    ev_phase (fun i => if i = 1 then ⟨some "mod", 0⟩ else ⟨none, EV_UNDEF⟩)
        (mkXCTL 0 0 1 5) = 3 ∧
    ev_phase (fun i => if i = 1 then ⟨some "mod", 0⟩ else ⟨none, EV_UNDEF⟩)
        (mkXCTL 0 0 7 5) = 5 :=
  ⟨(C22_phase_table _ ⟨EV_NON, 0, 0, 60, 100⟩).1 rfl,
   (C22_phase_table _ (mkXCTL 0 0 1 0)).2.2.2.2.2.2.2.2.2.1 rfl (by decide) (by decide),
   (C22_phase_table _ (mkXCTL 0 0 1 5)).2.2.2.2.2.2.2.2.1 rfl (by decide) (by decide),
   (C22_phase_table _ (mkXCTL 0 0 7 5)).2.2.2.2.2.2.2.1 rfl (by decide)⟩

/-- Claim C23: for every controller number n, `evctl_isreserved(n)` returns 1
if and only if n is one of 0, 6, 98, 99, 100, 101 or lies in 32..63 (which
covers bank-select low 32 and data-entry low 38), and returns 0 otherwise. -/
theorem C23_isreserved (n : Nat) :
    (evctl_isreserved n = 1 ↔
      (n = 0 ∨ n = 6 ∨ n = 98 ∨ n = 99 ∨ n = 100 ∨ n = 101 ∨ (32 ≤ n ∧ n ≤ 63))) ∧
    (¬ (n = 0 ∨ n = 6 ∨ n = 98 ∨ n = 99 ∨ n = 100 ∨ n = 101 ∨ (32 ≤ n ∧ n ≤ 63)) →
      evctl_isreserved n = 0) ∧
    evctl_isreserved 32 = 1 ∧ evctl_isreserved 38 = 1 := by
  refine ⟨?_, ?_, by decide, by decide⟩
  · unfold evctl_isreserved
    simp only [BANK_HI, DATAENT_HI, RPN_HI, RPN_LO, NRPN_HI, NRPN_LO]
    split_ifs with h
    · simp only [true_iff]
      omega
    · simp only [zero_ne_one, false_iff]
      omega
  · intro h
    unfold evctl_isreserved
    simp only [BANK_HI, DATAENT_HI, RPN_HI, RPN_LO, NRPN_HI, NRPN_LO]
    rw [if_neg]
    omega

/-! ## The controller registry -/

theorem lookup_loop_found (evctl_tab : Nat → Evctl) (name : String) :
    ∀ (n i j : Nat), i ≤ j → j < i + n → (evctl_tab j).name = some name →
      (∀ k, i ≤ k → k < j → (evctl_tab k).name ≠ some name) →
      evctl_lookup_loop evctl_tab name n i = some j := by
  intro n
  induction n with
  | zero => intro i j h1 h2; omega
  | succ n ih =>
    intro i j h1 h2 hj hfree
    by_cases hij : i = j
    · subst hij
      rw [evctl_lookup_loop, if_pos hj]
    · rw [evctl_lookup_loop, if_neg (hfree i (le_refl i) (by omega))]
      exact ih (i + 1) j (by omega) (by omega) hj
        (fun k hk1 hk2 => hfree k (by omega) hk2)

theorem lookup_loop_none (evctl_tab : Nat → Evctl) (name : String) :
    ∀ (n i : Nat), (∀ k, i ≤ k → k < i + n → (evctl_tab k).name ≠ some name) →
      evctl_lookup_loop evctl_tab name n i = none := by
  intro n
  induction n with
  | zero => intro i _; rfl
  | succ n ih =>
    intro i hfree
    rw [evctl_lookup_loop, if_neg (hfree i (le_refl i) (by omega))]
    exact ih (i + 1) (fun k hk1 hk2 => hfree k (by omega) (by omega))

theorem lookup_loop_some (evctl_tab : Nat → Evctl) (name : String) :
    ∀ (n i j : Nat), evctl_lookup_loop evctl_tab name n i = some j →
      (evctl_tab j).name = some name ∧ i ≤ j ∧ j < i + n := by
  intro n
  induction n with
  | zero => intro i j h; simp [evctl_lookup_loop] at h
  | succ n ih =>
    intro i j h
    rw [evctl_lookup_loop] at h
    by_cases hi : (evctl_tab i).name = some name
    · rw [if_pos hi] at h
      have hij : i = j := by simpa using h
      subst hij
      exact ⟨hi, le_refl i, by omega⟩
    · rw [if_neg hi] at h
      obtain ⟨h1, h2, h3⟩ := ih (i + 1) j h
      exact ⟨h1, by omega, by omega⟩

/-- Claim C24: registry consistency. On a table of 128 entries, for a
controller `num` below 128: after `evctl_conf(num, name, d)` with a non-null
name on a table in which no controller below `num` bears that name,
`evctl_lookup(name)` returns 1 with the result `num`, and the controller `num`
is a frame controller iff `d` is not UNDEF; after `evctl_unconf(num)` the
controller `num` has no name and the default UNDEF (it is parametric),
`evctl_lookup` never returns `num`, and every other entry is unchanged;
`evctl_lookup` returns 0, leaving the result untouched, when no entry bears the
name. -/
theorem C24_registry (evctl_tab : Nat → Evctl) (num : Nat) (name : String) (d ret : Nat)
    (hnum : num < 128) :
    ((∀ i, i < num → (evctl_tab i).name ≠ some name) →
      evctl_lookup (evctl_conf evctl_tab num (some name) d) name ret = (1, num)) ∧
    (∀ ev : Ev, ev.v0 = num →
      (EV_CTL_ISFRAME (evctl_conf evctl_tab num (some name) d) ev = true ↔ d ≠ EV_UNDEF)) ∧
    (evctl_unconf evctl_tab num num).name = none ∧
    (evctl_unconf evctl_tab num num).defval = EV_UNDEF ∧
    (∀ ev : Ev, ev.v0 = num → EV_CTL_ISPARAM (evctl_unconf evctl_tab num) ev = true) ∧
    (∀ nm r, evctl_lookup (evctl_unconf evctl_tab num) nm r ≠ (1, num)) ∧
    (∀ i, i ≠ num → evctl_unconf evctl_tab num i = evctl_tab i) ∧
    (∀ nm r, (∀ i, i < 128 → (evctl_tab i).name ≠ some nm) →
      evctl_lookup evctl_tab nm r = (0, r)) := by
  refine ⟨?_, ?_, ?_, ?_, ?_, ?_, ?_, ?_⟩
  · intro hfree
    have hl : evctl_lookup_loop (evctl_conf evctl_tab num (some name) d) name 128 0
        = some num := by
      apply lookup_loop_found _ _ 128 0 num (Nat.zero_le _) (by omega)
      · simp [evctl_conf]
      · intro k _ hk
        have hne : k ≠ num := by omega
        simp only [evctl_conf, if_neg hne]
        exact hfree k hk
    rw [evctl_lookup, hl]
  · intro ev hev
    simp [EV_CTL_ISFRAME, evctl_conf, hev]
  · simp [evctl_unconf]
  · simp [evctl_unconf]
  · intro ev hev
    simp [EV_CTL_ISPARAM, evctl_unconf, hev]
  · intro nm r h
    unfold evctl_lookup at h
    cases hl : evctl_lookup_loop (evctl_unconf evctl_tab num) nm 128 0 with
    | none =>
      rw [hl] at h
      simp at h
    | some j =>
      rw [hl] at h
      have hj : j = num := by simpa using h
      have hn := (lookup_loop_some _ _ 128 0 j hl).1
      rw [hj] at hn
      simp [evctl_unconf] at hn
  · intro i hi
    simp [evctl_unconf, hi]
  · intro nm r hfree
    have hl : evctl_lookup_loop evctl_tab nm 128 0 = none :=
      lookup_loop_none _ _ 128 0 (fun k _ hk => hfree k (by omega))
    rw [evctl_lookup, hl]

/-- Witness for C24 on the registry of `evctl_init` before its three
configurations: controller 7 is given the name "vol" and the default 0. -/
theorem C24_registry_witness :
    evctl_lookup (evctl_conf (fun _ => ⟨none, EV_UNDEF⟩) 7 (some "vol") 0) "vol" 0 = (1, 7) ∧
    EV_CTL_ISFRAME (evctl_conf (fun _ => ⟨none, EV_UNDEF⟩) 7 (some "vol") 0)
      (mkXCTL 0 0 7 5) = true ∧
    evctl_lookup (fun _ => ⟨none, EV_UNDEF⟩) "vol" 9 = (0, 9) :=
  ⟨(C24_registry (fun _ => ⟨none, EV_UNDEF⟩) 7 "vol" 0 0 (by decide)).1
      (fun _ _ => by simp),
   ((C24_registry (fun _ => ⟨none, EV_UNDEF⟩) 7 "vol" 0 0 (by decide)).2.1
      (mkXCTL 0 0 7 5) rfl).2 (by decide),
   (C24_registry (fun _ => ⟨none, EV_UNDEF⟩) 7 "vol" 0 0 (by decide)).2.2.2.2.2.2.2
      "vol" 9 (fun _ _ => by simp)⟩

/-! ## The list primitives of a track -/

theorem ins_at_spec (se : Seqev) : ∀ (evs : List Seqev) (eot : Seqev) (pos tic : Nat),
    pos ≤ evs.length →
    ∃ r p t, seqev_ins_at evs eot pos se = some r ∧
      (evs ++ [eot])[pos]? = some p ∧
      (track_ticks_loop tic (evs ++ [eot]))[pos]? = some (t, p.ev) ∧
      track_numtic_loop tic (r.1 ++ [r.2]) = track_numtic_loop tic (evs ++ [eot]) ∧
      track_ticks_loop tic (r.1 ++ [r.2]) =
        (track_ticks_loop tic (evs ++ [eot])).take pos ++
          (t, se.ev) :: (track_ticks_loop tic (evs ++ [eot])).drop pos ∧
      (r.1 ++ [r.2])[pos]? = some { se with delta := p.delta } ∧
      (r.1 ++ [r.2])[pos + 1]? = some { p with delta := 0 } := by
  intro evs
  induction evs with
  | nil =>
    intro eot pos tic h
    have hp : pos = 0 := by simpa using h
    subst hp
    refine ⟨_, eot, (tic + eot.delta) % 4294967296, rfl, rfl, rfl, ?_, ?_, rfl, rfl⟩
    · simp [track_numtic_loop]
    · simp [track_ticks_loop]
  | cons a rest ih =>
    intro eot pos tic h
    cases pos with
    | zero =>
      refine ⟨_, a, (tic + a.delta) % 4294967296, rfl, by simp, by simp [track_ticks_loop],
        ?_, ?_, by simp, by simp⟩
      · simp [track_numtic_loop]
      · simp [track_ticks_loop]
    | succ n =>
      obtain ⟨r, p, t, h1, h2, h3, h4, h5, h6, h7⟩ :=
        ih eot n ((tic + a.delta) % 4294967296) (by simpa using h)
      refine ⟨(a :: r.1, r.2), p, t, ?_, ?_, ?_, ?_, ?_, ?_, ?_⟩
      · simp [seqev_ins_at, h1]
      · simpa using h2
      · simpa [track_ticks_loop] using h3
      · simpa [track_numtic_loop] using h4
      · simp [track_ticks_loop, h5]
      · simpa using h6
      · simpa using h7

theorem rm_at_spec : ∀ (evs : List Seqev) (eot : Seqev) (pos tic : Nat),
    pos < evs.length →
    ∃ r, seqev_rm_at evs eot pos = some r ∧
      track_numtic_loop tic (r.1 ++ [r.2]) = track_numtic_loop tic (evs ++ [eot]) ∧
      track_ticks_loop tic (r.1 ++ [r.2]) =
        (track_ticks_loop tic (evs ++ [eot])).eraseIdx pos := by
  intro evs
  induction evs with
  | nil => intro eot pos tic h; simp at h
  | cons a rest ih =>
    intro eot pos tic h
    cases pos with
    | zero =>
      cases rest with
      | nil =>
        refine ⟨_, rfl, ?_, ?_⟩
        · simp only [track_numtic_loop, List.nil_append, List.cons_append]
          omega
        · simp only [track_ticks_loop, List.nil_append, List.cons_append, List.eraseIdx_cons_zero]
          have : (tic + (eot.delta + a.delta) % 4294967296) % 4294967296 =
            ((tic + a.delta) % 4294967296 + eot.delta) % 4294967296 := by omega
          rw [this]
      | cons b rest2 =>
        refine ⟨_, rfl, ?_, ?_⟩
        · simp only [track_numtic_loop, List.cons_append]
          have : (tic + (b.delta + a.delta) % 4294967296) % 4294967296 =
            ((tic + a.delta) % 4294967296 + b.delta) % 4294967296 := by omega
          rw [this]
        · simp only [track_ticks_loop, List.cons_append, List.eraseIdx_cons_zero]
          have : (tic + (b.delta + a.delta) % 4294967296) % 4294967296 =
            ((tic + a.delta) % 4294967296 + b.delta) % 4294967296 := by omega
          rw [this]
    | succ n =>
      obtain ⟨r, h1, h2, h3⟩ :=
        ih eot n ((tic + a.delta) % 4294967296) (by simpa using h)
      refine ⟨(a :: r.1, r.2), ?_, ?_, ?_⟩
      · cases rest with
        | nil => simp at h
        | cons b rest2 => simp [seqev_rm_at, h1]
      · simpa [track_numtic_loop] using h2
      · simp [track_ticks_loop, h3]

/-- Claim C25: delta sum and tick positions are preserved by the list
primitives. For every track and every position `pos` in it (`eot` included for
the insertion, excluded for the removal), `seqev_ins(pos, se)` and
`seqev_rm(pos)` leave `track_numtic` unchanged and leave the absolute tick of
every other event unchanged: the list of the (tick, event) pairs of the track
only gains the inserted event, immediately before `pos` and at the tick of
`pos`, or loses the removed one. The inserted node receives the former delta
of `pos`, and the delta of `pos` becomes 0. -/
theorem C25_delta_sum (o : Track) (pos : Nat) (se : Seqev) :
    (pos ≤ o.evs.length →
      ∃ o1 p t, seqev_ins o pos se = some o1 ∧
        (track_nodes o)[pos]? = some p ∧
        (track_ticks o)[pos]? = some (t, p.ev) ∧
        track_numtic o1 = track_numtic o ∧
        track_ticks o1 =
          (track_ticks o).take pos ++ (t, se.ev) :: (track_ticks o).drop pos ∧
        (track_nodes o1)[pos]? = some { se with delta := p.delta } ∧
        (track_nodes o1)[pos + 1]? = some { p with delta := 0 }) ∧
    (pos < o.evs.length →
      ∃ o1, seqev_rm o pos = some o1 ∧ track_numtic o1 = track_numtic o ∧
        track_ticks o1 = (track_ticks o).eraseIdx pos) := by
  constructor
  · intro h
    obtain ⟨r, p, t, h1, h2, h3, h4, h5, h6, h7⟩ := ins_at_spec se o.evs o.eot pos 0 h
    exact ⟨{ evs := r.1, eot := r.2 }, p, t, by simp [seqev_ins, h1], h2, h3, h4, h5, h6, h7⟩
  · intro h
    obtain ⟨r, h1, h2, h3⟩ := rm_at_spec o.evs o.eot pos 0 h
    exact ⟨{ evs := r.1, eot := r.2 }, by simp [seqev_rm, h1], h2, h3⟩

/-- Witness for C25: on the track of a note-on at tick 10 with 5 blank ticks
after it, an insertion before `eot` and the removal of the note-on. -/
theorem C25_delta_sum_witness :
    (∃ o1 p t,
      seqev_ins ⟨[⟨10, ⟨EV_NON, 0, 0, 60, 100⟩⟩], ⟨5, ⟨EV_NULL, 0, 0, 0, 0⟩⟩⟩ 1
          ⟨77, ⟨EV_NOFF, 0, 0, 60, 100⟩⟩ = some o1 ∧
        (track_nodes ⟨[⟨10, ⟨EV_NON, 0, 0, 60, 100⟩⟩], ⟨5, ⟨EV_NULL, 0, 0, 0, 0⟩⟩⟩)[1]?
          = some p ∧
        (track_ticks ⟨[⟨10, ⟨EV_NON, 0, 0, 60, 100⟩⟩], ⟨5, ⟨EV_NULL, 0, 0, 0, 0⟩⟩⟩)[1]?
          = some (t, p.ev) ∧
        track_numtic o1 =
          track_numtic ⟨[⟨10, ⟨EV_NON, 0, 0, 60, 100⟩⟩], ⟨5, ⟨EV_NULL, 0, 0, 0, 0⟩⟩⟩ ∧
        track_ticks o1 =
          (track_ticks ⟨[⟨10, ⟨EV_NON, 0, 0, 60, 100⟩⟩], ⟨5, ⟨EV_NULL, 0, 0, 0, 0⟩⟩⟩).take 1 ++
            (t, (⟨77, ⟨EV_NOFF, 0, 0, 60, 100⟩⟩ : Seqev).ev) ::
            (track_ticks ⟨[⟨10, ⟨EV_NON, 0, 0, 60, 100⟩⟩], ⟨5, ⟨EV_NULL, 0, 0, 0, 0⟩⟩⟩).drop 1 ∧
        (track_nodes o1)[1]? =
          some { (⟨77, ⟨EV_NOFF, 0, 0, 60, 100⟩⟩ : Seqev) with delta := p.delta } ∧
        (track_nodes o1)[1 + 1]? = some { p with delta := 0 }) ∧
    (∃ o1,
      seqev_rm ⟨[⟨10, ⟨EV_NON, 0, 0, 60, 100⟩⟩], ⟨5, ⟨EV_NULL, 0, 0, 0, 0⟩⟩⟩ 0 = some o1 ∧
        track_numtic o1 =
          track_numtic ⟨[⟨10, ⟨EV_NON, 0, 0, 60, 100⟩⟩], ⟨5, ⟨EV_NULL, 0, 0, 0, 0⟩⟩⟩ ∧
        track_ticks o1 =
          (track_ticks ⟨[⟨10, ⟨EV_NON, 0, 0, 60, 100⟩⟩],
            ⟨5, ⟨EV_NULL, 0, 0, 0, 0⟩⟩⟩).eraseIdx 0) :=
  ⟨(C25_delta_sum ⟨[⟨10, ⟨EV_NON, 0, 0, 60, 100⟩⟩], ⟨5, ⟨EV_NULL, 0, 0, 0, 0⟩⟩⟩ 1
      ⟨77, ⟨EV_NOFF, 0, 0, 60, 100⟩⟩).1 (by decide),
   (C25_delta_sum ⟨[⟨10, ⟨EV_NON, 0, 0, 60, 100⟩⟩], ⟨5, ⟨EV_NULL, 0, 0, 0, 0⟩⟩⟩ 0
      ⟨77, ⟨EV_NOFF, 0, 0, 60, 100⟩⟩).2 (by decide)⟩

/-! ## The end-of-track node -/

theorem ins_at_kinds (se : Seqev) : ∀ (evs : List Seqev) (eot : Seqev) (pos : Nat)
    (r : List Seqev × Seqev), seqev_ins_at evs eot pos se = some r →
    r.2.ev = eot.ev ∧ ∀ s ∈ r.1, s.ev = se.ev ∨ ∃ s1 ∈ evs, s.ev = s1.ev := by
  intro evs
  induction evs with
  | nil =>
    intro eot pos r h
    cases pos with
    | zero =>
      simp only [seqev_ins_at, Option.some.injEq] at h
      subst h
      simp
    | succ n => simp [seqev_ins_at] at h
  | cons a rest ih =>
    intro eot pos r h
    cases pos with
    | zero =>
      simp only [seqev_ins_at, Option.some.injEq] at h
      subst h
      refine ⟨rfl, ?_⟩
      intro s hs
      simp only [List.mem_cons] at hs
      rcases hs with hs | hs | hs
      · left; rw [hs]
      · right; exact ⟨a, by simp, by rw [hs]⟩
      · right; exact ⟨s, by simp [hs], rfl⟩
    | succ n =>
      rw [seqev_ins_at] at h
      cases hr : seqev_ins_at rest eot n se with
      | none => rw [hr] at h; simp at h
      | some r1 =>
        rw [hr] at h
        simp only [Option.some.injEq] at h
        subst h
        obtain ⟨h1, h2⟩ := ih eot n r1 hr
        refine ⟨h1, ?_⟩
        intro s hs
        simp only [List.mem_cons] at hs
        rcases hs with hs | hs
        · right; exact ⟨a, by simp, by rw [hs]⟩
        · rcases h2 s hs with h3 | ⟨s1, hs1, h3⟩
          · left; exact h3
          · right; exact ⟨s1, by simp [hs1], h3⟩

theorem rm_at_kinds : ∀ (evs : List Seqev) (eot : Seqev) (pos : Nat)
    (r : List Seqev × Seqev), seqev_rm_at evs eot pos = some r →
    r.2.ev = eot.ev ∧ ∀ s ∈ r.1, ∃ s1 ∈ evs, s.ev = s1.ev := by
  intro evs
  induction evs with
  | nil => intro eot pos r h; simp [seqev_rm_at] at h
  | cons a rest ih =>
    intro eot pos r h
    cases pos with
    | zero =>
      cases rest with
      | nil =>
        simp only [seqev_rm_at, Option.some.injEq] at h
        subst h
        simp
      | cons b rest2 =>
        simp only [seqev_rm_at, Option.some.injEq] at h
        subst h
        refine ⟨rfl, ?_⟩
        intro s hs
        simp only [List.mem_cons] at hs
        rcases hs with hs | hs
        · exact ⟨b, by simp, by rw [hs]⟩
        · exact ⟨s, by simp [hs], rfl⟩
    | succ n =>
      have h0 : seqev_rm_at (a :: rest) eot (n + 1) =
          match seqev_rm_at rest eot n with
          | some r => some (a :: r.1, r.2)
          | none => none := by
        cases rest with
        | nil => simp [seqev_rm_at]
        | cons b rest2 => simp [seqev_rm_at]
      rw [h0] at h
      cases hr : seqev_rm_at rest eot n with
      | none => rw [hr] at h; simp at h
      | some r1 =>
        rw [hr] at h
        simp only [Option.some.injEq] at h
        subst h
        obtain ⟨h1, h2⟩ := ih eot n r1 hr
        refine ⟨h1, ?_⟩
        intro s hs
        simp only [List.mem_cons] at hs
        rcases hs with hs | hs
        · exact ⟨a, by simp, by rw [hs]⟩
        · obtain ⟨s1, hs1, h3⟩ := h2 s hs
          exact ⟨s1, by simp [hs1], h3⟩

theorem moveall_fst (dst src : Track) :
    (track_moveall dst src).1 =
      { evs := src.evs, eot := { dst.eot with delta := src.eot.delta } } := by
  unfold track_moveall track_clearall
  cases h : src.evs with
  | nil => simp
  | cons a rest => simp

theorem reachable_kinds (o : Track) (h : Reachable o) :
    o.eot.ev.cmd = EV_NULL ∧ ∀ s ∈ o.evs, s.ev.cmd ≠ EV_NULL := by
  induction h with
  | init o => simp [track_init]
  | ins o o1 pos se _ hse hins ih =>
    unfold seqev_ins at hins
    cases hr : seqev_ins_at o.evs o.eot pos se with
    | none => rw [hr] at hins; simp at hins
    | some r =>
      rw [hr] at hins
      simp only [Option.some.injEq] at hins
      subst hins
      obtain ⟨h1, h2⟩ := ins_at_kinds se o.evs o.eot pos r hr
      refine ⟨by show r.2.ev.cmd = EV_NULL; rw [h1]; exact ih.1, ?_⟩
      intro s hs
      rcases h2 s hs with h3 | ⟨s1, hs1, h3⟩
      · rw [h3]; exact hse
      · rw [h3]; exact ih.2 s1 hs1
  | rm o o1 pos _ hrm ih =>
    unfold seqev_rm at hrm
    cases hr : seqev_rm_at o.evs o.eot pos with
    | none => rw [hr] at hrm; simp at hrm
    | some r =>
      rw [hr] at hrm
      simp only [Option.some.injEq] at hrm
      subst hrm
      obtain ⟨h1, h2⟩ := rm_at_kinds o.evs o.eot pos r hr
      refine ⟨by show r.2.ev.cmd = EV_NULL; rw [h1]; exact ih.1, ?_⟩
      intro s hs
      obtain ⟨s1, hs1, h3⟩ := h2 s hs
      rw [h3]; exact ih.2 s1 hs1
  | clearall o _ ih =>
    exact ⟨ih.1, by simp [track_clearall]⟩
  | moveall_dst dst src _ _ ihd ihs =>
    rw [moveall_fst]
    exact ⟨ihd.1, ihs.2⟩
  | moveall_src dst src _ _ _ ihs =>
    exact ⟨ihs.1, by simp [track_moveall]⟩

theorem filter_nil_of_kinds (l : List Seqev) (h : ∀ s ∈ l, s.ev.cmd ≠ EV_NULL) :
    l.filter (fun s => s.ev.cmd == EV_NULL) = [] := by
  rw [List.filter_eq_nil_iff]
  intro s hs
  simpa using h s hs

/-- Claim C26: sentinel uniqueness. Every track reached from `track_init` by any
sequence of `seqev_ins` of events whose kind is not NIL, `seqev_rm`,
`track_clearall` and `track_moveall` contains exactly one node of kind NIL, and
it is the last node of the list, the node `eot` whose next link is null. -/
theorem C26_sentinel_unique (o : Track) (h : Reachable o) :
    count_nil o = 1 ∧
    (track_nodes o).getLast? = some o.eot ∧
    o.eot.ev.cmd = EV_NULL ∧
    (∀ s ∈ o.evs, s.ev.cmd ≠ EV_NULL) := by
  obtain ⟨h1, h2⟩ := reachable_kinds o h
  refine ⟨?_, by simp [track_nodes], h1, h2⟩
  unfold count_nil track_nodes
  rw [List.filter_append, filter_nil_of_kinds o.evs h2]
  simp [h1]

/-- Witness for C26: the track reached from `track_init` by the insertion of a
note-on before `eot`. -/
theorem C26_sentinel_unique_witness :
    count_nil ⟨[⟨0, ⟨EV_NON, 0, 0, 60, 100⟩⟩], ⟨0, ⟨EV_NULL, 0, 0, 0, 0⟩⟩⟩ = 1 ∧
    (track_nodes ⟨[⟨0, ⟨EV_NON, 0, 0, 60, 100⟩⟩], ⟨0, ⟨EV_NULL, 0, 0, 0, 0⟩⟩⟩).getLast? =
      some ⟨0, ⟨EV_NULL, 0, 0, 0, 0⟩⟩ ∧
    EV_NULL = EV_NULL ∧
    (∀ s ∈ [(⟨0, ⟨EV_NON, 0, 0, 60, 100⟩⟩ : Seqev)], s.ev.cmd ≠ EV_NULL) :=
  C26_sentinel_unique ⟨[⟨0, ⟨EV_NON, 0, 0, 60, 100⟩⟩], ⟨0, ⟨EV_NULL, 0, 0, 0, 0⟩⟩⟩
    (Reachable.ins (track_init ⟨[], ⟨9, ⟨EV_NON, 0, 0, 0, 0⟩⟩⟩) _ 0
      ⟨3, ⟨EV_NON, 0, 0, 60, 100⟩⟩ (Reachable.init _) (by decide) rfl)

/-! ## Whole-track transfer -/

theorem numtic_loop_append (e : Seqev) : ∀ (l : List Seqev) (t : Nat),
    track_numtic_loop t (l ++ [e]) = (track_numtic_loop t l + e.delta) % 4294967296 := by
  intro l
  induction l with
  | nil => intro t; rfl
  | cons a rest ih => intro t; simp [track_numtic_loop, ih]

/-- Claim C27: whole-track transfer. For every pair of distinct tracks `dst` and
`src`, after `track_moveall(dst, src)` the track `dst` holds exactly the former
events of `src` in their former order with their former deltas, and the former
end-of-track delta of `src` (so `track_numev` and `track_numtic` of `dst` equal
those `src` had), whatever `dst` held before, and `src` is empty (`track_numev`
and `track_numtic` are 0). -/
theorem C27_moveall (dst src : Track) :
    (track_moveall dst src).1.evs = src.evs ∧
    (track_moveall dst src).1.eot.delta = src.eot.delta ∧
    (track_moveall dst src).1.eot.ev = dst.eot.ev ∧
    track_numev (track_moveall dst src).1 = track_numev src ∧
    track_numtic (track_moveall dst src).1 = track_numtic src ∧
    track_ticks (track_moveall dst src).1 =
      track_ticks { src with eot := { src.eot with ev := dst.eot.ev } } ∧
    (track_moveall dst src).2.evs = [] ∧
    (track_moveall dst src).2.eot = { src.eot with delta := 0 } ∧
    track_numev (track_moveall dst src).2 = 0 ∧
    track_numtic (track_moveall dst src).2 = 0 := by
  rw [moveall_fst]
  refine ⟨rfl, rfl, rfl, rfl, ?_, rfl, rfl, rfl, rfl, rfl⟩
  simp only [track_numtic, track_nodes, numtic_loop_append]

/-! ## Range checks of the command layer -/

theorem list2chan_two_numbers (song_chanlookup : String → Option (Nat × Nat))
    (maxdev : Nat) (d c : Int) (dev ch : Nat) :
    (data_list2chan song_chanlookup maxdev (Data.list [Data.long d, Data.long c]) dev ch).1
        = 1 ∧
    (data_list2chan song_chanlookup maxdev (Data.list [Data.long d, Data.long c])
        dev ch).2.1 = to_unsigned d ∧
    (data_list2chan song_chanlookup maxdev (Data.list [Data.long d, Data.long c])
        dev ch).2.2.1 = to_unsigned c := by
  unfold data_list2chan
  simp only
  split_ifs <;> exact ⟨rfl, rfl, rfl⟩

/-- Claim C28, failing input: on the two-number list of device 0 and channel 16
`data_list2chan` prints that the ranges are bad and returns 1 with the channel
16, and on the list of device -1 and channel 0 it returns 1 with the device
4294967295; with `EV_MAXDEV` = 15. -/
theorem C28_range_check_failing :
    data_list2chan (fun _ => none) 15 (Data.list [Data.long 0, Data.long 16]) 0 0 =
      (1, 0, 16, ["bad dev/midichan ranges\n"]) ∧
    data_list2chan (fun _ => none) 15 (Data.list [Data.long (-1), Data.long 0]) 0 0 =
      (1, 4294967295, 0, ["bad dev/midichan ranges\n"]) := by
  constructor <;> rfl

theorem trackquant_high_rate_rejected (song_trklookup : String → Bool)
    (song_measuretotic : Int → Nat) (trkname : String) (frm amount quantum rate : Int)
    (hr : 100 < rate) :
    (user_func_trackquant song_trklookup song_measuretotic (some trkname) (some frm)
      (some amount) (some quantum) (some rate)).1 = 0 ∧
    (user_func_trackquant song_trklookup song_measuretotic (some trkname) (some frm)
      (some amount) (some quantum) (some rate)).2.1 = none := by
  unfold user_func_trackquant
  simp only
  split_ifs <;> exact ⟨rfl, rfl⟩

theorem trackquant_low_rate_delegates (song_trklookup : String → Bool)
    (song_measuretotic : Int → Nat) (trkname : String) (frm amount quantum rate : Int)
    (ht : song_trklookup trkname = true) (hr : rate ≤ 100) :
    ∃ c, user_func_trackquant song_trklookup song_measuretotic (some trkname) (some frm)
      (some amount) (some quantum) (some rate) = (1, some c, []) ∧
      c.rate = to_unsigned rate := by
  unfold user_func_trackquant
  simp only
  have h1 : ¬ (song_trklookup trkname = false) := by simp [ht]
  have h2 : ¬ (rate > 100) := by omega
  rw [if_neg h1, if_neg h2]
  split_ifs
  · exact ⟨_, rfl, rfl⟩
  · exact ⟨_, rfl, rfl⟩

/-- Claim C29, failing input: with an existing track, the measures 0 and 1 at
the ticks 0 and 96, the quantum 24 and the rate -1, `user_func_trackquant`
prints nothing, returns 1 and calls the quantize operation with the rate
4294967295. -/
theorem C29_rate_check_failing :
    user_func_trackquant (fun _ => true) (fun m => (96 * m).toNat) (some "t") (some 0)
        (some 1) (some 24) (some (-1)) =
      (1, some { trkname := "t", tic := 0, first := 0, len := 84, quantum := 24,
                 rate := 4294967295 }, []) := by
  decide

/-! ## Frame closure under the cut -/

theorem has_noff_append (n : Ev) (a b : List Ev) :
    has_noff n (a ++ b) = (has_noff n a || has_noff n b) := by
  simp [has_noff]

theorem open_notes_append : ∀ (a b : List Ev),
    open_notes (a ++ b) =
      (open_notes a).filter (fun e => !has_noff e b) ++ open_notes b := by
  intro a
  induction a with
  | nil => intro b; simp [open_notes]
  | cons e rest ih =>
    intro b
    rw [List.cons_append, open_notes, open_notes, ih b, has_noff_append]
    by_cases h1 : e.cmd = EV_NON
    · cases h2 : has_noff e rest <;> cases h3 : has_noff e b <;>
        simp [h1, h2, h3, List.filter_cons]
    · rw [if_neg (fun hc => h1 hc.1), if_neg (fun hc => h1 hc.1)]

theorem open_notes_mem : ∀ (l : List Ev) (x : Ev), x ∈ open_notes l → x ∈ l ∧ x.cmd = EV_NON := by
  intro l
  induction l with
  | nil => intro x h; simp [open_notes] at h
  | cons e rest ih =>
    intro x h
    rw [open_notes] at h
    split_ifs at h with hc
    · simp only [List.mem_cons] at h
      rcases h with h | h
      · subst h
        exact ⟨by simp, hc.1⟩
      · exact ⟨by simp [(ih x h).1], (ih x h).2⟩
    · exact ⟨by simp [(ih x h).1], (ih x h).2⟩

theorem open_notes_nil_of_kinds (l : List Ev) (h : ∀ e ∈ l, e.cmd ≠ EV_NON) :
    open_notes l = [] := by
  cases hl : open_notes l with
  | nil => rfl
  | cons x rest =>
    have hx : x ∈ open_notes l := by rw [hl]; simp
    obtain ⟨h1, h2⟩ := open_notes_mem l x hx
    exact absurd h2 (h x h1)

theorem closure_of_parts (P M Q : List Ev) (h : open_notes (P ++ M ++ Q) = []) :
    open_notes (P ++ (open_notes P).map synthetic_noff ++ open_notes (P ++ M) ++ Q) = [] := by
  rw [open_notes_append (P ++ M) Q] at h
  obtain ⟨h1, h2⟩ := List.append_eq_nil.mp h
  rw [List.filter_eq_nil_iff] at h1
  rw [List.append_assoc, List.append_assoc, open_notes_append P, open_notes_append _ (_ ++ Q),
    open_notes_append (open_notes (P ++ M)) Q, h2]
  have e1 : (open_notes P).filter (fun e => !has_noff e
      ((open_notes P).map synthetic_noff ++ (open_notes (P ++ M) ++ Q))) = [] := by
    rw [List.filter_eq_nil_iff]
    intro e he
    have : has_noff e ((open_notes P).map synthetic_noff) = true := by
      simp only [has_noff, List.any_eq_true]
      exact ⟨synthetic_noff e, List.mem_map_of_mem _ he, by simp [is_noff_of, synthetic_noff]⟩
    simp [has_noff_append, this]
  have e2 : open_notes ((open_notes P).map synthetic_noff) = [] := by
    apply open_notes_nil_of_kinds
    intro e he
    obtain ⟨x, _, hx⟩ := List.mem_map.mp he
    rw [← hx]
    simp [synthetic_noff]
  have e3 : (open_notes (open_notes (P ++ M))).filter (fun e => !has_noff e Q) = [] := by
    rw [List.filter_eq_nil_iff]
    intro e he
    exact h1 e (open_notes_mem _ e he).1
  rw [e1, e2, e3]
  simp

theorem walk_events : ∀ (l : List Seqev) (n : Nat) (eot : Seqev),
    (cut_walk n l eot).1.map (fun s => s.ev) ++ (cut_walk n l eot).2.2.1.map (fun s => s.ev) =
      l.map (fun s => s.ev) := by
  intro l
  induction l with
  | nil => intro n eot; rfl
  | cons p rest ih =>
    intro n eot
    rw [cut_walk]
    by_cases h : p.delta < n
    · simp only [if_pos h, List.map_cons, List.cons_append]
      rw [ih]
    · simp only [if_neg h, List.map_cons, List.map_nil, List.nil_append]

theorem put_events (gap : Nat) (es : List Ev) (post : List Seqev) (eot : Seqev) :
    (cut_put gap es post eot).1.map (fun s => s.ev) = es ++ post.map (fun s => s.ev) := by
  cases es with
  | nil =>
    cases post with
    | nil => rfl
    | cons q qs => simp [cut_put]
  | cons e es => simp [cut_put, Function.comp_def]

theorem framecut_events (o : Track) (start len : Nat) :
    track_events (track_framecut o start len) =
      (cut_walk start o.evs o.eot).1.map (fun s => s.ev) ++
        (open_notes ((cut_walk start o.evs o.eot).1.map (fun s => s.ev))).map synthetic_noff ++
        open_notes ((cut_walk start o.evs o.eot).1.map (fun s => s.ev) ++
          (cut_walk len (cut_walk start o.evs o.eot).2.2.1
            (cut_walk start o.evs o.eot).2.2.2).1.map (fun s => s.ev)) ++
        (cut_walk len (cut_walk start o.evs o.eot).2.2.1
          (cut_walk start o.evs o.eot).2.2.2).2.2.1.map (fun s => s.ev) := by
  simp only [track_events, track_framecut, List.map_append, put_events, cut_synthetic,
    List.append_assoc]

theorem framecut_closed (o : Track) (start len : Nat) (h : notes_closed (track_events o)) :
    notes_closed (track_events (track_framecut o start len)) := by
  unfold notes_closed at h ⊢
  rw [framecut_events]
  apply closure_of_parts
  rw [List.append_assoc, walk_events, walk_events]
  exact h

/-- The ticks of a list of nodes, as a plain sum. -/
theorem numtic_loop_sum : ∀ (l : List Seqev) (a : Nat), a < 4294967296 →
    track_numtic_loop a l = (a + (l.map (fun s => s.delta)).sum) % 4294967296 := by
  intro l
  induction l with
  | nil =>
    intro a ha
    simp only [track_numtic_loop, List.map_nil, List.sum_nil]
    omega
  | cons p rest ih =>
    intro a _
    simp only [track_numtic_loop, List.map_cons, List.sum_cons]
    rw [ih _ (Nat.mod_lt _ (by decide))]
    omega

theorem walk_sums : ∀ (l : List Seqev) (n : Nat) (eot : Seqev),
    ((cut_walk n l eot).1.map (fun s => s.delta)).sum + (cut_walk n l eot).2.1 =
      min n ((l.map (fun s => s.delta)).sum + eot.delta) ∧
    ((cut_walk n l eot).2.2.1.map (fun s => s.delta)).sum + (cut_walk n l eot).2.2.2.delta =
      (l.map (fun s => s.delta)).sum + eot.delta -
        min n ((l.map (fun s => s.delta)).sum + eot.delta) := by
  intro l
  induction l with
  | nil =>
    intro n eot
    simp only [cut_walk, List.map_nil, List.sum_nil]
    omega
  | cons p rest ih =>
    intro n eot
    rw [cut_walk]
    by_cases h : p.delta < n
    · obtain ⟨h1, h2⟩ := ih (n - p.delta) eot
      simp only [if_pos h, List.map_cons, List.sum_cons]
      omega
    · simp only [if_neg h, List.map_cons, List.sum_cons, List.map_nil, List.sum_nil]
      omega

theorem put_sums (gap : Nat) (es : List Ev) (post : List Seqev) (eot : Seqev) :
    ((cut_put gap es post eot).1.map (fun s => s.delta)).sum + (cut_put gap es post eot).2.delta =
      gap + (post.map (fun s => s.delta)).sum + eot.delta := by
  cases es with
  | nil =>
    cases post with
    | nil => simp [cut_put]; omega
    | cons q qs => simp [cut_put]; omega
  | cons e es =>
    have hz : ((es.map (fun x => ({ delta := 0, ev := x } : Seqev))).map
        (fun s => s.delta)).sum = 0 := by
      induction es with
      | nil => rfl
      | cons y ys ihy => simpa using ihy
    simp only [cut_put, List.map_cons, List.map_append, List.sum_cons, List.sum_append, hz]
    omega

theorem framecut_numtic (o : Track) (start len : Nat)
    (hfit : ((track_nodes o).map (fun s => s.delta)).sum < 4294967296) :
    track_numtic (track_framecut o start len) =
      track_numtic o - min len (track_numtic o - min start (track_numtic o)) := by
  have hsum : ((track_nodes o).map (fun s => s.delta)).sum =
      (o.evs.map (fun s => s.delta)).sum + o.eot.delta := by
    simp [track_nodes, List.map_append, List.sum_append]
  rw [hsum] at hfit
  have hL : track_numtic o = (o.evs.map (fun s => s.delta)).sum + o.eot.delta := by
    rw [track_numtic, numtic_loop_sum _ 0 (by decide), hsum]
    omega
  obtain ⟨a1, a2⟩ := walk_sums o.evs start o.eot
  obtain ⟨b1, b2⟩ := walk_sums (cut_walk start o.evs o.eot).2.2.1 len
    (cut_walk start o.evs o.eot).2.2.2
  have hp := put_sums (cut_walk start o.evs o.eot).2.1
    (cut_synthetic ((cut_walk start o.evs o.eot).1.map (fun s => s.ev))
      ((cut_walk len (cut_walk start o.evs o.eot).2.2.1
        (cut_walk start o.evs o.eot).2.2.2).1.map (fun s => s.ev)))
    (cut_walk len (cut_walk start o.evs o.eot).2.2.1 (cut_walk start o.evs o.eot).2.2.2).2.2.1
    (cut_walk len (cut_walk start o.evs o.eot).2.2.1 (cut_walk start o.evs o.eot).2.2.2).2.2.2
  rw [track_numtic, numtic_loop_sum _ 0 (by decide), hL]
  simp only [track_nodes, track_framecut, List.map_append, List.sum_append, List.map_cons,
    List.map_nil, List.sum_cons, List.sum_nil]
  omega

/-- Claim C30: frame closure under cut. For every track in which every NON has
a matching later NOFF on the same device, channel and key, and every tick
window [start, start+len), after the cut no NON remains without a matching
later NOFF, and the track is shorter by the ticks removed: by the ticks of the
window that lie in the track, which are `len` ticks when the window lies in the
track (the deltas of the track summing to less than 2^32). For the track
NON(60,100) at tick 0, NOFF(60,64) at tick 48, with a tail that reaches the
end of the window, the cut of [24, 72) yields NON(60,100) at tick 0, a
synthetic NOFF(60,100) at tick 24 and no event after it, the track being 48
ticks shorter; the tail is empty when the track ends with the window. -/
theorem C30_frame_closure (o : Track) (start len : Nat)
    (hclosed : notes_closed (track_events o)) :
    notes_closed (track_events (track_framecut o start len)) ∧
    (((track_nodes o).map (fun s => s.delta)).sum < 4294967296 →
      track_numtic (track_framecut o start len) =
        track_numtic o - min len (track_numtic o - min start (track_numtic o))) ∧
    (((track_nodes o).map (fun s => s.delta)).sum < 4294967296 →
      start + len ≤ track_numtic o →
      track_numtic (track_framecut o start len) + len = track_numtic o) ∧
    (∀ d : Nat, 24 ≤ d →
      track_framecut ⟨[⟨0, ⟨EV_NON, 0, 0, 60, 100⟩⟩, ⟨48, ⟨EV_NOFF, 0, 0, 60, 64⟩⟩],
          ⟨d, ⟨EV_NULL, 0, 0, 0, 0⟩⟩⟩ 24 48 =
        ⟨[⟨0, ⟨EV_NON, 0, 0, 60, 100⟩⟩, ⟨24, ⟨EV_NOFF, 0, 0, 60, 100⟩⟩],
          ⟨d - 24, ⟨EV_NULL, 0, 0, 0, 0⟩⟩⟩) ∧
    track_framecut ⟨[⟨0, ⟨EV_NON, 0, 0, 60, 100⟩⟩, ⟨48, ⟨EV_NOFF, 0, 0, 60, 64⟩⟩],
        ⟨24, ⟨EV_NULL, 0, 0, 0, 0⟩⟩⟩ 24 48 =
      ⟨[⟨0, ⟨EV_NON, 0, 0, 60, 100⟩⟩, ⟨24, ⟨EV_NOFF, 0, 0, 60, 100⟩⟩],
        ⟨0, ⟨EV_NULL, 0, 0, 0, 0⟩⟩⟩ ∧
    track_numtic (track_framecut
        ⟨[⟨0, ⟨EV_NON, 0, 0, 60, 100⟩⟩, ⟨48, ⟨EV_NOFF, 0, 0, 60, 64⟩⟩],
          ⟨24, ⟨EV_NULL, 0, 0, 0, 0⟩⟩⟩ 24 48) + 48 =
      track_numtic ⟨[⟨0, ⟨EV_NON, 0, 0, 60, 100⟩⟩, ⟨48, ⟨EV_NOFF, 0, 0, 60, 64⟩⟩],
        ⟨24, ⟨EV_NULL, 0, 0, 0, 0⟩⟩⟩ := by
  refine ⟨framecut_closed o start len hclosed, framecut_numtic o start len, ?_, ?_,
    by decide, by decide⟩
  · intro hfit hwin
    rw [framecut_numtic o start len hfit]
    omega
  · intro d hd
    have h1 : ¬ d < 24 := by omega
    simp [track_framecut, cut_walk, cut_put, cut_synthetic, open_notes, has_noff, is_noff_of,
      synthetic_noff, h1]

/-- Witness for C30: a note that straddles both boundaries of the window
[24, 48) is closed at tick 24 and reopened there, and the track of 96 ticks is
24 ticks shorter. -/
theorem C30_frame_closure_witness :
    notes_closed (track_events (track_framecut
      ⟨[⟨0, ⟨EV_NON, 0, 0, 60, 100⟩⟩, ⟨96, ⟨EV_NOFF, 0, 0, 60, 64⟩⟩],
        ⟨0, ⟨EV_NULL, 0, 0, 0, 0⟩⟩⟩ 24 24)) ∧
    track_numtic (track_framecut
      ⟨[⟨0, ⟨EV_NON, 0, 0, 60, 100⟩⟩, ⟨96, ⟨EV_NOFF, 0, 0, 60, 64⟩⟩],
        ⟨0, ⟨EV_NULL, 0, 0, 0, 0⟩⟩⟩ 24 24) + 24 =
      track_numtic ⟨[⟨0, ⟨EV_NON, 0, 0, 60, 100⟩⟩, ⟨96, ⟨EV_NOFF, 0, 0, 60, 64⟩⟩],
        ⟨0, ⟨EV_NULL, 0, 0, 0, 0⟩⟩⟩ :=
  ⟨(C30_frame_closure ⟨[⟨0, ⟨EV_NON, 0, 0, 60, 100⟩⟩, ⟨96, ⟨EV_NOFF, 0, 0, 60, 64⟩⟩],
      ⟨0, ⟨EV_NULL, 0, 0, 0, 0⟩⟩⟩ 24 24 (by decide)).1,
   (C30_frame_closure ⟨[⟨0, ⟨EV_NON, 0, 0, 60, 100⟩⟩, ⟨96, ⟨EV_NOFF, 0, 0, 60, 64⟩⟩],
      ⟨0, ⟨EV_NULL, 0, 0, 0, 0⟩⟩⟩ 24 24 (by decide)).2.2.1 (by decide) (by decide)⟩

/-! ## Quantize displacement -/

theorem quantize_delta_bound (t offset quantum : Int) (hq : 0 < quantum) :
    -quantum < 2 * quantize_delta t offset quantum ∧
    2 * quantize_delta t offset quantum ≤ quantum := by
  unfold quantize_delta quantize_round
  have h1 := Int.ediv_add_emod (2 * (t - offset) + quantum) (2 * quantum)
  have h2 := Int.emod_nonneg (2 * (t - offset) + quantum) (by omega : (2 * quantum) ≠ 0)
  have h3 := Int.emod_lt_of_pos (2 * (t - offset) + quantum) (by omega : 0 < 2 * quantum)
  constructor <;> nlinarith

/-- Claim C31: quantize displacement. For every tick t, offset and quantum > 0,
quantization moves the event by
round((t - offset)/quantum)*quantum - (t - offset) scaled by rate/100: at rate
100 the event lands on offset plus the multiple of quantum nearest to
t - offset (at most quantum/2 away from its place), at rate 0 it stays, and at
every rate from 0 to 100 it moves towards that multiple and not beyond. With
quantum 24 and offset 0, at rate 100 tick 10 goes to 0 and tick 13 to 24, at
rate 50 tick 10 goes to 5 and tick 13 to 18. -/
theorem C31_quantize_displacement (t offset quantum : Int) (hq : 0 < quantum) :
    quantize_tick t offset quantum 100 = offset + quantize_round t offset quantum * quantum ∧
    2 * |quantize_tick t offset quantum 100 - t| ≤ quantum ∧
    (∀ k : Int, |quantize_tick t offset quantum 100 - t| ≤ |offset + k * quantum - t|) ∧
    quantize_tick t offset quantum 0 = t ∧
    (∀ rate : Int, 0 ≤ rate → rate ≤ 100 →
      |quantize_tick t offset quantum rate - t| ≤ |quantize_delta t offset quantum| ∧
      0 ≤ (quantize_tick t offset quantum rate - t) * quantize_delta t offset quantum) ∧
    quantize_tick 10 0 24 100 = 0 ∧ quantize_tick 13 0 24 100 = 24 ∧
    quantize_tick 10 0 24 50 = 5 ∧ quantize_tick 13 0 24 50 = 18 := by
  have hfull : quantize_tick t offset quantum 100 = t + quantize_delta t offset quantum := by
    unfold quantize_tick
    rw [Int.mul_tdiv_cancel _ (by decide)]
  obtain ⟨hb1, hb2⟩ := quantize_delta_bound t offset quantum hq
  have habs : 2 * |quantize_delta t offset quantum| ≤ quantum := by
    rcases abs_cases (quantize_delta t offset quantum) with ⟨h, _⟩ | ⟨h, _⟩ <;> rw [h] <;> omega
  refine ⟨?_, ?_, ?_, ?_, ?_, by decide, by decide, by decide, by decide⟩
  · rw [hfull]
    unfold quantize_delta
    ring
  · rw [hfull, add_sub_cancel_left]
    exact habs
  · intro k
    rw [hfull, add_sub_cancel_left]
    have hd : quantize_delta t offset quantum =
        quantize_round t offset quantum * quantum - (t - offset) := rfl
    by_cases hk : k = quantize_round t offset quantum
    · rw [hk, hd]
      apply le_of_eq
      congr 1
      ring
    · have hstep : quantum ≤ |(k - quantize_round t offset quantum) * quantum| := by
        rw [abs_mul, abs_of_pos hq]
        have : 1 ≤ |k - quantize_round t offset quantum| := Int.one_le_abs (by omega)
        nlinarith
      have hsplit : offset + k * quantum - t =
          (k - quantize_round t offset quantum) * quantum + quantize_delta t offset quantum := by
        rw [hd]; ring
      rw [hsplit]
      generalize (k - quantize_round t offset quantum) * quantum = A at hstep ⊢
      generalize quantize_delta t offset quantum = D at habs ⊢
      rcases abs_cases A with ⟨hA, _⟩ | ⟨hA, _⟩ <;>
        rcases abs_cases D with ⟨hD, _⟩ | ⟨hD, _⟩ <;>
        rcases abs_cases (A + D) with ⟨hS, _⟩ | ⟨hS, _⟩ <;>
        rw [hD, hS] <;> rw [hA] at hstep <;> rw [hD] at habs <;> omega
  · unfold quantize_tick
    rw [mul_zero, Int.zero_tdiv, add_zero]
  · intro rate hr0 hr1
    unfold quantize_tick
    rw [add_sub_cancel_left]
    rcases le_total 0 (quantize_delta t offset quantum) with hd | hd
    · have hnn : 0 ≤ quantize_delta t offset quantum * rate := mul_nonneg hd hr0
      rw [Int.tdiv_eq_ediv hnn (by decide)]
      have h1 : 0 ≤ quantize_delta t offset quantum * rate / 100 :=
        Int.ediv_nonneg hnn (by decide)
      have h2 : quantize_delta t offset quantum * rate / 100 ≤ quantize_delta t offset quantum := by
        apply Int.ediv_le_of_le_mul (by decide)
        nlinarith
      rw [abs_of_nonneg h1, abs_of_nonneg hd]
      exact ⟨h2, mul_nonneg h1 hd⟩
    · have hneg : (quantize_delta t offset quantum * rate).tdiv 100 =
          -((-quantize_delta t offset quantum * rate) / 100) := by
        have hnn : 0 ≤ -quantize_delta t offset quantum * rate :=
          mul_nonneg (by omega) hr0
        rw [← Int.tdiv_eq_ediv hnn (by decide), ← Int.neg_tdiv, neg_mul, neg_neg]
      rw [hneg]
      have hnn : 0 ≤ -quantize_delta t offset quantum * rate := mul_nonneg (by omega) hr0
      have h1 : 0 ≤ -quantize_delta t offset quantum * rate / 100 :=
        Int.ediv_nonneg hnn (by decide)
      have h2 : -quantize_delta t offset quantum * rate / 100 ≤
          -quantize_delta t offset quantum := by
        apply Int.ediv_le_of_le_mul (by decide)
        nlinarith
      rw [abs_neg, abs_of_nonneg h1, abs_of_nonpos hd]
      exact ⟨h2, by nlinarith⟩

/-- Witness for C31: the ticks 13 and 10 with the quantum 24 and the offset 0. -/
theorem C31_quantize_displacement_witness :
    quantize_tick 13 0 24 100 = 0 + quantize_round 13 0 24 * 24 ∧
    2 * |quantize_tick 10 0 24 100 - 10| ≤ 24 ∧
    quantize_tick 13 0 24 0 = 13 :=
  ⟨(C31_quantize_displacement 13 0 24 (by decide)).1,
   (C31_quantize_displacement 10 0 24 (by decide)).2.1,
   (C31_quantize_displacement 13 0 24 (by decide)).2.2.2.1⟩

/-! ## The state list as a map -/

/-- Claim C33: state-list map laws. On a state list with at most one entry per
(device, channel, controller number): after `conv_setctl(S, ev)` the lookup
`conv_getctl(S, ev, ev.ctl_num)` returns `ev.ctl_val`, and after
`conv_rmctl(S, ev, num)` the lookup `conv_getctl(S, ev, num)` returns UNDEF; in
both cases the lookup of every other (device, channel, controller number) is
unchanged, and the list still has at most one entry per key. The lookup
`conv_getctx(S, ev, hi, lo)` returns the value of lo + (the value of hi << 7),
the unsigned sum of the source, which is the exact sum for 7-bit values, when
both are recorded, and UNDEF when either is missing. -/
theorem C33_map_laws (S : List Ev) (ev : Ev) (num : Nat) (hu : keys_unique S) :
    conv_getctl (conv_setctl S ev) ev ev.v0 = ev.v1 ∧
    conv_getctl (conv_rmctl S ev num) ev num = EV_UNDEF ∧
    (∀ (e : Ev) (k : Nat), ¬ (k = ev.v0 ∧ e.ch = ev.ch ∧ e.dev = ev.dev) →
      conv_getctl (conv_setctl S ev) e k = conv_getctl S e k) ∧
    (∀ (e : Ev) (k : Nat), ¬ (k = num ∧ e.ch = ev.ch ∧ e.dev = ev.dev) →
      conv_getctl (conv_rmctl S ev num) e k = conv_getctl S e k) ∧
    keys_unique (conv_setctl S ev) ∧ keys_unique (conv_rmctl S ev num) ∧
    (∀ hi lo : Nat, conv_getctl S ev hi ≠ EV_UNDEF → conv_getctl S ev lo ≠ EV_UNDEF →
      conv_getctx S ev hi lo =
        (conv_getctl S ev lo + (conv_getctl S ev hi <<< 7) % 4294967296) % 4294967296) ∧
    (∀ hi lo : Nat, conv_getctl S ev hi ≤ 127 → conv_getctl S ev lo ≤ 127 →
      conv_getctx S ev hi lo = conv_getctl S ev lo + (conv_getctl S ev hi <<< 7)) ∧
    (∀ hi lo : Nat, conv_getctl S ev hi = EV_UNDEF ∨ conv_getctl S ev lo = EV_UNDEF →
      conv_getctx S ev hi lo = EV_UNDEF) ∧
    (∀ hi lo : Nat, absent S ev.dev ev.ch hi ∨ absent S ev.dev ev.ch lo →
      conv_getctx S ev hi lo = EV_UNDEF) := by
  have hud : ∀ hi lo : Nat, conv_getctl S ev hi = EV_UNDEF ∨ conv_getctl S ev lo = EV_UNDEF →
      conv_getctx S ev hi lo = EV_UNDEF := by
    intro hi lo h
    unfold conv_getctx
    simp only
    by_cases hlo : conv_getctl S ev lo = EV_UNDEF
    · rw [if_pos hlo]
    · rw [if_neg hlo]
      rcases h with h | h
      · rw [if_pos h]
      · exact absurd h hlo
  refine ⟨?_, ?_, ?_, ?_, keys_unique_setctl S ev hu, keys_unique_rmctl S ev num hu,
    ?_, ?_, hud, ?_⟩
  · rw [getctl_setctl, if_pos ⟨rfl, rfl, rfl⟩]
  · exact getctl_of_absent _ ev num (absent_after_rmctl S ev num hu)
  · intro e k hne
    rw [getctl_setctl, if_neg]
    rintro ⟨h1, h2, h3⟩
    exact hne ⟨h1.symm, h2.symm, h3.symm⟩
  · intro e k hne
    apply getctl_rmctl_ne
    rintro ⟨h1, h2, h3⟩
    exact hne ⟨h1.symm, h2.symm, h3.symm⟩
  · intro hi lo hhi hlo
    unfold conv_getctx
    simp only
    rw [if_neg hlo, if_neg hhi]
  · intro hi lo hhi hlo
    unfold conv_getctx
    simp only [EV_UNDEF, shl7]
    rw [if_neg (by omega), if_neg (by omega)]
    omega
  · intro hi lo h
    apply hud
    rcases h with h | h
    · exact Or.inl (getctl_of_absent S ev hi h)
    · exact Or.inr (getctl_of_absent S ev lo h)

/-- Witness for C33: a list of three states with distinct keys. -/
theorem C33_map_laws_witness :
    conv_getctl (conv_setctl [mkCTL 0 0 32 2, mkCTL 0 0 0 1, mkCTL 0 1 0 1] (mkCTL 0 0 0 7))
      (mkCTL 0 0 0 7) 0 = 7 ∧
    conv_getctl (conv_rmctl [mkCTL 0 0 32 2, mkCTL 0 0 0 1, mkCTL 0 1 0 1] (mkCTL 0 0 0 7) 32)
      (mkCTL 0 0 0 7) 32 = EV_UNDEF ∧
    conv_getctx [mkCTL 0 0 32 2, mkCTL 0 0 0 1, mkCTL 0 1 0 1] (mkCTL 0 0 0 7) 0 32 =
      conv_getctl [mkCTL 0 0 32 2, mkCTL 0 0 0 1, mkCTL 0 1 0 1] (mkCTL 0 0 0 7) 32 +
        (conv_getctl [mkCTL 0 0 32 2, mkCTL 0 0 0 1, mkCTL 0 1 0 1] (mkCTL 0 0 0 7) 0 <<< 7) :=
  ⟨(C33_map_laws [mkCTL 0 0 32 2, mkCTL 0 0 0 1, mkCTL 0 1 0 1] (mkCTL 0 0 0 7) 32
      (by simp [keys_unique, same_key, mkCTL])).1,
   (C33_map_laws [mkCTL 0 0 32 2, mkCTL 0 0 0 1, mkCTL 0 1 0 1] (mkCTL 0 0 0 7) 32
      (by simp [keys_unique, same_key, mkCTL])).2.1,
   (C33_map_laws [mkCTL 0 0 32 2, mkCTL 0 0 0 1, mkCTL 0 1 0 1] (mkCTL 0 0 0 7) 32
      (by simp [keys_unique, same_key, mkCTL])).2.2.2.2.2.2.2.1 0 32 (by decide) (by decide)⟩

/-! ## The range validator -/

/-- Claim C34, counterexample: with the bounds 0 and 4294967295 the negative
number -1 is accepted, with `lo` = `hi` = 4294967295; and where `long` has 64
bits, with the bounds 0 and 127 the number 4294967296, above the maximum, is
accepted with `lo` = `hi` = 0. -/
theorem C34_counterexample :
    data_list2range (Data.long (-1)) 0 4294967295 0 0 = (1, 4294967295, 4294967295, []) ∧
    data_list2range (Data.long 4294967296) 0 127 0 0 = (1, 0, 0, []) := by
  constructor <;> decide

/-- Claim C34, amended: range validator. For every value d and bounds
min <= max, `data_list2range` returns 1 only with outputs such that
min <= lo <= hi <= max, and an empty list gives lo = min and hi = max. When
max < 2^31 and the numbers are in the range -2^31 .. 2^31 - 1 of a 32-bit
`long`: a single number n gives lo = hi = n when min <= n <= max, a two-number
list of a and b gives lo = a and hi = b when min <= a <= b <= max; a negative
number, a number below min or above max, and a pair with a > b are rejected
(return 0). A list of any length other than 0 and 2, and a value that is
neither a number nor a list, are rejected. -/
theorem C34_range_validator (d : Data) (min max lo hi : Nat) (hmm : min ≤ max) :
    ((data_list2range d min max lo hi).1 = 1 →
      min ≤ (data_list2range d min max lo hi).2.1 ∧
      (data_list2range d min max lo hi).2.1 ≤ (data_list2range d min max lo hi).2.2.1 ∧
      (data_list2range d min max lo hi).2.2.1 ≤ max) ∧
    data_list2range (Data.list []) min max lo hi = (1, min, max, []) ∧
    (∀ n : Int, max < 2147483648 → -2147483648 ≤ n → n < 2147483648 →
      ((min : Int) ≤ n → n ≤ (max : Int) →
        data_list2range (Data.long n) min max lo hi = (1, n.toNat, n.toNat, [])) ∧
      (n < 0 ∨ n < (min : Int) ∨ (max : Int) < n →
        (data_list2range (Data.long n) min max lo hi).1 = 0)) ∧
    (∀ a b : Int, max < 2147483648 → -2147483648 ≤ a → a < 2147483648 →
      -2147483648 ≤ b → b < 2147483648 →
      ((min : Int) ≤ a → a ≤ b → b ≤ (max : Int) →
        data_list2range (Data.list [Data.long a, Data.long b]) min max lo hi =
          (1, a.toNat, b.toNat, [])) ∧
      (b < a ∨ a < 0 ∨ b < 0 ∨ a < (min : Int) ∨ (max : Int) < b →
        (data_list2range (Data.list [Data.long a, Data.long b]) min max lo hi).1 = 0)) ∧
    (∀ items : List Data, items.length ≠ 0 → items.length ≠ 2 →
      (data_list2range (Data.list items) min max lo hi).1 = 0) ∧
    (∀ str : String, (data_list2range (Data.string str) min max lo hi).1 = 0 ∧
      (data_list2range (Data.ref str) min max lo hi).1 = 0) ∧
    (data_list2range Data.nil min max lo hi).1 = 0 := by
  refine ⟨?_, rfl, ?_, ?_, ?_, fun str => ⟨rfl, rfl⟩, rfl⟩
  · intro h
    unfold data_list2range at h ⊢
    split at h
    · simp only at h ⊢
      split_ifs at h with hc
      · simp only [if_neg hc]
        omega
    · exact ⟨le_refl _, hmm, le_refl _⟩
    · simp only at h ⊢
      split_ifs at h with hc
      · simp only [if_neg hc]
        omega
    · simp at h
    · simp at h
  · intro n hmax h1 h2
    constructor
    · intro h3 h4
      have hu : to_unsigned n = n.toNat := by unfold to_unsigned; omega
      have hn : min ≤ n.toNat ∧ n.toNat ≤ max := by omega
      simp only [data_list2range, hu]
      rw [if_neg (by omega)]
    · intro h3
      have hu : to_unsigned n < min ∨ max < to_unsigned n := by
        unfold to_unsigned; omega
      simp only [data_list2range]
      rw [if_pos (by omega)]
  · intro a b hmax ha1 ha2 hb1 hb2
    constructor
    · intro h3 h4 h5
      have hua : to_unsigned a = a.toNat := by unfold to_unsigned; omega
      have hub : to_unsigned b = b.toNat := by unfold to_unsigned; omega
      have hn : min ≤ a.toNat ∧ a.toNat ≤ b.toNat ∧ b.toNat ≤ max := by omega
      simp only [data_list2range, hua, hub]
      rw [if_neg (by omega)]
    · intro h3
      have hu : to_unsigned a < min ∨ max < to_unsigned a ∨ to_unsigned b < min ∨
          max < to_unsigned b ∨ to_unsigned b < to_unsigned a := by
        unfold to_unsigned; omega
      simp only [data_list2range]
      rw [if_pos (by omega)]
  · intro items h0 h2
    unfold data_list2range
    split
    · rename_i heq; simp at heq
    · rename_i heq
      simp only [Data.list.injEq] at heq
      rw [heq] at h0
      simp at h0
    · rename_i heq
      simp only [Data.list.injEq] at heq
      rw [heq] at h2
      simp at h2
    · rfl
    · rfl

/-- Witness for C34: the single number 5 and the empty list, with the bounds 0
and 15. -/
theorem C34_range_validator_witness :
    data_list2range (Data.long 5) 0 15 0 0 = (1, 5, 5, []) ∧
    data_list2range (Data.list []) 0 15 0 0 = (1, 0, 15, []) ∧
    (data_list2range (Data.long (-3)) 0 15 0 0).1 = 0 :=
  ⟨((C34_range_validator (Data.long 5) 0 15 0 0 (by decide)).2.2.1 5 (by decide) (by decide)
      (by decide)).1 (by decide) (by decide),
   (C34_range_validator (Data.long 5) 0 15 0 0 (by decide)).2.1,
   ((C34_range_validator (Data.long 5) 0 15 0 0 (by decide)).2.2.1 (-3) (by decide) (by decide)
      (by decide)).2 (Or.inl (by decide))⟩

/-! ## Exclusive selections in the packer -/

theorem pk_rpn_lo (l : List Ev) (x dev ch v : Nat) (rev : Ev) :
    conv_packev l x (mkCTL dev ch 100 v) rev
      = (conv_setctl (conv_rmctl l (mkCTL dev ch 100 v) 98) (mkCTL dev ch 100 v), rev, 0) := by
  simp [conv_packev, mkCTL]

theorem keys_unique_packev (l : List Ev) (x : Nat) (ev rev : Ev) (h : keys_unique l) :
    keys_unique (conv_packev l x ev rev).1 := by
  rcases packev_cases l x ev rev with ⟨_, he⟩ | ⟨_, _, he⟩ | ⟨_, l1, he, hl⟩ |
    ⟨_, _, c, _, he⟩ | ⟨_, r, he, _⟩
  · rw [he]; exact h
  · rw [he]; exact h
  · rw [he]
    rcases hl with hl | hl | ⟨a, hl⟩ | ⟨a, b, hl⟩
    · rw [hl]; exact h
    · rw [hl]; exact keys_unique_setctl l ev h
    · rw [hl]; exact keys_unique_setctl _ ev (keys_unique_rmctl l ev a h)
    · rw [hl]
      exact keys_unique_setctl _ ev (keys_unique_rmctl _ ev b (keys_unique_rmctl l ev a h))
  · rw [he]; exact h
  · rw [he]; exact h

theorem ctl_eta (ev : Ev) (k : Nat) (hc : ev.cmd = EV_CTL) (hk : ev.v0 = k) :
    ev = mkCTL ev.dev ev.ch k ev.v1 := by
  cases ev
  simp only [mkCTL] at hc hk ⊢
  subst hc hk
  rfl

theorem packev_keeps_exclusive (l : List Ev) (x : Nat) (ev rev : Ev) (hu : keys_unique l)
    (h : ∀ dev ch, absent l dev ch 98 ∨ absent l dev ch 100) (dev ch : Nat) :
    absent (conv_packev l x ev rev).1 dev ch 98 ∨
      absent (conv_packev l x ev rev).1 dev ch 100 := by
  by_cases h98 : is_ctl_on dev ch 98 ev
  · obtain ⟨hc, hk, hch, hdev⟩ := h98
    right
    rw [ctl_eta ev 98 hc hk, pk_nrpn_lo]
    apply absent_setctl
    · have := absent_after_rmctl l (mkCTL ev.dev ev.ch 98 ev.v1) 100 hu
      simp only [mkCTL] at this ⊢
      rw [hch, hdev] at this
      rw [hch, hdev]
      exact this
    · simp [mkCTL]
  by_cases h100 : is_ctl_on dev ch 100 ev
  · obtain ⟨hc, hk, hch, hdev⟩ := h100
    left
    rw [ctl_eta ev 100 hc hk, pk_rpn_lo]
    apply absent_setctl
    · have := absent_after_rmctl l (mkCTL ev.dev ev.ch 100 ev.v1) 98 hu
      simp only [mkCTL] at this ⊢
      rw [hch, hdev] at this
      rw [hch, hdev]
      exact this
    · simp [mkCTL]
  rcases h dev ch with ha | ha
  · exact Or.inl (absent_packev l x ev rev dev ch 98 ha h98)
  · exact Or.inr (absent_packev l x ev rev dev ch 100 ha h100)

theorem pack_reachable_exclusive (l : List Ev) (h : PackReachable l) :
    keys_unique l ∧ ∀ dev ch, absent l dev ch 98 ∨ absent l dev ch 100 := by
  induction h with
  | empty =>
    exact ⟨List.Pairwise.nil, fun dev ch => Or.inl (fun s hs => by simp at hs)⟩
  | step l x ev rev _ ih =>
    exact ⟨keys_unique_packev l x ev rev ih.1,
      packev_keeps_exclusive l x ev rev ih.1 ih.2⟩

theorem not_recorded_of_absent (l : List Ev) (dev ch k : Nat) (h : absent l dev ch k) :
    ¬ recorded l dev ch k := by
  rintro ⟨s, hs, hk⟩
  exact h s hs hk

/-- Claim C35: packer selection exclusivity. In every packer state reached from
the empty state list by any sequence of `conv_packev` calls (any events, any
bitmaps), no (device, channel) has both NRPN_LO (98) and RPN_LO (100) recorded:
one of the two has no state in the list, and its lookup returns UNDEF. The
list has at most one state per (device, channel, controller number). -/
theorem C35_packer_exclusive (l : List Ev) (h : PackReachable l) (dev ch : Nat) :
    ¬ (recorded l dev ch NRPN_LO ∧ recorded l dev ch RPN_LO) ∧
    (absent l dev ch NRPN_LO ∨ absent l dev ch RPN_LO) ∧
    (getv l dev ch NRPN_LO = EV_UNDEF ∨ getv l dev ch RPN_LO = EV_UNDEF) ∧
    keys_unique l := by
  obtain ⟨hu, hx⟩ := pack_reachable_exclusive l h
  refine ⟨?_, hx dev ch, ?_, hu⟩
  · rintro ⟨h1, h2⟩
    rcases hx dev ch with ha | ha
    · exact not_recorded_of_absent l dev ch 98 ha h1
    · exact not_recorded_of_absent l dev ch 100 ha h2
  · rcases hx dev ch with ha | ha
    · exact Or.inl (getctl_of_absent l _ 98 ha)
    · exact Or.inr (getctl_of_absent l _ 100 ha)

/-- Witness for C35: the state reached by packing CTL(98, 5) and then
CTL(100, 6) on channel 0 of device 0. -/
theorem C35_packer_exclusive_witness :
    ¬ (recorded (conv_packev (conv_packev [] 0 (mkCTL 0 0 98 5) (mkPC 0 0 0 0)).1 0
          (mkCTL 0 0 100 6) (mkPC 0 0 0 0)).1 0 0 NRPN_LO ∧
        recorded (conv_packev (conv_packev [] 0 (mkCTL 0 0 98 5) (mkPC 0 0 0 0)).1 0
          (mkCTL 0 0 100 6) (mkPC 0 0 0 0)).1 0 0 RPN_LO) :=
  (C35_packer_exclusive _
    (PackReachable.step _ 0 (mkCTL 0 0 100 6) (mkPC 0 0 0 0)
      (PackReachable.step [] 0 (mkCTL 0 0 98 5) (mkPC 0 0 0 0) PackReachable.empty)) 0 0).1

/-! ## Exclusive selections in the mirror -/

theorem recorded_setctl_loop (l l1 : List Ev) (ev : Ev) (h : conv_setctl_loop l ev = some l1)
    (dev ch k : Nat) (hr : recorded l dev ch k) : recorded l1 dev ch k := by
  induction l generalizing l1 with
  | nil => simp [conv_setctl_loop] at h
  | cons i rest ih =>
    obtain ⟨s, hs, hk⟩ := hr
    simp only [conv_setctl_loop] at h
    split at h
    · simp only [Option.some.injEq] at h
      subst h
      rcases List.mem_cons.mp hs with h1 | h1
      · subst h1
        exact ⟨{ s with v1 := ev.v1 }, by simp, hk⟩
      · exact ⟨s, by simp [h1], hk⟩
    · cases hr1 : conv_setctl_loop rest ev with
      | none => rw [hr1] at h; simp at h
      | some r =>
        rw [hr1] at h
        simp only [Option.map_some', Option.some.injEq] at h
        subst h
        rcases List.mem_cons.mp hs with h1 | h1
        · subst h1
          exact ⟨s, by simp, hk⟩
        · obtain ⟨s1, hs1, hk1⟩ := ih r hr1 ⟨s, h1, hk⟩
          exact ⟨s1, by simp [hs1], hk1⟩

theorem recorded_setctl (l : List Ev) (ev : Ev) (dev ch k : Nat) (hr : recorded l dev ch k) :
    recorded (conv_setctl l ev) dev ch k := by
  unfold conv_setctl
  cases h : conv_setctl_loop l ev with
  | none =>
    obtain ⟨s, hs, hk⟩ := hr
    exact ⟨s, by simp [statelist_add, hs], hk⟩
  | some l1 => exact recorded_setctl_loop l l1 ev h dev ch k hr

theorem recorded_setctl_self (l : List Ev) (ev : Ev) :
    recorded (conv_setctl l ev) ev.dev ev.ch ev.v0 := by
  unfold conv_setctl
  cases h : conv_setctl_loop l ev with
  | none => exact ⟨ev, by simp [statelist_add], rfl, rfl, rfl⟩
  | some l1 =>
    simp only
    induction l generalizing l1 with
    | nil => simp [conv_setctl_loop] at h
    | cons i rest ih =>
      simp only [conv_setctl_loop] at h
      split at h
      · rename_i hm
        simp only [CTL_MATCH, CHAN_MATCH, Bool.and_eq_true, beq_iff_eq] at hm
        simp only [Option.some.injEq] at h
        subst h
        exact ⟨{ i with v1 := ev.v1 }, by simp, hm.1, hm.2.1, hm.2.2⟩
      · cases hr1 : conv_setctl_loop rest ev with
        | none => rw [hr1] at h; simp at h
        | some r =>
          rw [hr1] at h
          simp only [Option.map_some', Option.some.injEq] at h
          subst h
          obtain ⟨s1, hs1, hk1⟩ := ih r hr1
          exact ⟨s1, by simp [hs1], hk1⟩

theorem recorded_rmctl_ne (l : List Ev) (ev : Ev) (n dev ch k : Nat)
    (hr : recorded l dev ch k) (hne : ¬ (n = k ∧ ev.ch = ch ∧ ev.dev = dev)) :
    recorded (conv_rmctl l ev n) dev ch k := by
  induction l with
  | nil => obtain ⟨s, hs, _⟩ := hr; simp at hs
  | cons i rest ih =>
    obtain ⟨s, hs, hk⟩ := hr
    simp only [conv_rmctl]
    split
    · rename_i hm
      simp only [CHAN_MATCH, Bool.and_eq_true, beq_iff_eq] at hm
      rcases List.mem_cons.mp hs with h1 | h1
      · subst h1
        exact absurd ⟨by omega, by omega, by omega⟩ hne
      · exact ⟨s, h1, hk⟩
    · rcases List.mem_cons.mp hs with h1 | h1
      · subst h1
        exact ⟨s, by simp, hk⟩
      · obtain ⟨s1, hs1, hk1⟩ := ih ⟨s, h1, hk⟩
        exact ⟨s1, by simp [hs1], hk1⟩

theorem values_setctl_loop (B : Nat) (l l1 : List Ev) (ev : Ev)
    (h : conv_setctl_loop l ev = some l1) (hl : ∀ s ∈ l, s.v1 ≤ B) (hev : ev.v1 ≤ B) :
    ∀ s ∈ l1, s.v1 ≤ B := by
  induction l generalizing l1 with
  | nil => simp [conv_setctl_loop] at h
  | cons i rest ih =>
    simp only [conv_setctl_loop] at h
    split at h
    · simp only [Option.some.injEq] at h
      subst h
      intro s hs
      rcases List.mem_cons.mp hs with h1 | h1
      · subst h1; exact hev
      · exact hl s (by simp [h1])
    · cases hr1 : conv_setctl_loop rest ev with
      | none => rw [hr1] at h; simp at h
      | some r =>
        rw [hr1] at h
        simp only [Option.map_some', Option.some.injEq] at h
        subst h
        intro s hs
        rcases List.mem_cons.mp hs with h1 | h1
        · subst h1; exact hl s (by simp)
        · exact ih r hr1 (fun t ht => hl t (by simp [ht])) s h1

theorem values_setctl (B : Nat) (l : List Ev) (ev : Ev) (hl : ∀ s ∈ l, s.v1 ≤ B)
    (hev : ev.v1 ≤ B) : ∀ s ∈ conv_setctl l ev, s.v1 ≤ B := by
  unfold conv_setctl
  cases h : conv_setctl_loop l ev with
  | none =>
    intro s hs
    simp only [statelist_add, List.mem_cons] at hs
    rcases hs with h1 | h1
    · subst h1; exact hev
    · exact hl s h1
  | some l1 => exact values_setctl_loop B l l1 ev h hl hev

theorem values_rmctl (B : Nat) (l : List Ev) (ev : Ev) (n : Nat) (hl : ∀ s ∈ l, s.v1 ≤ B) :
    ∀ s ∈ conv_rmctl l ev n, s.v1 ≤ B :=
  fun s hs => hl s ((rmctl_sublist l ev n).subset hs)

theorem getctl_bound (B : Nat) (l : List Ev) (e : Ev) (k : Nat) (hl : ∀ s ∈ l, s.v1 ≤ B) :
    conv_getctl l e k = EV_UNDEF ∨ conv_getctl l e k ≤ B := by
  induction l with
  | nil => left; rfl
  | cons i rest ih =>
    simp only [conv_getctl]
    split
    · right; exact hl i (by simp)
    · exact ih (fun s hs => hl s (by simp [hs]))

theorem keys_unique_unpackev (m : List Ev) (x : Nat) (ev : Ev) (revs : Nat → Ev)
    (h : keys_unique m) : keys_unique (conv_unpackev m x ev revs).1 := by
  rcases unpackev_cases m x ev revs with ⟨_, _, _, _, he⟩ | ⟨_, _, _, _, _, he⟩ |
    ⟨_, _, he⟩ | ⟨_, _, _, he⟩ | ⟨_, _, he⟩ | ⟨_, _, he⟩ | ⟨_, _, he⟩ | ⟨_, _, he⟩ |
    ⟨_, _, he⟩ | ⟨_, _, _, _, he⟩
  · rw [he]; exact keys_unique_setctl m _ h
  · rw [he]; exact h
  · rw [he]; exact h
  · rw [he]; exact keys_unique_setctl _ _ (keys_unique_setctl m _ h)
  · rw [he]; exact h
  · rw [he]
    exact keys_unique_setctl _ _ (keys_unique_setctl _ _
      (keys_unique_rmctl _ ev 100 (keys_unique_rmctl m ev 101 h)))
  · rw [he]; exact h
  · rw [he]
    exact keys_unique_setctl _ _ (keys_unique_setctl _ _
      (keys_unique_rmctl _ ev 98 (keys_unique_rmctl m ev 99 h)))
  · rw [he]; exact h
  · rw [he]; exact h

theorem exclusive_preserved (m m1 : List Ev) (dev ch : Nat)
    (hrec : ∀ k, 98 ≤ k → k ≤ 101 → recorded m dev ch k → recorded m1 dev ch k)
    (habs : ∀ k, 98 ≤ k → k ≤ 101 → absent m dev ch k → absent m1 dev ch k)
    (h : mirror_exclusive m dev ch) : mirror_exclusive m1 dev ch := by
  simp only [mirror_exclusive, NRPN_HI, NRPN_LO, RPN_HI, RPN_LO] at h ⊢
  rcases h with ⟨h1, h2, h3, h4⟩ | ⟨h1, h2, h3, h4⟩ | ⟨h1, h2, h3, h4⟩
  · exact Or.inl ⟨hrec 99 (by omega) (by omega) h1, hrec 98 (by omega) (by omega) h2,
      habs 101 (by omega) (by omega) h3, habs 100 (by omega) (by omega) h4⟩
  · exact Or.inr (Or.inl ⟨hrec 101 (by omega) (by omega) h1,
      hrec 100 (by omega) (by omega) h2, habs 99 (by omega) (by omega) h3,
      habs 98 (by omega) (by omega) h4⟩)
  · exact Or.inr (Or.inr ⟨habs 99 (by omega) (by omega) h1,
      habs 98 (by omega) (by omega) h2, habs 101 (by omega) (by omega) h3,
      habs 100 (by omega) (by omega) h4⟩)

theorem exclusive_setctl_other (m : List Ev) (e : Ev) (dev ch : Nat)
    (hk : e.v0 < 98 ∨ 101 < e.v0) (h : mirror_exclusive m dev ch) :
    mirror_exclusive (conv_setctl m e) dev ch :=
  exclusive_preserved m _ dev ch
    (fun k _ _ hr => recorded_setctl m e dev ch k hr)
    (fun k h1 h2 ha => absent_setctl m e dev ch k ha (fun hc => by omega)) h

/-- The select bytes of one context replace those of the other: the state of
the mirror after the two removals and the two updates of an NRPN or RPN event
whose number changed. -/
theorem exclusive_select (m : List Ev) (ev : Ev) (a b c d va vb : Nat) (hu : keys_unique m)
    (hab : (a = 101 ∧ b = 100 ∧ c = 99 ∧ d = 98) ∨ (a = 99 ∧ b = 98 ∧ c = 101 ∧ d = 100))
    (h : ∀ dev ch, mirror_exclusive m dev ch) (dev ch : Nat) :
    mirror_exclusive
      (conv_setctl (conv_setctl (conv_rmctl (conv_rmctl m ev a) ev b)
        (mkCTL ev.dev ev.ch c va)) (mkCTL ev.dev ev.ch d vb)) dev ch ∧
    recorded (conv_setctl (conv_setctl (conv_rmctl (conv_rmctl m ev a) ev b)
        (mkCTL ev.dev ev.ch c va)) (mkCTL ev.dev ev.ch d vb)) ev.dev ev.ch c ∧
    recorded (conv_setctl (conv_setctl (conv_rmctl (conv_rmctl m ev a) ev b)
        (mkCTL ev.dev ev.ch c va)) (mkCTL ev.dev ev.ch d vb)) ev.dev ev.ch d ∧
    absent (conv_setctl (conv_setctl (conv_rmctl (conv_rmctl m ev a) ev b)
        (mkCTL ev.dev ev.ch c va)) (mkCTL ev.dev ev.ch d vb)) ev.dev ev.ch a ∧
    absent (conv_setctl (conv_setctl (conv_rmctl (conv_rmctl m ev a) ev b)
        (mkCTL ev.dev ev.ch c va)) (mkCTL ev.dev ev.ch d vb)) ev.dev ev.ch b := by
  have hc : recorded (conv_setctl (conv_setctl (conv_rmctl (conv_rmctl m ev a) ev b)
      (mkCTL ev.dev ev.ch c va)) (mkCTL ev.dev ev.ch d vb)) ev.dev ev.ch c :=
    recorded_setctl _ _ _ _ _ (recorded_setctl_self _ (mkCTL ev.dev ev.ch c va))
  have hd : recorded (conv_setctl (conv_setctl (conv_rmctl (conv_rmctl m ev a) ev b)
      (mkCTL ev.dev ev.ch c va)) (mkCTL ev.dev ev.ch d vb)) ev.dev ev.ch d :=
    recorded_setctl_self _ (mkCTL ev.dev ev.ch d vb)
  have ha : absent (conv_setctl (conv_setctl (conv_rmctl (conv_rmctl m ev a) ev b)
      (mkCTL ev.dev ev.ch c va)) (mkCTL ev.dev ev.ch d vb)) ev.dev ev.ch a := by
    apply absent_setctl
    · apply absent_setctl
      · exact absent_rmctl _ ev b _ _ a (absent_after_rmctl m ev a hu)
      · simp only [mkCTL]; omega
    · simp only [mkCTL]; omega
  have hb : absent (conv_setctl (conv_setctl (conv_rmctl (conv_rmctl m ev a) ev b)
      (mkCTL ev.dev ev.ch c va)) (mkCTL ev.dev ev.ch d vb)) ev.dev ev.ch b := by
    apply absent_setctl
    · apply absent_setctl
      · exact absent_after_rmctl _ ev b (keys_unique_rmctl m ev a hu)
      · simp only [mkCTL]; omega
    · simp only [mkCTL]; omega
  refine ⟨?_, hc, hd, ha, hb⟩
  by_cases hsame : ev.ch = ch ∧ ev.dev = dev
  · obtain ⟨h1, h2⟩ := hsame
    subst h1 h2
    simp only [mirror_exclusive, NRPN_HI, NRPN_LO, RPN_HI, RPN_LO]
    rcases hab with ⟨e1, e2, e3, e4⟩ | ⟨e1, e2, e3, e4⟩
    · subst e1 e2 e3 e4
      exact Or.inl ⟨hc, hd, ha, hb⟩
    · subst e1 e2 e3 e4
      exact Or.inr (Or.inl ⟨hc, hd, ha, hb⟩)
  · apply exclusive_preserved m _ dev ch _ _ (h dev ch)
    · intro k _ _ hr
      apply recorded_setctl
      apply recorded_setctl
      apply recorded_rmctl_ne
      · apply recorded_rmctl_ne _ _ _ _ _ _ hr
        exact fun hc => hsame ⟨hc.2.1, hc.2.2⟩
      · exact fun hc => hsame ⟨hc.2.1, hc.2.2⟩
    · intro k _ _ hab1
      apply absent_setctl
      · apply absent_setctl
        · exact absent_rmctl _ ev b _ _ k (absent_rmctl m ev a _ _ k hab1)
        · simp only [mkCTL]
          exact fun hc => hsame ⟨hc.2.1, hc.2.2⟩
      · simp only [mkCTL]
        exact fun hc => hsame ⟨hc.2.1, hc.2.2⟩

theorem unpackev_keeps_exclusive (m : List Ev) (x : Nat) (ev : Ev) (revs : Nat → Ev)
    (hu : keys_unique m) (h : ∀ dev ch, mirror_exclusive m dev ch) (dev ch : Nat) :
    mirror_exclusive (conv_unpackev m x ev revs).1 dev ch := by
  rcases unpackev_cases m x ev revs with ⟨_, h32, _, _, he⟩ | ⟨_, _, _, _, _, he⟩ |
    ⟨_, _, he⟩ | ⟨_, _, _, he⟩ | ⟨_, _, he⟩ | ⟨_, _, he⟩ | ⟨_, _, he⟩ | ⟨_, _, he⟩ |
    ⟨_, _, he⟩ | ⟨_, _, _, _, he⟩
  · rw [he]
    exact exclusive_setctl_other m _ dev ch (by simp only [mkCTL]; omega) (h dev ch)
  · rw [he]; exact h dev ch
  · rw [he]; exact h dev ch
  · rw [he]
    exact exclusive_setctl_other _ _ dev ch (by simp only [mkCTL]; omega)
      (exclusive_setctl_other m _ dev ch (by simp only [mkCTL]; omega) (h dev ch))
  · rw [he]; exact h dev ch
  · rw [he]
    exact (exclusive_select m ev 101 100 99 98 _ _ hu (Or.inl ⟨rfl, rfl, rfl, rfl⟩) h dev ch).1
  · rw [he]; exact h dev ch
  · rw [he]
    exact (exclusive_select m ev 99 98 101 100 _ _ hu (Or.inr ⟨rfl, rfl, rfl, rfl⟩) h dev ch).1
  · rw [he]; exact h dev ch
  · rw [he]; exact h dev ch

theorem values_unpackev (m : List Ev) (x : Nat) (ev : Ev) (revs : Nat → Ev)
    (hv : ∀ s ∈ m, s.v1 ≤ 127) (h14 : canonical_14bit ev) :
    ∀ s ∈ (conv_unpackev m x ev revs).1, s.v1 ≤ 127 := by
  obtain ⟨hx, hp, hn⟩ := h14
  simp only [EV_MAXFINE, EV_UNDEF] at hx hp hn
  rcases unpackev_cases m x ev revs with ⟨hc, _, _, _, he⟩ | ⟨_, _, _, _, _, he⟩ |
    ⟨_, _, he⟩ | ⟨hc, _, hne, he⟩ | ⟨_, _, he⟩ | ⟨hc, _, he⟩ | ⟨_, _, he⟩ | ⟨hc, _, he⟩ |
    ⟨_, _, he⟩ | ⟨_, _, _, _, he⟩
  · rw [he]
    have := hx hc
    exact values_setctl 127 m _ hv (by simp only [mkCTL, shr7]; omega)
  · rw [he]; exact hv
  · rw [he]; exact hv
  · rw [he]
    have hb : ev.v1 ≤ 16383 := by
      simp only [EV_UNDEF] at hne
      rcases hp hc with h | h
      · exact h
      · exact absurd h hne
    exact values_setctl 127 _ _
      (values_setctl 127 m _ hv (by simp only [mkCTL, shr7]; omega))
      (by simp only [mkCTL]; rw [and7f]; omega)
  · rw [he]; exact hv
  · rw [he]
    have := (hn (Or.inl hc)).1
    exact values_setctl 127 _ _
      (values_setctl 127 _ _ (values_rmctl 127 _ ev 100 (values_rmctl 127 m ev 101 hv))
        (by simp only [mkCTL, shr7]; omega))
      (by simp only [mkCTL]; rw [and7f]; omega)
  · rw [he]; exact hv
  · rw [he]
    have := (hn (Or.inr hc)).1
    exact values_setctl 127 _ _
      (values_setctl 127 _ _ (values_rmctl 127 _ ev 98 (values_rmctl 127 m ev 99 hv))
        (by simp only [mkCTL, shr7]; omega))
      (by simp only [mkCTL]; rw [and7f]; omega)
  · rw [he]; exact hv
  · rw [he]; exact hv

theorem mirror_reachable_inv (m : List Ev) (h : MirrorReachable m) :
    keys_unique m ∧ (∀ s ∈ m, s.v1 ≤ 127) ∧ ∀ dev ch, mirror_exclusive m dev ch := by
  induction h with
  | empty =>
    refine ⟨List.Pairwise.nil, fun s hs => by simp at hs, fun dev ch => ?_⟩
    exact Or.inr (Or.inr ⟨fun s hs => by simp at hs, fun s hs => by simp at hs,
      fun s hs => by simp at hs, fun s hs => by simp at hs⟩)
  | step m x ev rev _ h14 ih =>
    exact ⟨keys_unique_unpackev m x ev rev ih.1, values_unpackev m x ev rev ih.2.1 h14,
      unpackev_keeps_exclusive m x ev rev ih.1 ih.2.2⟩

theorem getv_of_recorded (l : List Ev) (dev ch k : Nat) (hv : ∀ s ∈ l, s.v1 ≤ 127)
    (hr : recorded l dev ch k) : getv l dev ch k ≤ 127 := by
  induction l with
  | nil => obtain ⟨s, hs, _⟩ := hr; simp at hs
  | cons i rest ih =>
    unfold getv
    simp only [conv_getctl]
    split
    · exact hv i (by simp)
    · rename_i hm
      simp only [CHAN_MATCH, Bool.and_eq_true, beq_iff_eq] at hm
      obtain ⟨s, hs, hk⟩ := hr
      rcases List.mem_cons.mp hs with h1 | h1
      · subst h1
        exact absurd ⟨hk.1, hk.2.1, hk.2.2⟩ hm
      · exact ih (fun t ht => hv t (by simp [ht])) ⟨s, h1, hk⟩

/-- After an NRPN or RPN event with a 14-bit number, the mirror holds the
number of the event as the context of its kind and no context of the other
kind (`a`, `b` are the high and low controllers of the kind of the event, `c`,
`d` those of the other kind). -/
theorem select_context (m : List Ev) (x : Nat) (ev : Ev) (revs : Nat → Ev) (a b c d : Nat)
    (hab : (ev.cmd = EV_NRPN ∧ a = 99 ∧ b = 98 ∧ c = 101 ∧ d = 100) ∨
      (ev.cmd = EV_RPN ∧ a = 101 ∧ b = 100 ∧ c = 99 ∧ d = 98))
    (hu : keys_unique m) (hx : ∀ dev ch, mirror_exclusive m dev ch) (h14 : ev.v0 ≤ 16383) :
    conv_getctx (conv_unpackev m x ev revs).1 ev a b = ev.v0 ∧
    conv_getctx (conv_unpackev m x ev revs).1 ev c d = EV_UNDEF := by
  have hchg : ∀ m1 : List Ev,
      m1 = conv_setctl (conv_setctl (conv_rmctl (conv_rmctl m ev c) ev d)
        (mkCTL ev.dev ev.ch a (ev.v0 >>> 7))) (mkCTL ev.dev ev.ch b (ev.v0 &&& 127)) →
      absent m1 ev.dev ev.ch d →
      conv_getctx m1 ev a b = ev.v0 ∧ conv_getctx m1 ev c d = EV_UNDEF := by
    intro m1 hm1 hd
    refine ⟨?_, getctx_of_absent_lo m1 ev c d hd⟩
    have hne : a ≠ b := by rcases hab with ⟨_, e1, e2, _, _⟩ | ⟨_, e1, e2, _, _⟩ <;> omega
    have g1 : getv m1 ev.dev ev.ch b = ev.v0 &&& 127 := by
      rw [hm1, getv_setctl, if_pos (by simp [mkCTL])]
      rfl
    have g2 : getv m1 ev.dev ev.ch a = ev.v0 >>> 7 := by
      rw [hm1, getv_setctl, if_neg (by simp only [mkCTL]; omega), getv_setctl,
        if_pos (by simp [mkCTL])]
      rfl
    rw [getctx_eq_getv, g1, g2]
    have e1 : ev.v0 &&& 127 = ev.v0 % 128 := and7f ev.v0
    rw [e1, shr7, if_neg (by omega), if_neg (by omega)]
    omega
  have hsame : conv_getctx m ev a b = ev.v0 →
      conv_getctx m ev a b = ev.v0 ∧ conv_getctx m ev c d = EV_UNDEF := by
    intro hs
    refine ⟨hs, getctx_of_absent_lo m ev c d ?_⟩
    have hnb : ¬ absent m ev.dev ev.ch b := by
      intro hb
      have := getctx_of_absent_lo m ev a b hb
      rw [hs] at this
      simp only [EV_UNDEF] at this
      omega
    have hxe := hx ev.dev ev.ch
    simp only [mirror_exclusive, NRPN_HI, NRPN_LO, RPN_HI, RPN_LO] at hxe
    rcases hab with ⟨_, e1, e2, e3, e4⟩ | ⟨_, e1, e2, e3, e4⟩
    · subst e1 e2 e3 e4
      rcases hxe with ⟨_, _, _, h4⟩ | ⟨_, _, _, h4⟩ | ⟨_, h2, _, _⟩
      · exact h4
      · exact absurd h4 hnb
      · exact absurd h2 hnb
    · subst e1 e2 e3 e4
      rcases hxe with ⟨_, _, _, h4⟩ | ⟨_, _, _, h4⟩ | ⟨_, _, _, h4⟩
      · exact absurd h4 hnb
      · exact h4
      · exact absurd h4 hnb
  rcases unpackev_cases m x ev revs with ⟨hc, _, _, _, he⟩ | ⟨hc, _, _, _, _, he⟩ |
    ⟨hc, _, he⟩ | ⟨hc, _, _, he⟩ | ⟨hc, _, he⟩ | ⟨hc, _, he⟩ | ⟨hc, hs, he⟩ | ⟨hc, _, he⟩ |
    ⟨hc, hs, he⟩ | ⟨_, _, h3, h4, he⟩
  · rcases hab with ⟨h, _⟩ | ⟨h, _⟩ <;> exact absurd (hc.symm.trans h) (by decide)
  · rcases hab with ⟨h, _⟩ | ⟨h, _⟩ <;> exact absurd (hc.symm.trans h) (by decide)
  · rcases hab with ⟨h, _⟩ | ⟨h, _⟩ <;> exact absurd (hc.symm.trans h) (by decide)
  · rcases hab with ⟨h, _⟩ | ⟨h, _⟩ <;> exact absurd (hc.symm.trans h) (by decide)
  · rcases hab with ⟨h, _⟩ | ⟨h, _⟩ <;> exact absurd (hc.symm.trans h) (by decide)
  · rcases hab with ⟨_, e1, e2, e3, e4⟩ | ⟨h, _⟩
    · subst e1 e2 e3 e4
      rw [he]
      exact hchg _ rfl
        (exclusive_select m ev 101 100 99 98 _ _ hu (Or.inl ⟨rfl, rfl, rfl, rfl⟩) hx 0 0).2.2.2.2
    · exact absurd (hc.symm.trans h) (by decide)
  · rcases hab with ⟨_, e1, e2, e3, e4⟩ | ⟨h, _⟩
    · subst e1 e2 e3 e4
      rw [he]
      exact hsame hs
    · exact absurd (hc.symm.trans h) (by decide)
  · rcases hab with ⟨h, _⟩ | ⟨_, e1, e2, e3, e4⟩
    · exact absurd (hc.symm.trans h) (by decide)
    · subst e1 e2 e3 e4
      rw [he]
      exact hchg _ rfl
        (exclusive_select m ev 99 98 101 100 _ _ hu (Or.inr ⟨rfl, rfl, rfl, rfl⟩) hx 0 0).2.2.2.2
  · rcases hab with ⟨h, _⟩ | ⟨_, e1, e2, e3, e4⟩
    · exact absurd (hc.symm.trans h) (by decide)
    · subst e1 e2 e3 e4
      rw [he]
      exact hsame hs
  · rcases hab with ⟨h, _⟩ | ⟨h, _⟩
    · exact absurd h h3
    · exact absurd h h4

/-- Claim C36: mirror selection exclusivity. In every mirror state reached from
the empty state list by any sequence of `conv_unpackev` calls on events with
14-bit fields, each (device, channel) has either both NRPN_HI and NRPN_LO
recorded and neither RPN_HI nor RPN_LO, or both RPN_HI and RPN_LO recorded and
neither NRPN_HI nor NRPN_LO, or none of the four; a recorded controller is one
whose lookup is not UNDEF. So the context the mirror holds is the one of the
last select bytes: after an NRPN event the lookup of (NRPN_HI, NRPN_LO) is the
number of the event and the lookup of (RPN_HI, RPN_LO) is UNDEF, and likewise
after an RPN event. -/
theorem C36_mirror_exclusive (m : List Ev) (h : MirrorReachable m) :
    (∀ dev ch, mirror_exclusive m dev ch) ∧
    (∀ dev ch k, recorded m dev ch k ↔ getv m dev ch k ≠ EV_UNDEF) ∧
    keys_unique m ∧
    (∀ (x : Nat) (ev : Ev) (revs : Nat → Ev), canonical_14bit ev → ev.cmd = EV_NRPN →
      conv_getctx (conv_unpackev m x ev revs).1 ev NRPN_HI NRPN_LO = ev.v0 ∧
      conv_getctx (conv_unpackev m x ev revs).1 ev RPN_HI RPN_LO = EV_UNDEF) ∧
    (∀ (x : Nat) (ev : Ev) (revs : Nat → Ev), canonical_14bit ev → ev.cmd = EV_RPN →
      conv_getctx (conv_unpackev m x ev revs).1 ev RPN_HI RPN_LO = ev.v0 ∧
      conv_getctx (conv_unpackev m x ev revs).1 ev NRPN_HI NRPN_LO = EV_UNDEF) := by
  obtain ⟨hu, hv, hx⟩ := mirror_reachable_inv m h
  refine ⟨hx, ?_, hu, ?_, ?_⟩
  · intro dev ch k
    constructor
    · intro hr
      have := getv_of_recorded m dev ch k hv hr
      simp only [EV_UNDEF]
      omega
    · intro hg
      by_contra hn
      apply hg
      apply getctl_of_absent
      intro s hs hk
      exact hn ⟨s, hs, hk⟩
  · intro x ev revs h14 hc
    exact select_context m x ev revs 99 98 101 100 (Or.inl ⟨hc, rfl, rfl, rfl, rfl⟩) hu hx
      (h14.2.2 (Or.inl hc)).1
  · intro x ev revs h14 hc
    exact select_context m x ev revs 101 100 99 98 (Or.inr ⟨hc, rfl, rfl, rfl, rfl⟩) hu hx
      (h14.2.2 (Or.inr hc)).1

/-- Witness for C36: the mirror after NRPN{5, 6} and then RPN{7, 8} on channel 0
of device 0. -/
theorem C36_mirror_exclusive_witness :
    mirror_exclusive (conv_unpackev (conv_unpackev [] 0 (mkNRPN 0 0 5 6)
        (fun _ => mkPC 0 0 0 0)).1 0 (mkRPN 0 0 7 8) (fun _ => mkPC 0 0 0 0)).1 0 0 :=
  (C36_mirror_exclusive _
    (MirrorReachable.step _ 0 (mkRPN 0 0 7 8) (fun _ => mkPC 0 0 0 0)
      (MirrorReachable.step [] 0 (mkNRPN 0 0 5 6) (fun _ => mkPC 0 0 0 0)
        MirrorReachable.empty (by decide)) (by decide))).1 0 0

/-! ## The events emitted for a controller -/

/-- The event emitted by `conv_packev` for a CTL event, when it returns 1: an
NRPN or RPN event for data entry low, an XCTL event otherwise, with the fields
computed by the source. -/
theorem packev_ctl_emit (l : List Ev) (x : Nat) (ev rev : Ev) (hctl : ev.cmd = EV_CTL)
    (h1 : (conv_packev l x ev rev).2.2 = 1) :
    (ev.v0 = 38 ∧ conv_getctl l ev 6 ≠ 65535 ∧
      (conv_packev l x ev rev).2.1.v1 =
        (ev.v1 + (conv_getctl l ev 6 <<< 7) % 4294967296) % 4294967296 ∧
      (((conv_packev l x ev rev).2.1.cmd = EV_NRPN ∧
          (conv_packev l x ev rev).2.1.v0 = conv_getctx l ev 99 98 ∧
          conv_getctx l ev 99 98 ≠ 65535) ∨
       ((conv_packev l x ev rev).2.1.cmd = EV_RPN ∧
          (conv_packev l x ev rev).2.1.v0 = conv_getctx l ev 101 98 ∧
          conv_getctx l ev 101 98 ≠ 65535))) ∨
    ((conv_packev l x ev rev).2.1.cmd = EV_XCTL ∧
      ev.v0 ≠ 0 ∧ ev.v0 ≠ 101 ∧ ev.v0 ≠ 99 ∧ ev.v0 ≠ 6 ∧ ev.v0 ≠ 32 ∧ ev.v0 ≠ 98 ∧
      ev.v0 ≠ 100 ∧ ev.v0 ≠ 38 ∧
      ((ev.v0 < 32 ∧ (conv_packev l x ev rev).2.1.v0 = ev.v0 ∧
          (conv_packev l x ev rev).2.1.v1 = (ev.v1 <<< 7) % 4294967296) ∨
       (32 ≤ ev.v0 ∧ ev.v0 < 64 ∧ (conv_packev l x ev rev).2.1.v0 = ev.v0 - 32 ∧
          conv_getctl l ev (ev.v0 - 32) ≠ 65535 ∧
          (conv_packev l x ev rev).2.1.v1 =
            (ev.v1 + (conv_getctl l ev (ev.v0 - 32) <<< 7) % 4294967296) % 4294967296) ∨
       (64 ≤ ev.v0 ∧ (conv_packev l x ev rev).2.1.v0 = ev.v0 ∧
          (conv_packev l x ev rev).2.1.v1 = (ev.v1 <<< 7) % 4294967296))) := by
  have hpc : ¬ ev.cmd = EV_PC := by rw [hctl]; decide
  by_cases h0 : ev.v0 = BANK_HI
  · rw [conv_packev, if_neg hpc, if_pos hctl, if_pos h0] at h1
    simp at h1
  by_cases h1a : ev.v0 = RPN_HI
  · rw [conv_packev, if_neg hpc, if_pos hctl, if_neg h0, if_pos h1a] at h1
    simp at h1
  by_cases h2 : ev.v0 = NRPN_HI
  · rw [conv_packev, if_neg hpc, if_pos hctl, if_neg h0, if_neg h1a, if_pos h2] at h1
    simp at h1
  by_cases h3 : ev.v0 = DATAENT_HI
  · rw [conv_packev, if_neg hpc, if_pos hctl, if_neg h0, if_neg h1a, if_neg h2, if_pos h3] at h1
    simp at h1
  by_cases h4 : ev.v0 = BANK_LO
  · rw [conv_packev, if_neg hpc, if_pos hctl, if_neg h0, if_neg h1a, if_neg h2, if_neg h3,
      if_pos h4] at h1
    simp at h1
  by_cases h5 : ev.v0 = NRPN_LO
  · rw [conv_packev, if_neg hpc, if_pos hctl, if_neg h0, if_neg h1a, if_neg h2, if_neg h3,
      if_neg h4, if_pos h5] at h1
    simp at h1
  by_cases h6 : ev.v0 = RPN_LO
  · rw [conv_packev, if_neg hpc, if_pos hctl, if_neg h0, if_neg h1a, if_neg h2, if_neg h3,
      if_neg h4, if_neg h5, if_pos h6] at h1
    simp at h1
  by_cases h7 : ev.v0 = DATAENT_LO
  · left
    have hval : conv_packev l x ev rev =
        (if conv_getctx l ev NRPN_HI NRPN_LO ≠ EV_UNDEF then
          conv_packev_dataent l ev { rev with cmd := EV_NRPN } (conv_getctx l ev NRPN_HI NRPN_LO)
        else if conv_getctx l ev RPN_HI NRPN_LO = EV_UNDEF then (l, rev, 0)
        else conv_packev_dataent l ev { rev with cmd := EV_RPN }
          (conv_getctx l ev RPN_HI NRPN_LO)) := by
      rw [conv_packev]
      simp only [if_neg hpc, if_pos hctl, if_neg h0, if_neg h1a, if_neg h2, if_neg h3, if_neg h4,
        if_neg h5, if_neg h6, if_pos h7]
    rw [hval] at h1 ⊢
    have hd : conv_getctl l ev DATAENT_HI ≠ EV_UNDEF := by
      intro hd
      simp only [dataent_undef l ev _ _ hd] at h1
      split_ifs at h1
    by_cases hn : conv_getctx l ev NRPN_HI NRPN_LO ≠ EV_UNDEF
    · rw [if_pos hn]
      unfold conv_packev_dataent
      simp only [if_neg hd]
      exact ⟨h7, hd, by trivial, Or.inl ⟨by trivial, by trivial, hn⟩⟩
    · rw [if_neg hn] at h1 ⊢
      by_cases hr : conv_getctx l ev RPN_HI NRPN_LO = EV_UNDEF
      · rw [if_pos hr] at h1
        simp at h1
      · rw [if_neg hr]
        unfold conv_packev_dataent
        simp only [if_neg hd]
        exact ⟨h7, hd, by trivial, Or.inr ⟨by trivial, by trivial, hr⟩⟩
  · right
    rw [packev_default_eq l x ev rev hctl h0 h1a h2 h3 h4 h5 h6 h7] at h1 ⊢
    simp only [BANK_HI, RPN_HI, NRPN_HI, DATAENT_HI, BANK_LO, NRPN_LO, RPN_LO, DATAENT_LO]
      at h0 h1a h2 h3 h4 h5 h6 h7
    unfold conv_packev_default at h1 ⊢
    by_cases ha : ev.v0 < 32
    · rw [if_pos ha] at h1 ⊢
      by_cases hf : EVCTL_ISFINE x ev.v0 = true
      · rw [if_pos hf] at h1
        simp at h1
      · rw [if_neg hf]
        exact ⟨rfl, h0, h1a, h2, h3, h4, h5, h6, h7, Or.inl ⟨ha, rfl, rfl⟩⟩
    · rw [if_neg ha] at h1 ⊢
      by_cases hb : ev.v0 < 64
      · rw [if_pos hb] at h1 ⊢
        simp only at h1 ⊢
        by_cases hf : (!EVCTL_ISFINE x (ev.v0 - 32)) = true
        · rw [if_pos hf] at h1
          simp at h1
        · rw [if_neg hf] at h1 ⊢
          by_cases hv : conv_getctl l ev (ev.v0 - 32) = EV_UNDEF
          · rw [if_pos hv] at h1
            simp at h1
          · rw [if_neg hv]
            exact ⟨rfl, h0, h1a, h2, h3, h4, h5, h6, h7,
              Or.inr (Or.inl ⟨by omega, hb, rfl, hv, rfl⟩)⟩
      · rw [if_neg hb]
        exact ⟨rfl, h0, h1a, h2, h3, h4, h5, h6, h7, Or.inr (Or.inr ⟨by omega, rfl, rfl⟩)⟩

/-- Claim C37: emitted XCTL numbers are never reserved. For every packer state,
bitmap and CTL event with controller number <= 127, if `conv_packev` emits an
XCTL event (returns 1 with an event of kind XCTL) then `evctl_isreserved` of its
controller number is 0, and that number is <= 127, so that it indexes the
128-entry controller registry. -/
theorem C37_xctl_not_reserved (l : List Ev) (x : Nat) (ev rev : Ev)
    (hctl : ev.cmd = EV_CTL) (hnum : ev.v0 ≤ 127)
    (h1 : (conv_packev l x ev rev).2.2 = 1)
    (hx : (conv_packev l x ev rev).2.1.cmd = EV_XCTL) :
    evctl_isreserved (conv_packev l x ev rev).2.1.v0 = 0 ∧
    (conv_packev l x ev rev).2.1.v0 ≤ 127 := by
  rcases packev_ctl_emit l x ev rev hctl h1 with ⟨_, _, _, hk⟩ | ⟨_, a0, a1, a2, a3, a4, a5, a6, a7, hk⟩
  · rcases hk with ⟨hc, _⟩ | ⟨hc, _⟩
    · exact absurd (hx.symm.trans hc) (by decide)
    · exact absurd (hx.symm.trans hc) (by decide)
  · have hv : (conv_packev l x ev rev).2.1.v0 ≤ 127 ∧
        (conv_packev l x ev rev).2.1.v0 ≠ 0 ∧ (conv_packev l x ev rev).2.1.v0 ≠ 6 ∧
        ((conv_packev l x ev rev).2.1.v0 < 32 ∨ 64 ≤ (conv_packev l x ev rev).2.1.v0) ∧
        ((conv_packev l x ev rev).2.1.v0 < 98 ∨ 101 < (conv_packev l x ev rev).2.1.v0) := by
      rcases hk with ⟨_, e, _⟩ | ⟨_, _, e, _⟩ | ⟨_, e, _⟩ <;> rw [e] <;> omega
    generalize (conv_packev l x ev rev).2.1.v0 = n at hv
    refine ⟨?_, hv.1⟩
    unfold evctl_isreserved
    simp only [BANK_HI, DATAENT_HI, RPN_HI, RPN_LO, NRPN_HI, NRPN_LO]
    rw [if_neg]
    omega

/-- Witness for C37: CTL(7, 100) on a coarse controller and CTL(39, 4) after
CTL(7, 3) on a fine one. -/
theorem C37_xctl_not_reserved_witness :
    (evctl_isreserved (conv_packev [] 0 (mkCTL 0 0 7 100) (mkPC 0 0 0 0)).2.1.v0 = 0 ∧
      (conv_packev [] 0 (mkCTL 0 0 7 100) (mkPC 0 0 0 0)).2.1.v0 ≤ 127) ∧
    (evctl_isreserved
        (conv_packev [mkCTL 0 0 7 3] 128 (mkCTL 0 0 39 4) (mkPC 0 0 0 0)).2.1.v0 = 0 ∧
      (conv_packev [mkCTL 0 0 7 3] 128 (mkCTL 0 0 39 4) (mkPC 0 0 0 0)).2.1.v0 ≤ 127) :=
  ⟨C37_xctl_not_reserved [] 0 (mkCTL 0 0 7 100) (mkPC 0 0 0 0) rfl (by decide) (by decide)
      (by decide),
   C37_xctl_not_reserved [mkCTL 0 0 7 3] 128 (mkCTL 0 0 39 4) (mkPC 0 0 0 0) rfl (by decide)
      (by decide) (by decide)⟩

/-! ## Packed values stay in 14 bits -/

theorem getctx_bound (l : List Ev) (e : Ev) (hi lo : Nat) (hv : ∀ s ∈ l, s.v1 ≤ 127) :
    conv_getctx l e hi lo = EV_UNDEF ∨ conv_getctx l e hi lo ≤ 16383 := by
  unfold conv_getctx
  simp only
  by_cases hlo : conv_getctl l e lo = EV_UNDEF
  · left; rw [if_pos hlo]
  · by_cases hhi : conv_getctl l e hi = EV_UNDEF
    · left; rw [if_neg hlo, if_pos hhi]
    · right
      rw [if_neg hlo, if_neg hhi, shl7]
      have h1 := getctl_bound 127 l e lo hv
      have h2 := getctl_bound 127 l e hi hv
      rcases h1 with h1 | h1
      · exact absurd h1 hlo
      · rcases h2 with h2 | h2
        · exact absurd h2 hhi
        · omega

theorem packev_7bit_step (l : List Ev) (x : Nat) (ev rev : Ev) (hv : ∀ s ∈ l, s.v1 ≤ 127)
    (hw : wire_7bit ev) :
    (∀ s ∈ (conv_packev l x ev rev).1, s.v1 ≤ 127) ∧
    ((conv_packev l x ev rev).2.2 = 1 → canonical_in_range (conv_packev l x ev rev).2.1) := by
  simp only [wire_7bit, EV_MAXCOARSE] at hw
  constructor
  · rcases packev_cases l x ev rev with ⟨_, he⟩ | ⟨_, _, he⟩ | ⟨hc, l1, he, hl⟩ |
      ⟨_, _, c, _, he⟩ | ⟨_, r, he, _⟩
    · rw [he]; exact hv
    · rw [he]; exact hv
    · have hev : ev.v1 ≤ 127 := by
        rcases hw with ⟨_, _, h⟩ | ⟨h, _⟩
        · exact h
        · exact absurd (hc.symm.trans h) (by decide)
      rw [he]
      rcases hl with hl | hl | ⟨a, hl⟩ | ⟨a, b, hl⟩
      · rw [hl]; exact hv
      · rw [hl]; exact values_setctl 127 l ev hv hev
      · rw [hl]; exact values_setctl 127 _ ev (values_rmctl 127 l ev a hv) hev
      · rw [hl]
        exact values_setctl 127 _ ev
          (values_rmctl 127 _ ev b (values_rmctl 127 l ev a hv)) hev
    · rw [he]; exact hv
    · rw [he]; exact hv
  · intro h1
    simp only [canonical_in_range, EV_MAXCOARSE, EV_MAXFINE]
    rcases hw with ⟨hc, hn, hval⟩ | ⟨hc, hn⟩
    · rcases packev_ctl_emit l x ev rev hc h1 with ⟨_, hd, e1, hk⟩ |
        ⟨hx, _, _, _, _, _, _, _, _, hk⟩
      · right; left
        have hb : conv_getctl l ev 6 ≤ 127 := by
          rcases getctl_bound 127 l ev 6 hv with h | h
          · exact absurd h hd
          · exact h
        have hv1 : (conv_packev l x ev rev).2.1.v1 ≤ 16383 := by
          rw [e1, shl7]; omega
        rcases hk with ⟨hcmd, e0, hne⟩ | ⟨hcmd, e0, hne⟩
        · refine ⟨Or.inl hcmd, ?_, hv1⟩
          rw [e0]
          rcases getctx_bound l ev 99 98 hv with h | h
          · exact absurd h hne
          · exact h
        · refine ⟨Or.inr hcmd, ?_, hv1⟩
          rw [e0]
          rcases getctx_bound l ev 101 98 hv with h | h
          · exact absurd h hne
          · exact h
      · left
        refine ⟨hx, ?_, ?_⟩
        · rcases hk with ⟨_, e, _⟩ | ⟨_, _, e, _⟩ | ⟨_, e, _⟩ <;> rw [e] <;> omega
        · rcases hk with ⟨_, _, e⟩ | ⟨_, _, _, hne, e⟩ | ⟨_, _, e⟩
          · rw [e, shl7]; omega
          · have hb : conv_getctl l ev (ev.v0 - 32) ≤ 127 := by
              rcases getctl_bound 127 l ev (ev.v0 - 32) hv with h | h
              · exact absurd h hne
              · exact h
            rw [e, shl7]; omega
          · rw [e, shl7]; omega
    · right; right
      rw [conv_packev, if_pos hc]
      refine ⟨rfl, hn, ?_⟩
      rcases getctx_bound l ev 0 32 hv with h | h
      · exact Or.inr h
      · exact Or.inl h

theorem pack_stream_7bit (x : Nat) (es : List Ev) :
    ∀ (l : List Ev) (rev : Ev), (∀ s ∈ l, s.v1 ≤ 127) → (∀ e ∈ es, wire_7bit e) →
      (∀ s ∈ (pack_stream x l rev es).1, s.v1 ≤ 127) ∧
      (∀ r ∈ (pack_stream x l rev es).2.2, canonical_in_range r) := by
  induction es with
  | nil =>
    intro l rev hv _
    exact ⟨hv, fun r hr => by simp [pack_stream] at hr⟩
  | cons e es ih =>
    intro l rev hv hes
    obtain ⟨h1, h2⟩ := packev_7bit_step l x e rev hv (hes e (List.mem_cons_self e es))
    obtain ⟨h3, h4⟩ := ih (conv_packev l x e rev).1 (conv_packev l x e rev).2.1 h1
      (fun e1 he1 => hes e1 (List.mem_cons_of_mem e he1))
    rw [pack_stream_cons]
    refine ⟨h3, ?_⟩
    intro r hr
    simp only at hr
    by_cases hc : (conv_packev l x e rev).2.2 = 1
    · rw [if_pos hc] at hr
      rcases List.mem_cons.mp hr with hr1 | hr1
      · rw [hr1]; exact h2 hc
      · exact h4 r hr1
    · rw [if_neg hc] at hr
      exact h4 r hr

/-- Claim C38: packed values stay in 14 bits. For every sequence of wire events
with 7-bit payloads (CTL with ctl_num <= 127 and ctl_val <= 127, PC with
prog <= 127) packed from the empty state list, with any bitmap, every recorded
state value is <= 127, every emitted XCTL, NRPN or RPN has val <= 0x3FFF (and
every NRPN or RPN has num <= 0x3FFF), and every emitted XPC has bank <= 0x3FFF
or bank = UNDEF; every emitted event is one of these four kinds. -/
theorem C38_packed_14bit (x : Nat) (rev : Ev) (es : List Ev) (h : ∀ e ∈ es, wire_7bit e) :
    (∀ s ∈ (pack_stream x [] rev es).1, s.v1 ≤ 127) ∧
    (∀ r ∈ (pack_stream x [] rev es).2.2,
      canonical_in_range r ∧
      (r.cmd = EV_XCTL ∨ r.cmd = EV_NRPN ∨ r.cmd = EV_RPN → r.v1 ≤ 0x3fff) ∧
      (r.cmd = EV_NRPN ∨ r.cmd = EV_RPN → r.v0 ≤ 0x3fff) ∧
      (r.cmd = EV_XPC → r.v1 ≤ 0x3fff ∨ r.v1 = EV_UNDEF)) := by
  obtain ⟨h1, h2⟩ := pack_stream_7bit x es [] rev (fun s hs => by simp at hs) h
  refine ⟨h1, fun r hr => ⟨h2 r hr, ?_⟩⟩
  have hc := h2 r hr
  simp only [canonical_in_range, EV_MAXCOARSE, EV_MAXFINE, EV_XCTL, EV_NRPN, EV_RPN, EV_XPC]
    at hc
  simp only [EV_XCTL, EV_NRPN, EV_RPN, EV_XPC]
  rcases hc with ⟨c1, _, c3⟩ | ⟨c1, c2, c3⟩ | ⟨c1, _, c3⟩
  · refine ⟨fun _ => c3, fun hh => ?_, fun hh => ?_⟩ <;> omega
  · refine ⟨fun _ => c3, fun _ => c2, fun hh => ?_⟩
    omega
  · refine ⟨fun hh => ?_, fun hh => ?_, fun _ => c3⟩ <;> omega

/-- Witness for C38: the four wire events of an NRPN, whose packing emits
NRPN{2356, 11128}. -/
theorem C38_packed_14bit_witness :
    canonical_in_range (mkNRPN 0 0 2356 11128) :=
  ((C38_packed_14bit 0 (mkPC 0 0 0 0)
    [mkCTL 0 0 99 0x12, mkCTL 0 0 98 0x34, mkCTL 0 0 6 0x56, mkCTL 0 0 38 0x78]
    (by simp [wire_7bit, mkCTL])).2 (mkNRPN 0 0 2356 11128) (by decide)).1

/-! ## Insertion followed by removal -/

theorem rm_at_succ (a : Seqev) (rest : List Seqev) (eot : Seqev) (n : Nat) :
    seqev_rm_at (a :: rest) eot (n + 1) =
      match seqev_rm_at rest eot n with
      | some r => some (a :: r.1, r.2)
      | none => none := by
  cases rest with
  | nil => simp [seqev_rm_at]
  | cons b rest2 => simp [seqev_rm_at]

theorem ins_rm_at (se : Seqev) : ∀ (evs : List Seqev) (eot : Seqev) (pos : Nat),
    pos ≤ evs.length → (∀ s ∈ evs ++ [eot], s.delta < 4294967296) →
    ∃ r, seqev_ins_at evs eot pos se = some r ∧ seqev_rm_at r.1 r.2 pos = some (evs, eot) := by
  intro evs
  induction evs with
  | nil =>
    intro eot pos h hd
    have hp : pos = 0 := by simpa using h
    subst hp
    have he := hd eot (by simp)
    refine ⟨_, rfl, ?_⟩
    simp only [seqev_rm_at, Nat.zero_add, Nat.mod_eq_of_lt he]
  | cons a rest ih =>
    intro eot pos h hd
    cases pos with
    | zero =>
      have ha := hd a (by simp)
      refine ⟨_, rfl, ?_⟩
      simp only [seqev_rm_at, Nat.zero_add, Nat.mod_eq_of_lt ha]
    | succ n =>
      obtain ⟨r, h1, h2⟩ := ih eot n (by simpa using h)
        (fun s hs => hd s (by simp at hs ⊢; tauto))
      refine ⟨(a :: r.1, r.2), by simp [seqev_ins_at, h1], ?_⟩
      rw [rm_at_succ, h2]

/-- Claim C39: insert then remove is the identity. For every track (whose
deltas are `unsigned` numbers), every position `pos` in it, `eot` included, and
every unlinked node `se`, `seqev_ins(pos, se)` puts `se` at the index `pos` with
the former delta of `pos`, and `seqev_rm(se)` then restores the track exactly:
the same events in the same order with the same deltas, the delta of `pos`
included. -/
theorem C39_ins_rm_identity (o : Track) (pos : Nat) (se : Seqev)
    (hpos : pos ≤ o.evs.length) (hd : ∀ s ∈ track_nodes o, s.delta < 4294967296) :
    ∃ o1 p, seqev_ins o pos se = some o1 ∧
      (track_nodes o)[pos]? = some p ∧
      (track_nodes o1)[pos]? = some { se with delta := p.delta } ∧
      seqev_rm o1 pos = some o := by
  obtain ⟨r, h1, h2⟩ := ins_rm_at se o.evs o.eot pos hpos hd
  obtain ⟨r1, p, t, g1, g2, _, _, _, g6, _⟩ := ins_at_spec se o.evs o.eot pos 0 hpos
  have hr : r1 = r := by
    rw [h1] at g1
    exact (Option.some.inj g1).symm
  subst hr
  refine ⟨{ evs := r1.1, eot := r1.2 }, p, by simp [seqev_ins, h1], g2, g6, ?_⟩
  simp [seqev_rm, h2]

/-- Witness for C39: an insertion before the note-on of a track of two nodes,
and one before its `eot`. -/
theorem C39_ins_rm_identity_witness :
    (∃ o1 p,
      seqev_ins ⟨[⟨10, ⟨EV_NON, 0, 0, 60, 100⟩⟩], ⟨5, ⟨EV_NULL, 0, 0, 0, 0⟩⟩⟩ 0
          ⟨77, ⟨EV_NOFF, 0, 0, 60, 100⟩⟩ = some o1 ∧
        (track_nodes ⟨[⟨10, ⟨EV_NON, 0, 0, 60, 100⟩⟩], ⟨5, ⟨EV_NULL, 0, 0, 0, 0⟩⟩⟩)[0]?
          = some p ∧
        (track_nodes o1)[0]? =
          some { (⟨77, ⟨EV_NOFF, 0, 0, 60, 100⟩⟩ : Seqev) with delta := p.delta } ∧
        seqev_rm o1 0 =
          some ⟨[⟨10, ⟨EV_NON, 0, 0, 60, 100⟩⟩], ⟨5, ⟨EV_NULL, 0, 0, 0, 0⟩⟩⟩) ∧
    (∃ o1 p,
      seqev_ins ⟨[⟨10, ⟨EV_NON, 0, 0, 60, 100⟩⟩], ⟨5, ⟨EV_NULL, 0, 0, 0, 0⟩⟩⟩ 1
          ⟨77, ⟨EV_NOFF, 0, 0, 60, 100⟩⟩ = some o1 ∧
        (track_nodes ⟨[⟨10, ⟨EV_NON, 0, 0, 60, 100⟩⟩], ⟨5, ⟨EV_NULL, 0, 0, 0, 0⟩⟩⟩)[1]?
          = some p ∧
        (track_nodes o1)[1]? =
          some { (⟨77, ⟨EV_NOFF, 0, 0, 60, 100⟩⟩ : Seqev) with delta := p.delta } ∧
        seqev_rm o1 1 =
          some ⟨[⟨10, ⟨EV_NON, 0, 0, 60, 100⟩⟩], ⟨5, ⟨EV_NULL, 0, 0, 0, 0⟩⟩⟩) :=
  ⟨C39_ins_rm_identity ⟨[⟨10, ⟨EV_NON, 0, 0, 60, 100⟩⟩], ⟨5, ⟨EV_NULL, 0, 0, 0, 0⟩⟩⟩ 0
      ⟨77, ⟨EV_NOFF, 0, 0, 60, 100⟩⟩ (by decide) (by decide),
   C39_ins_rm_identity ⟨[⟨10, ⟨EV_NON, 0, 0, 60, 100⟩⟩], ⟨5, ⟨EV_NULL, 0, 0, 0, 0⟩⟩⟩ 1
      ⟨77, ⟨EV_NOFF, 0, 0, 60, 100⟩⟩ (by decide) (by decide)⟩

/-! ## Names of the event kinds -/

theorem str2cmd_loop_some (str : String) : ∀ (n i j : Nat),
    ev_str2cmd_loop str n i = some j →
      ev_cmdstr.getD j none = some str ∧ i ≤ j ∧ j < i + n := by
  intro n
  induction n with
  | zero => intro i j h; simp [ev_str2cmd_loop] at h
  | succ n ih =>
    intro i j h
    rw [ev_str2cmd_loop] at h
    by_cases hi : ev_cmdstr.getD i none = some str
    · rw [if_pos hi] at h
      have hij : i = j := by simpa using h
      subst hij
      exact ⟨hi, le_refl i, by omega⟩
    · rw [if_neg hi] at h
      obtain ⟨h1, h2, h3⟩ := ih (i + 1) j h
      exact ⟨h1, by omega, by omega⟩

theorem str2cmd_loop_none (str : String) : ∀ (n i : Nat),
    (∀ k, i ≤ k → k < i + n → ev_cmdstr.getD k none ≠ some str) →
      ev_str2cmd_loop str n i = none := by
  intro n
  induction n with
  | zero => intro i _; rfl
  | succ n ih =>
    intro i hfree
    rw [ev_str2cmd_loop, if_neg (hfree i (le_refl i) (by omega))]
    exact ih (i + 1) (fun k hk1 hk2 => hfree k (by omega) (by omega))

/-- Claim C40: event-kind names round-trip. For every kind code k below
EV_NUMCMD other than the unused code 1, `ev_getstr` returns a name and
`ev_str2cmd` on that name returns 1 and sets `cmd` to k, the other fields being
kept; the table has fifteen entries, aligned with the EV_ codes (the name
"non" maps to 9 and "xctl" to 6), and its names are pairwise distinct.
`ev_getstr` returns null for code 1 and for every code >= EV_NUMCMD, and
`ev_str2cmd` returns 0 and leaves the event unchanged for a string that is not
one of the names. -/
theorem C40_names_round_trip (ev : Ev) :
    (ev.cmd < EV_NUMCMD → ev.cmd ≠ 1 →
      ∃ name, ev_getstr ev = some name ∧
        ∀ e : Ev, ev_str2cmd e name = (1, { e with cmd := ev.cmd })) ∧
    (ev.cmd = 1 ∨ EV_NUMCMD ≤ ev.cmd → ev_getstr ev = none) ∧
    (∀ str : String, (∀ k, k < EV_NUMCMD → ev_cmdstr.getD k none ≠ some str) →
      ev_str2cmd ev str = (0, ev)) ∧
    (∀ (str : String) (e : Ev), (ev_str2cmd ev str).1 = 1 →
      ev_getstr (ev_str2cmd ev str).2 = some str ∧
      (ev_str2cmd ev str).2 = { ev with cmd := (ev_str2cmd ev str).2.cmd } ∧
      (ev_str2cmd e str).2.cmd = (ev_str2cmd ev str).2.cmd) ∧
    ev_cmdstr.length = EV_NUMCMD ∧
    (∀ i j, i < EV_NUMCMD → j < EV_NUMCMD → ev_cmdstr.getD i none ≠ none →
      ev_cmdstr.getD i none = ev_cmdstr.getD j none → i = j) ∧
    ev_str2cmd ev "non" = (1, { ev with cmd := EV_NON }) ∧
    ev_str2cmd ev "xctl" = (1, { ev with cmd := EV_XCTL }) ∧
    ev_str2cmd ev "nil" = (1, { ev with cmd := EV_NULL }) ∧
    ev_str2cmd ev "bend" = (1, { ev with cmd := EV_BEND }) := by
  refine ⟨?_, ?_, ?_, ?_, rfl, ?_, rfl, rfl, rfl, rfl⟩
  · intro h1 h2
    simp only [EV_NUMCMD] at h1
    have hg : ev_getstr ev = ev_cmdstr.getD ev.cmd none := by
      unfold ev_getstr
      rw [if_neg (by simp only [EV_NUMCMD]; omega)]
    rw [hg]
    generalize ev.cmd = k at h1 h2
    interval_cases k
    · exact ⟨"nil", rfl, fun e => rfl⟩
    · exact absurd rfl h2
    · exact ⟨"tempo", rfl, fun e => rfl⟩
    · exact ⟨"timesig", rfl, fun e => rfl⟩
    · exact ⟨"nrpn", rfl, fun e => rfl⟩
    · exact ⟨"rpn", rfl, fun e => rfl⟩
    · exact ⟨"xctl", rfl, fun e => rfl⟩
    · exact ⟨"xpc", rfl, fun e => rfl⟩
    · exact ⟨"noff", rfl, fun e => rfl⟩
    · exact ⟨"non", rfl, fun e => rfl⟩
    · exact ⟨"kat", rfl, fun e => rfl⟩
    · exact ⟨"ctl", rfl, fun e => rfl⟩
    · exact ⟨"pc", rfl, fun e => rfl⟩
    · exact ⟨"cat", rfl, fun e => rfl⟩
    · exact ⟨"bend", rfl, fun e => rfl⟩
  · intro h
    unfold ev_getstr
    rcases h with h | h
    · rw [h]; rfl
    · rw [if_pos h]
  · intro str hfree
    unfold ev_str2cmd
    rw [str2cmd_loop_none str EV_NUMCMD 0 (fun k _ hk => hfree k (by omega))]
  · intro str e h
    unfold ev_str2cmd at h ⊢
    cases hl : ev_str2cmd_loop str EV_NUMCMD 0 with
    | none => rw [hl] at h; simp at h
    | some j =>
      obtain ⟨g1, _, g3⟩ := str2cmd_loop_some str EV_NUMCMD 0 j hl
      simp only
      refine ⟨?_, by trivial, by trivial⟩
      unfold ev_getstr
      simp only
      rw [if_neg (by omega)]
      exact g1
  · intro i j hi hj hne heq
    simp only [EV_NUMCMD] at hi hj
    interval_cases i <;> interval_cases j <;>
      first | rfl | exact absurd rfl hne | exact absurd heq (by decide)

/-- Witness for C40: the note-on code 9. -/
theorem C40_names_round_trip_witness :
    ∃ name, ev_getstr ⟨EV_NON, 0, 0, 60, 100⟩ = some name ∧
      ∀ e : Ev, ev_str2cmd e name = (1, { e with cmd := EV_NON }) :=
  (C40_names_round_trip ⟨EV_NON, 0, 0, 60, 100⟩).1 (by decide) (by decide)

/-! ## The tie-break on the data entry low byte -/

/-- Claim C32: tie-break on data entry. For every packer state (a state list
whose recorded values are 7-bit, as every state packed from 7-bit wire events
is) in which NRPN_HI, NRPN_LO and DATAENT_HI are recorded for the device and
channel of the event, whatever is recorded for RPN_HI and RPN_LO,
`conv_packev` of CTL(DATAENT_LO, v) returns 1 with an event of kind NRPN (not
RPN) whose number is NRPN_LO + (NRPN_HI << 7) and whose value is
v + (DATAENT_HI << 7), and leaves the state list unchanged. -/
theorem C32_tie_break (l : List Ev) (x dev ch v : Nat) (rev : Ev)
    (hv : ∀ s ∈ l, s.v1 ≤ 127)
    (hnhi : conv_getctl l (mkCTL dev ch DATAENT_LO v) NRPN_HI ≠ EV_UNDEF)
    (hnlo : conv_getctl l (mkCTL dev ch DATAENT_LO v) NRPN_LO ≠ EV_UNDEF)
    (hd : conv_getctl l (mkCTL dev ch DATAENT_LO v) DATAENT_HI ≠ EV_UNDEF) :
    conv_packev l x (mkCTL dev ch DATAENT_LO v) rev =
      (l, mkNRPN dev ch
        (conv_getctl l (mkCTL dev ch DATAENT_LO v) NRPN_LO +
          (conv_getctl l (mkCTL dev ch DATAENT_LO v) NRPN_HI <<< 7))
        ((v + (conv_getctl l (mkCTL dev ch DATAENT_LO v) DATAENT_HI <<< 7) % 4294967296)
          % 4294967296), 1) ∧
    (v ≤ 127 →
      conv_packev l x (mkCTL dev ch DATAENT_LO v) rev =
        (l, mkNRPN dev ch
          (conv_getctl l (mkCTL dev ch DATAENT_LO v) NRPN_LO +
            (conv_getctl l (mkCTL dev ch DATAENT_LO v) NRPN_HI <<< 7))
          (v + (conv_getctl l (mkCTL dev ch DATAENT_LO v) DATAENT_HI <<< 7)), 1)) := by
  simp only [DATAENT_LO, NRPN_HI, NRPN_LO, DATAENT_HI] at hnhi hnlo hd ⊢
  have bhi : conv_getctl l (mkCTL dev ch 38 v) 99 ≤ 127 := by
    rcases getctl_bound 127 l (mkCTL dev ch 38 v) 99 hv with h | h
    · exact absurd h hnhi
    · exact h
  have blo : conv_getctl l (mkCTL dev ch 38 v) 98 ≤ 127 := by
    rcases getctl_bound 127 l (mkCTL dev ch 38 v) 98 hv with h | h
    · exact absurd h hnlo
    · exact h
  have bd : conv_getctl l (mkCTL dev ch 38 v) 6 ≤ 127 := by
    rcases getctl_bound 127 l (mkCTL dev ch 38 v) 6 hv with h | h
    · exact absurd h hd
    · exact h
  have hctx : conv_getctx l (mkCTL dev ch 38 v) 99 98 =
      conv_getctl l (mkCTL dev ch 38 v) 98 + (conv_getctl l (mkCTL dev ch 38 v) 99 <<< 7) := by
    unfold conv_getctx
    simp only [EV_UNDEF, shl7]
    rw [if_neg (by omega), if_neg (by omega)]
    omega
  have hnum : conv_getctl l (mkCTL dev ch 38 v) 98 +
      (conv_getctl l (mkCTL dev ch 38 v) 99 <<< 7) ≠ 65535 := by
    rw [shl7]
    omega
  have hmain := pk_dataent_lo_nrpn l x dev ch v _ _ rev hctx hnum rfl
    (by simpa using hd)
  refine ⟨?_, ?_⟩
  · rw [hmain, shl7 (conv_getctl l (mkCTL dev ch 38 v) 6)]
  · intro hv7
    rw [hmain, shl7 (conv_getctl l (mkCTL dev ch 38 v) 6)]
    have : (v + conv_getctl l (mkCTL dev ch 38 v) 6 * 128 % 4294967296) % 4294967296 =
        v + conv_getctl l (mkCTL dev ch 38 v) 6 * 128 := by omega
    rw [this]

/-- Witness for C32: the state packed from the empty list by CTL(101, 0),
CTL(99, 0x12), CTL(98, 0x34), CTL(6, 0x56), in which RPN_HI is recorded beside
NRPN_HI, NRPN_LO and DATAENT_HI, so that the lookup of the RPN branch of the
source, made on (RPN_HI, NRPN_LO), succeeds as well as the NRPN one: the event
emitted for CTL(38, 0x78) is the NRPN. -/
theorem C32_tie_break_witness :
    conv_packev
        (pack_stream 0 [] (mkPC 0 0 0 0)
          [mkCTL 0 0 101 0, mkCTL 0 0 99 0x12, mkCTL 0 0 98 0x34, mkCTL 0 0 6 0x56]).1
        0 (mkCTL 0 0 DATAENT_LO 0x78) (mkPC 0 0 0 0) =
      ((pack_stream 0 [] (mkPC 0 0 0 0)
          [mkCTL 0 0 101 0, mkCTL 0 0 99 0x12, mkCTL 0 0 98 0x34, mkCTL 0 0 6 0x56]).1,
        mkNRPN 0 0 2356 11128, 1) ∧
    conv_getctx
        (pack_stream 0 [] (mkPC 0 0 0 0)
          [mkCTL 0 0 101 0, mkCTL 0 0 99 0x12, mkCTL 0 0 98 0x34, mkCTL 0 0 6 0x56]).1
        (mkCTL 0 0 DATAENT_LO 0x78) RPN_HI NRPN_LO ≠ EV_UNDEF :=
  ⟨(C32_tie_break
      (pack_stream 0 [] (mkPC 0 0 0 0)
        [mkCTL 0 0 101 0, mkCTL 0 0 99 0x12, mkCTL 0 0 98 0x34, mkCTL 0 0 6 0x56]).1
      0 0 0 0x78 (mkPC 0 0 0 0) (by decide) (by decide) (by decide) (by decide)).1,
   by decide⟩

end Midish
